import Mathlib

/-!
The BCD binary value decoder of reghive.

A shallow embedding of `bcddevice.go` (GUID decoding, the packet framer, the
partition / file / ramdisk / VHD trailer decoders and the `BCDDevice`
assembler), of `types.go` (`NewBCDDescType`, `DecodeUTF16`), of `bcdnodes.go`
(the alias lookups `NodeKeyVal` and `NodeValKey`) and of `reghive.go`
(`decodeHiveValue`, `Registry.GetNode`), together with the properties of the
specification that concern them.

Go byte slices are modelled with their capacity: a slice expression `b[lo:hi]`
is checked against `cap(b)`, not `len(b)`, so a decoder that is handed the
inner region of a packet can read the bytes that follow that region in the
backing array.  A run-time panic and `log.Fatalf` are outcomes of their own.
-/

namespace Reghive

/-! ## Go run-time model -/

/-- A byte of a Go byte slice. -/
abbrev Byte := Fin 256

/-- Outcome of a Go call: it returns normally, stops with a run-time panic
(slice bounds out of range), or ends the process through `log.Fatalf`. -/
inductive Res (α : Type) where
  | ok (val : α)
  | panic
  | fatal (msg : String)
deriving DecidableEq, Repr

/-- Sequencing of Go calls: a panic or fatal exit stops everything after it. -/
def Res.bind {α β : Type} : Res α → (α → Res β) → Res β
  | .ok a, f => f a
  | .panic, _ => .panic
  | .fatal m, _ => .fatal m

instance : Monad Res where
  pure := Res.ok
  bind := Res.bind

/-- A Go `[]byte`: the `len` visible elements, and the elements of the backing
array between `len` and `cap`. -/
structure Slice where
  vis : List Byte
  spare : List Byte := []
deriving DecidableEq, Repr

/-- Go `len(b)`. -/
def Slice.len (b : Slice) : Nat := b.vis.length

/-- Go `cap(b)`. -/
def Slice.cap (b : Slice) : Nat := b.vis.length + b.spare.length

/-- All elements of the backing array from the start of the slice on. -/
def Slice.full (b : Slice) : List Byte := b.vis ++ b.spare

/-- The Go `nil` slice. -/
def Slice.nil : Slice := ⟨[], []⟩

/-- Go `b[lo:hi]`: panics unless `lo ≤ hi ≤ cap(b)`. -/
def Slice.slice (b : Slice) (lo hi : Nat) : Res Slice :=
  if lo ≤ hi ∧ hi ≤ b.cap then
    .ok ⟨(b.full.drop lo).take (hi - lo), b.full.drop hi⟩
  else .panic

/-- Go `b[lo:]`, that is `b[lo:len(b)]`. -/
def Slice.sliceFrom (b : Slice) (lo : Nat) : Res Slice := b.slice lo b.len

/-- Go `b[:hi]`, that is `b[0:hi]`. -/
def Slice.sliceTo (b : Slice) (hi : Nat) : Res Slice := b.slice 0 hi

/-! ## Standard library: encoding/binary, strconv, fmt, strings, bytes, utf16 -/

/-- Go `binary.LittleEndian.Uint16`. -/
def LittleEndian.Uint16 (b : Slice) : Res Nat :=
  match b.vis with
  | b0 :: b1 :: _ => .ok (b0.val ||| b1.val <<< 8)
  | _ => .panic

/-- Go `binary.LittleEndian.Uint32`. -/
def LittleEndian.Uint32 (b : Slice) : Res Nat :=
  match b.vis with
  | b0 :: b1 :: b2 :: b3 :: _ =>
    .ok (b0.val ||| b1.val <<< 8 ||| b2.val <<< 16 ||| b3.val <<< 24)
  | _ => .panic

/-- Go `binary.LittleEndian.Uint64`. -/
def LittleEndian.Uint64 (b : Slice) : Res Nat :=
  match b.vis with
  | b0 :: b1 :: b2 :: b3 :: b4 :: b5 :: b6 :: b7 :: _ =>
    .ok (b0.val ||| b1.val <<< 8 ||| b2.val <<< 16 ||| b3.val <<< 24 |||
      b4.val <<< 32 ||| b5.val <<< 40 ||| b6.val <<< 48 ||| b7.val <<< 56)
  | _ => .panic

/-- Go `binary.BigEndian.Uint16`. -/
def BigEndian.Uint16 (b : Slice) : Res Nat :=
  match b.vis with
  | b0 :: b1 :: _ => .ok (b1.val ||| b0.val <<< 8)
  | _ => .panic

/-- Go `binary.BigEndian.Uint32`. -/
def BigEndian.Uint32 (b : Slice) : Res Nat :=
  match b.vis with
  | b0 :: b1 :: b2 :: b3 :: _ =>
    .ok (b3.val ||| b2.val <<< 8 ||| b1.val <<< 16 ||| b0.val <<< 24)
  | _ => .panic

/-- The digit table of `strconv`. -/
def digits : List Char := "0123456789abcdefghijklmnopqrstuvwxyz".data

/-- One digit of `strconv.FormatUint`. -/
def digit (n : Nat) : Char := digits.getD n '0'

/-- The digit loop of `strconv.FormatUint`: digits are produced from the least
significant one and put in front of what is already there. -/
def formatBits (base : Nat) : Nat → Nat → List Char → List Char
  | 0, _, acc => acc
  | fuel + 1, u, acc =>
    if u < base then digit u :: acc
    else formatBits base fuel (u / base) (digit (u % base) :: acc)

/-- Go `strconv.FormatUint(u, base)` for a `uint64` (at most 64 digits). -/
def FormatUint (u base : Nat) : String := String.mk (formatBits base 64 u [])

/-- Go `fmt.Sprintf("%0Ns", s)`: `s` padded on the left with zeros to width `N`. -/
def Sprintf0s (width : Nat) (s : String) : String :=
  String.mk (List.leftpad width '0' s.data)

/-- Go `fmt.Sprintf("%d", u)` for an unsigned integer. -/
def Sprintfd (u : Nat) : String := FormatUint u 10

/-- Go `strings.ToUpper`, on the ASCII text it is applied to here. -/
def ToUpper (s : String) : String := String.mk (s.data.map Char.toUpper)

/-- Go `bytes.Index(s, sep)`: the first index at which `sep` occurs in `s`,
or -1. -/
def bytesIndex : List Byte → List Byte → Int
  | [], sep => if sep = [] then 0 else -1
  | x :: t, sep =>
    if sep.isPrefixOf (x :: t) then 0
    else
      let r := bytesIndex t sep
      if r < 0 then -1 else r + 1

/-- Go `utf16.DecodeRune` on a surrogate pair already checked by the caller. -/
def DecodeRune (r1 r2 : Nat) : Nat :=
  ((r1 - 0xd800) <<< 10 ||| (r2 - 0xdc00)) + 0x10000

/-- Go `utf16.Decode`: code units to runes, an unpaired surrogate becoming
U+FFFD. -/
def utf16Decode : List Nat → List Nat
  | [] => []
  | r :: rest =>
    if r < 0xd800 ∨ 0xe000 ≤ r then r :: utf16Decode rest
    else
      match rest with
      | r2 :: rest2 =>
        if 0xd800 ≤ r ∧ r < 0xdc00 ∧ 0xdc00 ≤ r2 ∧ r2 < 0xe000 then
          DecodeRune r r2 :: utf16Decode rest2
        else 0xFFFD :: utf16Decode (r2 :: rest2)
      | [] => [0xFFFD]

/-- Go `string(runes)`: every rune is UTF-8 encoded, an invalid one as U+FFFD. -/
def runesToString (rs : List Nat) : String :=
  String.mk (rs.map fun r => if Nat.isValidChar r then Char.ofNat r else Char.ofNat 0xFFFD)

/-- Go `binary.Read(reader, binary.LittleEndian, &x)` for `x` of `n` 16-bit
words: when the reader holds fewer than `2 * n` bytes the read fails and `x`
keeps its zero values. -/
def readUint16s (n : Nat) (src : List Byte) : List Nat :=
  if 2 * n ≤ src.length then
    (List.range n).map fun i => (src.getD (2 * i) 0).val ||| (src.getD (2 * i + 1) 0).val <<< 8
  else List.replicate n 0

/-! ## bcddevice.go -/

/-- Go `GuidFrom`: the mixed-endian GUID in the first 16 bytes as text. -/
def GuidFrom (b : Slice) : Res String := do
  let t1 ← LittleEndian.Uint32 (← b.slice 0 4)
  let t2 ← LittleEndian.Uint16 (← b.slice 4 6)
  let t3 ← LittleEndian.Uint16 (← b.slice 6 8)
  let t4 ← BigEndian.Uint16 (← b.slice 8 10)
  let t5 ← BigEndian.Uint32 (← b.slice 10 14)
  let t6 ← BigEndian.Uint16 (← b.slice 14 16)
  let l0 := Sprintf0s 8 (FormatUint t1 16)
  let l1 := Sprintf0s 4 (FormatUint t2 16)
  let l2 := Sprintf0s 4 (FormatUint t3 16)
  let l3 := Sprintf0s 4 (FormatUint t4 16)
  let l4 := Sprintf0s 8 (FormatUint t5 16)
  let l5 := Sprintf0s 4 (FormatUint t6 16)
  return ToUpper (l0 ++ "-" ++ l1 ++ "-" ++ l2 ++ "-" ++ l3 ++ "-" ++ l4 ++ l5)

/-- Go `DeviceEntryFrom`: the object GUID field (empty text when its 16 bytes
are all zero) and the bytes after it. -/
def DeviceEntryFrom (b : Slice) : Res (Slice × String) := do
  let head ← b.slice 0 0x10
  let guid ←
    if head.vis.any (fun v => v != 0) then do
      GuidFrom (← b.slice 0 0x10)
    else pure ""
  let rest ← b.sliceFrom 0x10
  return (rest, guid)

/-- Go `PacketFrom`: the tail, the four header words and the inner region. -/
def PacketFrom (b : Slice) : Res (Slice × Nat × Nat × Nat × Nat × Slice) := do
  let h0 ← LittleEndian.Uint32 (← b.slice 0 4)
  let h1 ← LittleEndian.Uint32 (← b.slice 4 8)
  let h2 ← LittleEndian.Uint32 (← b.slice 8 12)
  let h3 ← LittleEndian.Uint32 (← b.slice 12 16)
  let tail ← b.sliceFrom h2
  let inner ← b.slice 0x10 h2
  return (tail, h0, h1, h2, h3, inner)

/-- Go `DiskPartitionFrom`: the 0x38-byte partition record. -/
def DiskPartitionFrom (b : Slice) : Res (Slice × String × Bool × String) := do
  let partid ← b.slice 0 0x10
  let u3 ← LittleEndian.Uint32 (← b.slice 0x10 0x14)
  let tabletype ← LittleEndian.Uint32 (← b.slice 0x14 0x18)
  let diskid ← b.slice 0x18 0x28
  let u40 ← LittleEndian.Uint32 (← b.slice 0x28 0x2c)
  let u41 ← LittleEndian.Uint32 (← b.slice 0x2c 0x30)
  let u42 ← LittleEndian.Uint32 (← b.slice 0x30 0x34)
  let u43 ← LittleEndian.Uint32 (← b.slice 0x34 0x38)
  if u3 ≠ 0 ∨ u40 ≠ 0 ∨ u41 ≠ 0 ∨ u42 ≠ 0 ∨ u43 ≠ 0 then
    return (Slice.nil, "", false, "")
  else if tabletype = 0 then
    let partidValue ← GuidFrom partid
    let diskidValue ← GuidFrom diskid
    return (← b.sliceFrom 0x38, partidValue, true, diskidValue)
  else if tabletype = 1 then
    let partidValue := ToUpper (Sprintfd (← LittleEndian.Uint64 partid))
    let diskidValue := ToUpper (Sprintfd (← LittleEndian.Uint64 diskid))
    return (← b.sliceFrom 0x38, partidValue, false, diskidValue)
  else
    return (Slice.nil, "", false, "")

/-- The path extraction shared by `DiskFileFrom` and `RamDiskFrom`, on the
tail `b` of the framed packet: the text of `b[:pos+1]` and `b[pos+3:]`, where
`pos` is the index of the first three zero bytes. -/
def pathFrom (b : Slice) : Res (Slice × String) := do
  let pos := bytesIndex b.vis [0, 0, 0]
  let pathB ← b.sliceTo (pos + 1).toNat
  let path16 := readUint16s (pathB.len / 2) pathB.vis
  let path := runesToString (utf16Decode path16)
  return (← b.sliceFrom (pos + 3).toNat, path)

/-- Go `DiskFileFrom`: 16 header bytes, a framed packet, a path. -/
def DiskFileFrom (b : Slice) : Res (Slice × Nat × Nat × Slice × String) := do
  let dtype ← LittleEndian.Uint32 (← b.slice 0 4)
  let _ ← LittleEndian.Uint32 (← b.slice 4 8)
  let _ ← LittleEndian.Uint32 (← b.slice 8 12)
  let _ ← LittleEndian.Uint32 (← b.slice 12 16)
  let (b, ptype, _, _, _, data) ← PacketFrom (← b.sliceFrom 0x10)
  let (rest, path) ← pathFrom b
  return (rest, dtype, ptype, data, path)

/-- Go `RamDiskFrom`: nine header words (the first must be 3), a framed
packet, a path. -/
def RamDiskFrom (b : Slice) : Res (Slice × List Nat × Nat × Slice × String) := do
  let hdr ← b.slice 0 0x24
  let u9 := (List.range 9).map fun i =>
    (hdr.vis.getD (4 * i) 0).val ||| (hdr.vis.getD (4 * i + 1) 0).val <<< 8 |||
      (hdr.vis.getD (4 * i + 2) 0).val <<< 16 ||| (hdr.vis.getD (4 * i + 3) 0).val <<< 24
  let b ← b.sliceFrom 0x24
  if u9.getD 0 0 ≠ 3 then
    Res.fatal "Unexpected values in u9"
  else
    let (b, ptype, _, _, _, data) ← PacketFrom b
    let (rest, path) ← pathFrom b
    return (rest, u9, ptype, data, path)

/-- Go `VhdDiskFrom`: a 14-byte header holding `locatecustom`, then a framed
packet. -/
def VhdDiskFrom (b : Slice) : Res (Slice × Nat × Nat × Slice) := do
  let _ ← LittleEndian.Uint32 (← b.slice 0 4)
  let locatecustom ← LittleEndian.Uint32 (← b.slice 4 8)
  let _ ← LittleEndian.Uint32 (← b.slice 8 12)
  let _ ← LittleEndian.Uint16 (← b.slice 12 14)
  let (b, ptype, _, _, _, data) ← PacketFrom (← b.sliceFrom 0x0E)
  return (b, locatecustom, ptype, data)

/-- Go `VhdDiskFileFrom`: 0x18 header bytes, then a framed packet. -/
def VhdDiskFileFrom (b : Slice) : Res (Slice × Nat × Slice) := do
  let _ ← LittleEndian.Uint32 (← b.slice 0 4)
  let (b, ptype, _, _, _, data) ← PacketFrom (← b.sliceFrom 0x18)
  return (b, ptype, data)

/-- Go `BCDDevice`. -/
structure BCDDevice where
  GPT : Bool := false
  Type_ : String := ""
  Disk : String := ""
  Device : String := ""
  DiskID : String := ""
  PartID : String := ""
  GUID : String := ""
  Path : String := ""
  LocateCustom : Nat := 0
deriving DecidableEq, Repr

/-- A disk of the external package `osmgr`: its block device name and its
partition lookup (the block device name of the partition, when known). -/
structure OsDisk where
  Block : String
  GetPartition : String → Option String

/-- The external package `osmgr`: the disk lookup `osmgr.GetDisk`. -/
structure Osmgr where
  GetDisk : String → Option OsDisk

/-- What `BCDDeviceFromBin` returns: a device and a nil error, or a nil device
and an error. -/
inductive DevResult where
  | dev (d : BCDDevice)
  | err (msg : String)
deriving DecidableEq, Repr

/-- The end of `BCDDeviceFromBin`, after the `switch`: a device of type
`partition` gets the block device name that `osmgr` knows for it. -/
def attachDevice (os : Osmgr) (dev : BCDDevice) : BCDDevice :=
  if dev.Type_ = "partition" then
    match os.GetDisk dev.DiskID with
    | some disk =>
      match disk.GetPartition dev.PartID with
      | some part => { dev with Device := part }
      | none => { dev with Device := disk.Block }
    | none => dev
  else dev

/-- The `switch ptype` statement of Go `BCDDeviceFromBin` and what follows
it, on the device built so far, the packet type, the sub-tag `u1` and the
inner region `b` of the outer packet. -/
def switchPtype (os : Osmgr) (dev : BCDDevice) (ptype u1 : Nat) (b : Slice) :
    Res DevResult := do
  if ptype = 0 then
    if u1 = 0 then
      let dev := { dev with Type_ := "file" }
      let (_, _, ptype, b, path) ← DiskFileFrom b
      let dev := { dev with Path := path }
      if ptype = 5 then
        return .dev (attachDevice os { dev with Disk := "boot" })
      else
        let dev := { dev with Disk := "partition" }
        let (_, partID, gpt, diskID) ← DiskPartitionFrom b
        return .dev (attachDevice os { dev with PartID := partID, GPT := gpt, DiskID := diskID })
    else
      let dev := { dev with Type_ := "ramdisk" }
      let (_, _, ptype, b, path) ← RamDiskFrom b
      let dev := { dev with Path := path }
      if ptype = 5 then
        return .dev (attachDevice os { dev with Disk := "boot" })
      else
        let dev := { dev with Disk := "partition" }
        let (_, partID, gpt, diskID) ← DiskPartitionFrom b
        return .dev (attachDevice os { dev with PartID := partID, GPT := gpt, DiskID := diskID })
  else if ptype = 5 then
    return .dev { dev with Type_ := "boot", Disk := "boot" }
  else if ptype = 6 then
    let dev := { dev with Type_ := "partition", Disk := "partition" }
    let (_, partID, gpt, diskID) ← DiskPartitionFrom b
    return .dev (attachDevice os { dev with PartID := partID, GPT := gpt, DiskID := diskID })
  else if ptype = 8 then
    let dev := { dev with Type_ := "vhd" }
    let (_, locatecustom, _, b) ← VhdDiskFrom b
    let dev := { dev with LocateCustom := locatecustom }
    let (_, _, b) ← VhdDiskFileFrom b
    let (_, _, ptype, b, path) ← DiskFileFrom b
    let dev := { dev with Path := path }
    if ptype = 5 then
      return .dev (attachDevice os { dev with Disk := "boot" })
    else if ptype = 8 then
      return .dev (attachDevice os { dev with Disk := "locate" })
    else
      let dev := { dev with Disk := "partition" }
      let (_, partID, gpt, diskID) ← DiskPartitionFrom b
      return .dev (attachDevice os { dev with PartID := partID, GPT := gpt, DiskID := diskID })
  else
    return .err ("Unknown packet type: " ++ Sprintfd ptype)

/-- Go `BCDDeviceFromBin`: the object GUID field, the outer packet, then the
`switch` on its type. -/
def BCDDeviceFromBin (os : Osmgr) (b : Slice) : Res DevResult := do
  let dev : BCDDevice := {}
  let (b, guid) ← DeviceEntryFrom b
  let dev := { dev with GUID := guid }
  let (_, ptype, u1, _, _, b) ← PacketFrom b
  switchPtype os dev ptype u1 b

/-! ## types.go -/

/-- Go `maskObject`. -/
def maskObject : Nat := 0xF0000000

/-- Go `maskImage`. -/
def maskImage : Nat := 0x00F00000

/-- Go `maskApplication`. -/
def maskApplication : Nat := 0x000FFFFF

/-- Go `ObjectType.String`. -/
def ObjectType.String (t : Nat) : String :=
  if t = 1 then "objectApplication"
  else if t = 2 then "objectInherit"
  else if t = 3 then "objectDevice"
  else "objectNULL"

/-- Go `ImageType.String`. -/
def ImageType.String (t : Nat) : String :=
  if t = 1 then "imageFirmware"
  else if t = 2 then "imageWindowsBoot"
  else if t = 3 then "imageLegacyLoader"
  else if t = 4 then "imageRealMode"
  else "imageNULL"

/-- Go `InheritType.String`. -/
def InheritType.String (t : Nat) : String :=
  if t = 1 then "inheritAnyObject"
  else if t = 2 then "inheritApplicationObject"
  else if t = 3 then "inheritDeviceObject"
  else "inheritNULL"

/-- Go `ApplicationType.String`. -/
def ApplicationType.String (t : Nat) : String :=
  if t = 1 then "fwbootmgr"
  else if t = 2 then "bootmgr"
  else if t = 3 then "osloader"
  else if t = 4 then "resume"
  else if t = 5 then "memdiag"
  else if t = 6 then "ntldr"
  else if t = 7 then "setupldr"
  else if t = 8 then "bootsector"
  else if t = 9 then "startup"
  else if t = 10 then "bootapp"
  else "applicationNULL"

/-- Go `BCDDescType`. -/
structure BCDDescType where
  Source : Slice
  ObjectType : Nat
  ImageType : Nat
  InheritType : Nat
  ApplicationType : Nat
deriving DecidableEq, Repr

/-- Go `binary.Read(bytes.NewReader(src), binary.LittleEndian, &x)` for a
`uint32` `x` that starts at zero: with fewer than four bytes the read fails
and `x` stays zero. -/
def readUint32 (src : List Byte) : Nat :=
  match src with
  | b0 :: b1 :: b2 :: b3 :: _ => b0.val ||| b1.val <<< 8 ||| b2.val <<< 16 ||| b3.val <<< 24
  | _ => 0

/-- Go `NewBCDDescType`. -/
def NewBCDDescType (descType : Slice) : BCDDescType :=
  let typeDWORD := readUint32 descType.vis
  let objectType := (typeDWORD &&& maskObject) >>> 28
  let imageType := (typeDWORD &&& maskImage) >>> 20
  let inheritType := (typeDWORD &&& maskImage) >>> 20
  let applicationType := typeDWORD &&& maskApplication
  { Source := descType, ObjectType := objectType, ImageType := imageType,
    InheritType := inheritType, ApplicationType := applicationType }

/-- The first loop of Go `DecodeUTF16`, `for i := len(b) - 2; i >= 0; i -= 2`,
with `k` iterations left (the next one at `i = 2 * (k - 1)`): a null code
unit at `i` cuts `b` to `b[:i]`. -/
def DecodeUTF16.strip : Nat → List Byte → List Byte
  | 0, b => b
  | k + 1, b =>
    if b.getD (2 * k) 0 = 0 ∧ b.getD (2 * k + 1) 0 = 0 then DecodeUTF16.strip k (b.take (2 * k))
    else DecodeUTF16.strip k b

/-- The second loop of Go `DecodeUTF16`: every code unit is decoded on its own
by `utf16.Decode` and its rune is written in UTF-8. -/
def DecodeUTF16.units : List Byte → String
  | x :: y :: t => runesToString (utf16Decode [x.val + (y.val <<< 8)]) ++ DecodeUTF16.units t
  | _ => ""

/-- Go `DecodeUTF16`: the text, or the error for a slice of odd length. -/
def DecodeUTF16 (b : Slice) : Except String String :=
  if b.len % 2 ≠ 0 then .error "Must have even length byte slice"
  else
    let b1 := DecodeUTF16.strip (b.len / 2) b.vis
    if b1.length = 0 then .ok "" else .ok (DecodeUTF16.units b1)

/-! ## bcdnodes.go -/

/-- What the alias functions use from outside: Go `strings.ToLower`, and the
file `bcdnodes.json` as `ioutil.ReadFile` and `json.Unmarshal` deliver it:
`none` when it cannot be read, `some none` when it is not a JSON object of
strings, `some (some testKeys)` with the entries of the object otherwise. -/
structure AliasSource where
  ToLower : String → String
  file : Option (Option (List (String × String)))

/-- Go `m[key] = val` on a map held as a list of entries with distinct keys. -/
def mapInsert : List (String × String) → String → String → List (String × String)
  | [], key, val => [(key, val)]
  | (k, v) :: rest, key, val =>
    if k = key then (k, val) :: rest else (k, v) :: mapInsert rest key val

/-- The loop that fills `nodeKeys` from `testKeys`, lower-casing keys and
values. -/
def loadNodeKeys (toLower : String → String) (testKeys : List (String × String)) :
    List (String × String) :=
  testKeys.foldl (fun m kv => mapInsert m (toLower kv.1) (toLower kv.2)) []

/-- The loop `for key, val := range nodeKeys` of Go `NodeKeyVal` over the
entries in the order in which they are visited, and the `return input` after
it. -/
def rangeKeyVal : List (String × String) → String → String
  | [], input => input
  | (key, val) :: rest, input => if input = key then val else rangeKeyVal rest input

/-- The loop `for key, val := range nodeKeys` of Go `NodeValKey` over the
entries in the order in which they are visited, and the `return input` after
it. -/
def rangeValKey : List (String × String) → String → String
  | [], input => input
  | (key, val) :: rest, input => if input = val then key else rangeValKey rest input

/-- The lazy load of the global `nodeKeys` shared by Go `NodeKeyVal` and
`NodeValKey`: the map to use, `none` when the file cannot be read; a file that
is not a JSON object of strings makes the call panic. -/
def getNodeKeys (src : AliasSource) (nodeKeys : Option (List (String × String))) :
    Res (Option (List (String × String))) :=
  match nodeKeys with
  | some m => .ok (some m)
  | none =>
    match src.file with
    | none => .ok none
    | some none => .panic
    | some (some testKeys) => .ok (some (loadNodeKeys src.ToLower testKeys))

/-- Go `NodeKeyVal`, on the global `nodeKeys` (`none` for nil): the result and
the new value of `nodeKeys`. -/
def NodeKeyVal (src : AliasSource) (nodeKeys : Option (List (String × String)))
    (input : String) : Res (String × Option (List (String × String))) :=
  if input = "" then .ok ("", nodeKeys)
  else do
    match ← getNodeKeys src nodeKeys with
    | none => return (input, none)
    | some m => return (rangeKeyVal m (src.ToLower input), some m)

/-- Go `NodeValKey`, on the global `nodeKeys` (`none` for nil): the result and
the new value of `nodeKeys`. -/
def NodeValKey (src : AliasSource) (nodeKeys : Option (List (String × String)))
    (input : String) : Res (String × Option (List (String × String))) :=
  if input = "" then .ok ("", nodeKeys)
  else do
    match ← getNodeKeys src nodeKeys with
    | none => return (input, none)
    | some m => return (rangeValKey m (src.ToLower input), some m)

/-! ## reghive.go -/

/-- Go `RegValueType` constants. -/
def RegNone : Int := 0

/-- Go `RegSZ`. -/
def RegSZ : Int := 1

/-- Go `RegExpandSZ`. -/
def RegExpandSZ : Int := 2

/-- Go `RegBinary`. -/
def RegBinary : Int := 3

/-- Go `RegDwordLittle`. -/
def RegDwordLittle : Int := 4

/-- Go `RegMultiSZ`. -/
def RegMultiSZ : Int := 7

/-- Go `RegDevice`. -/
def RegDevice : Int := 0xE

/-- Go `RegDescType`. -/
def RegDescType : Int := 0xF

/-- The hive reader `hivex` as `decodeHiveValue` uses it, and the Go
conversion `string(bytes)` of raw bytes to a string.  `NodeName` gives the
name it returns together with its error, if any. -/
structure Hivex where
  NodeValueKey : Int → Except String String
  ValueValue : Int → Except String (Int × Slice)
  NodeName : Int → String × Option String
  ValueMultipleStrings : Int → Except String (List String)
  bytesToString : List Byte → String

/-- Go `HiveValue` (without the pointer to the open hive). -/
structure HiveValue where
  Key : String := ""
  Value : Int := 0
  ValueType : Int := 0
  ValueBytes : Slice := Slice.nil
  ValueString : String := ""
  ValueStrings : List String := []
  ValueDevice : Option BCDDevice := none
  ValueDescType : Option BCDDescType := none
  hiveNode : Int := 0
deriving DecidableEq, Repr

/-- What `decodeHiveValue` returns: a value and a nil error, or a nil value
and an error. -/
inductive ValueResult where
  | value (v : HiveValue)
  | err (msg : String)
deriving DecidableEq, Repr

/-- Go `decodeHiveValue`. -/
def decodeHiveValue (os : Osmgr) (hive : Hivex) (node value : Int) : Res ValueResult :=
  match hive.NodeValueKey value with
  | .error e => .ok (.err e)
  | .ok valueKey =>
    match hive.ValueValue value with
    | .error e => .ok (.err e)
    | .ok (valueType, valueBytes) =>
      let parentNodeName := (hive.NodeName node).1
      let hiveValue : HiveValue :=
        { Key := valueKey, Value := value, ValueType := valueType, ValueBytes := valueBytes,
          hiveNode := node }
      if hiveValue.ValueType = RegBinary then
        if parentNodeName = "device" ∨ parentNodeName = "osdevice" ∨
            parentNodeName = "ramdisksdidevice" then
          (BCDDeviceFromBin os valueBytes).bind fun r =>
            match r with
            | .err e => .ok (.err e)
            | .dev bcdDevice =>
              .ok (.value { hiveValue with
                ValueType := RegDevice, ValueDevice := some bcdDevice, ValueBytes := Slice.nil })
        else .ok (.value hiveValue)
      else if hiveValue.ValueType = RegDwordLittle then
        if parentNodeName = "Description" ∧ valueKey = "Type" then
          let bcdDescType := NewBCDDescType valueBytes
          .ok (.value { hiveValue with
            ValueType := RegDescType, ValueDescType := some bcdDescType,
            ValueBytes := Slice.nil })
        else .ok (.value hiveValue)
      else if hiveValue.ValueType = RegSZ ∨ hiveValue.ValueType = RegExpandSZ then
        let value :=
          match DecodeUTF16 valueBytes with
          | .ok s => s
          | .error _ => hive.bytesToString valueBytes.vis
        .ok (.value { hiveValue with ValueString := value, ValueBytes := Slice.nil })
      else if hiveValue.ValueType = RegMultiSZ then
        match hive.ValueMultipleStrings value with
        | .error e => .ok (.err e)
        | .ok values =>
          if values.length = 0 then .panic
          else
            .ok (.value { hiveValue with
              ValueStrings := values.take (values.length - 1), ValueBytes := Slice.nil })
      else .ok (.value hiveValue)

/-! ## reghive.go: node lookup, with strings.ReplaceAll and strings.Split -/

/-- Go `strings.ReplaceAll(s, old, new)` for an `old` and a `new` of one
character each. -/
def ReplaceAll (s : String) (old new : Char) : String :=
  String.mk (s.data.map fun c => if c = old then new else c)

/-- The scan of Go `strings.Split` for a separator of one character: `cur`
holds the characters of the current piece, last first. -/
def Split.go (sep : Char) : List Char → List Char → List String
  | [], cur => [String.mk cur.reverse]
  | c :: cs, cur =>
    if c = sep then String.mk cur.reverse :: Split.go sep cs []
    else Split.go sep cs (c :: cur)

/-- Go `strings.Split(s, sep)` for a separator of one character. -/
def Split (s : String) (sep : Char) : List String := Split.go sep s.data []

/-- Go `HiveNode` (without the pointer to the open hive). -/
inductive HiveNode where
  | mk (Name : String) (Children : List HiveNode) (Values : List HiveValue) (hiveNode : Int)

/-- The field `Name` of a `HiveNode`. -/
def HiveNode.Name : HiveNode → String
  | .mk name _ _ _ => name

/-- The field `Children` of a `HiveNode`. -/
def HiveNode.Children : HiveNode → List HiveNode
  | .mk _ children _ _ => children

/-- The field `Values` of a `HiveNode`. -/
def HiveNode.Values : HiveNode → List HiveValue
  | .mk _ _ values _ => values

/-- Go `Registry`, with a non-nil root node. -/
structure Registry where
  Hive : HiveNode
  closed : Bool := false

/-- What `GetNode` returns: a node and a nil error, or a nil node and an
error. -/
inductive NodeResult where
  | node (n : HiveNode)
  | err (msg : String)

/-- The inner loop of `GetNode` over the children of the current node: the
first child whose lower-cased name, or else whose `NodeKeyVal`, is the path
component; `none` is the nil `testNode`.  The second operand of `||` runs only
when the first is false. -/
def GetNode.findChild (src : AliasSource) (component : String) :
    List HiveNode → Option (List (String × String)) →
      Res (Option HiveNode × Option (List (String × String)))
  | [], nodeKeys => .ok (none, nodeKeys)
  | childNode :: rest, nodeKeys =>
    if src.ToLower childNode.Name = component then .ok (some childNode, nodeKeys)
    else
      (NodeKeyVal src nodeKeys childNode.Name).bind fun r =>
        if r.1 = component then .ok (some childNode, r.2)
        else GetNode.findChild src component rest r.2

/-- The outer loop of `GetNode` over the path components. -/
def GetNode.loop (src : AliasSource) :
    List String → HiveNode → Option (List (String × String)) →
      Res (NodeResult × Option (List (String × String)))
  | [], retNode, nodeKeys => .ok (.node retNode, nodeKeys)
  | component :: rest, retNode, nodeKeys =>
    (GetNode.findChild src component retNode.Children nodeKeys).bind fun r =>
      match r.1 with
      | none => .ok (.err ("GetNode: Could not find path node " ++ component), r.2)
      | some testNode => GetNode.loop src rest testNode r.2

/-- Go `Registry.GetNode`, with the global `nodeKeys` passed in and out. -/
def GetNode (src : AliasSource) (registry : Registry)
    (nodeKeys : Option (List (String × String))) (path : String) :
    Res (NodeResult × Option (List (String × String))) :=
  let path := ReplaceAll path (Char.ofNat 0x5C) '/'
  if path = "" ∨ path = "/" then .ok (.node registry.Hive, nodeKeys)
  else
    let path := src.ToLower path
    let nodes := Split path '/'
    match nodes with
    | [] => .panic
    | first :: _ =>
      let nodes := if first = "" then nodes.drop 1 else nodes
      match nodes.getLast? with
      | none => .panic
      | some last =>
        let nodes := if last = "" then nodes.take (nodes.length - 1) else nodes
        GetNode.loop src nodes registry.Hive nodeKeys

/-! ## Vocabulary of the specification -/

/-- The byte at offset `i` (zero past the end). -/
def byteAt (l : List Byte) (i : Nat) : Nat := (l.getD i 0).val

/-- The little-endian 16-bit word at offset `i`. -/
def le16At (l : List Byte) (i : Nat) : Nat := byteAt l i + 2 ^ 8 * byteAt l (i + 1)

/-- The little-endian 32-bit word at offset `i`. -/
def le32At (l : List Byte) (i : Nat) : Nat :=
  byteAt l i + 2 ^ 8 * byteAt l (i + 1) + 2 ^ 16 * byteAt l (i + 2) + 2 ^ 24 * byteAt l (i + 3)

/-- The little-endian 64-bit word at offset `i`. -/
def le64At (l : List Byte) (i : Nat) : Nat := le32At l i + 2 ^ 32 * le32At l (i + 4)

/-- The big-endian 16-bit word at offset `i`. -/
def be16At (l : List Byte) (i : Nat) : Nat := byteAt l (i + 1) + 2 ^ 8 * byteAt l i

/-- The big-endian 32-bit word at offset `i`. -/
def be32At (l : List Byte) (i : Nat) : Nat :=
  byteAt l (i + 3) + 2 ^ 8 * byteAt l (i + 2) + 2 ^ 16 * byteAt l (i + 1) + 2 ^ 24 * byteAt l i

/-- The characters `0-9A-F`. -/
def upperHexChars : List Char := "0123456789ABCDEF".data

/-- The upper-case hexadecimal digit of a value below 16. -/
def hexUpper (n : Nat) : Char := upperHexChars.getD n '0'

/-- The two upper-case hexadecimal digits of the byte at offset `i`. -/
def hex2 (l : List Byte) (i : Nat) : List Char :=
  [hexUpper (byteAt l i / 16), hexUpper (byteAt l i % 16)]

/-- The canonical GUID text of the specification: the first three fields
little-endian, the last two big-endian. -/
def guidCanonical (l : List Byte) : List Char :=
  hex2 l 3 ++ hex2 l 2 ++ hex2 l 1 ++ hex2 l 0 ++ [ '-' ] ++
  hex2 l 5 ++ hex2 l 4 ++ [ '-' ] ++
  hex2 l 7 ++ hex2 l 6 ++ [ '-' ] ++
  hex2 l 8 ++ hex2 l 9 ++ [ '-' ] ++
  hex2 l 10 ++ hex2 l 11 ++ hex2 l 12 ++ hex2 l 13 ++ hex2 l 14 ++ hex2 l 15

/-- The GUID bytes of the specification's example
`466F5A88-0AF2-4F76-9038-095B170DC21C`. -/
def guidExample : Slice :=
  ⟨[0x88, 0x5A, 0x6F, 0x46, 0xF2, 0x0A, 0x76, 0x4F, 0x90, 0x38, 0x09, 0x5B, 0x17, 0x0D, 0xC2,
    0x1C], []⟩

/-- The value of an upper-case hexadecimal digit. -/
def hexVal (c : Char) : Nat := upperHexChars.indexOf c

/-- The byte written with two hexadecimal digits at position `i` of a text. -/
def parseByte (cs : List Char) (i : Nat) : Byte :=
  Fin.ofNat (hexVal (cs.getD i '0') * 16 + hexVal (cs.getD (i + 1) '0'))

/-- The inverse of GUID decoding that the specification asks for: the 16 bytes
read back from a canonical GUID text. -/
def GuidParse (s : String) : List Byte :=
  [6, 4, 2, 0, 11, 9, 16, 14, 19, 21, 24, 26, 28, 30, 32, 34].map (parseByte s.data)

/-- A framed packet of type 5 with the two inner bytes `AA BB` and the tail
byte `CC`. -/
def packetExample : Slice :=
  ⟨[5, 0, 0, 0, 0, 0, 0, 0, 18, 0, 0, 0, 0, 0, 0, 0, 0xAA, 0xBB, 0xCC], []⟩

/-- The five reserved DWORDs `u3`, `u4[0..3]` of a partition record are zero. -/
def reservedZero (l : List Byte) : Prop :=
  le32At l 0x10 = 0 ∧ le32At l 0x28 = 0 ∧ le32At l 0x2c = 0 ∧ le32At l 0x30 = 0 ∧
    le32At l 0x34 = 0

instance (l : List Byte) : Decidable (reservedZero l) := by
  unfold reservedZero
  infer_instance

/-- The table-type tag of a partition record. -/
def tableType (l : List Byte) : Nat := le32At l 0x14

/-- A valid partition record: reserved DWORDs zero, table-type 0 or 1. -/
def validRecord (l : List Byte) : Prop :=
  reservedZero l ∧ (tableType l = 0 ∨ tableType l = 1)

instance (l : List Byte) : Decidable (validRecord l) := by
  unfold validRecord
  infer_instance

/-- The MBR partition record of scenario S3: partition-id `0x100000`, disk-id
`0xC0FFEE00`, table-type 1. -/
def mbrRecord : List Byte :=
  [0, 0, 0x10, 0, 0, 0, 0, 0] ++ List.replicate 8 0 ++ [0, 0, 0, 0] ++ [1, 0, 0, 0] ++
    [0, 0xEE, 0xFF, 0xC0, 0, 0, 0, 0] ++ List.replicate 8 0 ++ List.replicate 16 0

/-- A GPT partition record as in scenario S2: partition-id
`466F5A88-0AF2-4F76-9038-095B170DC21C`, disk-id
`04030201-0605-0807-090A-0B0C0D0E0F10`, table-type 0. -/
def gptRecord : List Byte :=
  guidExample.vis ++ [0, 0, 0, 0] ++ [0, 0, 0, 0] ++
    [1, 2, 3, 4, 5, 6, 7, 8, 9, 10, 11, 12, 13, 14, 15, 16] ++ List.replicate 16 0

/-- The owning-object GUID of a payload: empty when the leading 16 bytes are
all zero, their GUID text otherwise. -/
def objectGuid (l : List Byte) : String :=
  if (l.take 16).any (fun v => v != 0) then String.mk (guidCanonical l) else ""

/-- The inner region of the outer packet of a payload `b`. -/
def innerOf (b : Slice) : Slice :=
  ⟨(b.full.drop 32).take (le32At b.full 24 - 16), b.full.drop (16 + le32At b.full 24)⟩

/-- An `osmgr` that knows no disk. -/
def noDisks : Osmgr := ⟨fun _ => none⟩

/-- The header of a framed packet: four little-endian words, given by their
low bytes. -/
def headerBytes (h0 h1 h2 h3 : Byte) : List Byte :=
  [h0, 0, 0, 0, h1, 0, 0, 0, h2, 0, 0, 0, h3, 0, 0, 0]

/-- Scenario S1: the object GUID `466F5A88-0AF2-4F76-9038-095B170DC21C`, then a
packet of type 5 with an empty inner region. -/
def bootPayload : Slice := ⟨guidExample.vis ++ headerBytes 5 0 16 0, []⟩

/-- A payload with a zero object GUID field and a packet of type 7. -/
def unknownPayload : Slice := ⟨List.replicate 16 0 ++ headerBytes 7 0 16 0, []⟩

/-- The `PartitionRef` of the specification for a valid record: partition-id,
`is_gpt` and disk-id; GUID texts for table-type 0, the decimal renderings of
the 64-bit little-endian integers otherwise. -/
def PartitionRef (l : List Byte) : String × Bool × String :=
  if tableType l = 0 then
    (String.mk (guidCanonical l), true, String.mk (guidCanonical (l.drop 0x18)))
  else (Nat.repr (le64At l 0), false, Nat.repr (le64At l 0x18))

/-- Two byte sequences have the same first `n` bytes. -/
def agree (n : Nat) (l r : List Byte) : Prop := ∀ i, i < n → byteAt l i = byteAt r i

/-- Scenario S3: a packet of type 6 holding the MBR record `mbrRecord`. -/
def mbrPayload : Slice := ⟨List.replicate 16 0 ++ headerBytes 6 0 72 0 ++ mbrRecord, []⟩

/-- Scenario S2: a packet of type 6 holding the GPT record `gptRecord`. -/
def gptPayload : Slice := ⟨List.replicate 16 0 ++ headerBytes 6 0 72 0 ++ gptRecord, []⟩

/-- A packet of type 6 whose record is `gptRecord` with the reserved DWORD
`u3` set to 1. -/
def badReservedPayload : Slice :=
  ⟨List.replicate 16 0 ++ headerBytes 6 0 72 0 ++
    (guidExample.vis ++ [1, 0, 0, 0] ++ [0, 0, 0, 0] ++
      [1, 2, 3, 4, 5, 6, 7, 8, 9, 10, 11, 12, 13, 14, 15, 16] ++ List.replicate 16 0), []⟩

/-- A packet of type 6 whose record is `gptRecord` with the table-type 2. -/
def badTablePayload : Slice :=
  ⟨List.replicate 16 0 ++ headerBytes 6 0 72 0 ++
    (guidExample.vis ++ [0, 0, 0, 0] ++ [2, 0, 0, 0] ++
      [1, 2, 3, 4, 5, 6, 7, 8, 9, 10, 11, 12, 13, 14, 15, 16] ++ List.replicate 16 0), []⟩

/-- The UTF-16LE code units of an even-length byte sequence. -/
def wordsOf (p : List Byte) : List Nat :=
  (List.range (p.length / 2)).map fun i => le16At p (2 * i)

/-- The text of a UTF-16LE byte sequence. -/
def decodePath (p : List Byte) : String := runesToString (utf16Decode (wordsOf p))

/-- The last byte of a non-empty byte sequence is zero. -/
def lastZero (p : List Byte) : Prop := 0 < p.length ∧ byteAt p (p.length - 1) = 0

instance (p : List Byte) : Decidable (lastZero p) := by
  unfold lastZero
  infer_instance

/-- The UTF-16LE bytes of an ASCII text. -/
def asciiUtf16 : List Char → List Byte
  | [] => []
  | c :: t => Fin.ofNat c.toNat :: 0 :: asciiUtf16 t

/-- The UTF-16LE bytes of the path of scenario S4. -/
def winloadPath : List Byte := asciiUtf16 "\\Windows\\system32\\winload.exe".data

/-- Scenario S4: an outer packet of type 0 with `u1 = 0` whose inner region
is a file trailer: 16 header bytes, a framed packet of type 6 holding the GPT
record `gptRecord`, then the terminated path. -/
def filePayload : Slice :=
  ⟨List.replicate 16 0 ++ headerBytes 0 0 164 0 ++
    (List.replicate 16 0 ++ headerBytes 6 0 72 0 ++ gptRecord ++ winloadPath ++ [0, 0]), []⟩

/-- A file payload whose framed packet holds the MBR record `mbrRecord` and
whose bytes remaining after the terminated path `a` are the GPT record
`gptRecord`. -/
def fileRemainingPayload : Slice :=
  ⟨List.replicate 16 0 ++ headerBytes 0 0 164 0 ++
    (List.replicate 16 0 ++ headerBytes 6 0 72 0 ++ mbrRecord ++ asciiUtf16 [ 'a' ] ++
      [0, 0] ++ gptRecord), []⟩

/-- A 16-byte packet header whose third word is 8, below the header size. -/
def lowOffsetPacket : Slice := ⟨headerBytes 5 0 8 0 ++ [0xAA, 0xBB], []⟩

/-- A payload with a zero object GUID field and the packet `lowOffsetPacket`,
whose third header word is 8. -/
def lowOffsetPayload : Slice := ⟨List.replicate 16 0 ++ lowOffsetPacket.vis, []⟩

/-- A packet of 18 bytes whose third header word is 40, beyond its length. -/
def highOffsetPacket : Slice := ⟨headerBytes 5 0 40 0 ++ [0xAA, 0xBB], []⟩

/-- The inner region of the framed packet whose header starts at offset `k`
of `b`. -/
def packetAt (b : Slice) (k : Nat) : Slice :=
  ⟨(b.full.drop (k + 16)).take (le32At b.full (k + 8) - 16),
    b.full.drop (k + le32At b.full (k + 8))⟩

/-- A file trailer with an empty framed packet of type 5, the path `a`, the
null code unit and one more byte, 5. -/
def asciiTrailer : Slice :=
  ⟨List.replicate 16 0 ++ headerBytes 5 0 16 0 ++ [0x61, 0, 0, 0, 5], []⟩

/-- A file trailer with an empty framed packet of type 5, the one code unit
`U+3061`, the null code unit and one more byte, 5. -/
def kanaTrailer : Slice :=
  ⟨List.replicate 16 0 ++ headerBytes 5 0 16 0 ++ [0x61, 0x30, 0, 0, 5], []⟩

/-- A ramdisk trailer (first header word 3) with an empty framed packet of
type 5, the path `a`, the null code unit and one more byte, 5. -/
def ramdiskTrailer : Slice :=
  ⟨[3, 0, 0, 0] ++ List.replicate 32 0 ++ headerBytes 5 0 16 0 ++ [0x61, 0, 0, 0, 5], []⟩

/-- A file payload (outer packet of type 0, `u1 = 0`) whose file trailer holds
an empty framed packet of type 5 and then the four bytes `61 00 62 00`: no
three consecutive zero bytes follow the framed packet. -/
def noTerminatorPayload : Slice :=
  ⟨List.replicate 16 0 ++ headerBytes 0 0 52 0 ++
    (List.replicate 16 0 ++ headerBytes 5 0 16 0 ++ [0x61, 0, 0x62, 0]), []⟩

/-- A ramdisk trailer (first header word 3) whose empty framed packet of type
5 is followed by the four bytes `61 00 62 00`. -/
def noTerminatorRamdisk : Slice :=
  ⟨[3, 0, 0, 0] ++ List.replicate 32 0 ++ headerBytes 5 0 16 0 ++ [0x61, 0, 0x62, 0], []⟩

/-- The DWORD `0x10200003` of scenario S6, in little-endian bytes. -/
def descTypeExample : Slice := ⟨[0x03, 0x00, 0x20, 0x10], []⟩

/-- The slices of a description type put together again as
`(object << 28) | (image << 20) | application`. -/
def recombine (d : BCDDescType) : Nat :=
  d.ObjectType <<< 28 ||| d.ImageType <<< 20 ||| d.ApplicationType

/-- The UTF-16LE bytes of `a`, a null code unit and `b`. -/
def interiorNull : Slice := ⟨[0x61, 0, 0, 0, 0x62, 0], []⟩

/-- The UTF-16LE bytes of `U+1F600`, the surrogate pair `D83D DE00`. -/
def surrogatePair : Slice := ⟨[0x3D, 0xD8, 0x00, 0xDE], []⟩

/-- The DWORD `0x01000000`, in little-endian bytes: only bit 24 is set. -/
def reservedBitsExample : Slice := ⟨[0x00, 0x00, 0x00, 0x01], []⟩

/-- The code units before the first null code unit. -/
def cutAtNull : List Byte → List Byte
  | x :: y :: t => if x = 0 ∧ y = 0 then [] else x :: y :: cutAtNull t
  | l => l

/-- A hive reader whose node 1 is named `device` and holds value 10 (key
`Element`, `REG_BINARY`, the boot payload of scenario S1), and whose node 2 is
named `Description` and holds value 20 (key `Type`, `REG_DWORD_LITTLE`, the
DWORD of scenario S6); every other value is `REG_BINARY` with the bytes
`01 02` under the key `Other`. -/
def hiveExample : Hivex where
  NodeValueKey := fun v => if v = 10 then .ok "Element" else if v = 20 then .ok "Type"
    else .ok "Other"
  ValueValue := fun v => if v = 10 then .ok (3, bootPayload)
    else if v = 20 then .ok (4, descTypeExample) else .ok (3, ⟨[1, 2], []⟩)
  NodeName := fun n => if n = 1 then ("device", none) else if n = 2 then ("Description", none)
    else ("Objects", none)
  ValueMultipleStrings := fun _ => .ok []
  bytesToString := fun _ => ""

/-- ASCII lower-casing: what Go `strings.ToLower` does on ASCII text. -/
def asciiLower (s : String) : String := String.mk (s.data.map Char.toLower)

/-- The entries of an alias file naming two BCD elements. -/
def elementAliases : List (String × String) :=
  [("11000001", "Device"), ("12000002", "Path")]

/-- The entries of an alias file in which the alias `b` of `a` is itself a
key. -/
def chainedAliases : List (String × String) := [("a", "b"), ("b", "c")]

/-- The entries of an alias file with the single alias `b` of `a`. -/
def singleAlias : List (String × String) := [("a", "b")]

/-- An alias source whose file holds the given entries, with ASCII
lower-casing. -/
def aliasFile (entries : List (String × String)) : AliasSource :=
  ⟨asciiLower, some (some entries)⟩

/-- The alias map a lookup works with when the global is `nodeKeys`: the
loaded map, or the map the first access loads from a readable file of string
pairs, or none when the file is unavailable. -/
def aliasMap (src : AliasSource) (nodeKeys : Option (List (String × String))) :
    Option (List (String × String)) :=
  match nodeKeys with
  | some m => some m
  | none =>
    match src.file with
    | some (some testKeys) => some (loadNodeKeys src.ToLower testKeys)
    | _ => none

/-- The alias map is loaded, or its file is unavailable or well-formed. -/
def aliasReady (src : AliasSource) (nodeKeys : Option (List (String × String))) : Prop :=
  nodeKeys ≠ none ∨ src.file ≠ some none

/-- An alias source without a readable file, with ASCII lower-casing. -/
def noAliasFile : AliasSource := ⟨asciiLower, none⟩

/-- The character `\`. -/
def backslash : Char := Char.ofNat 0x5C

/-- A path separator: `/` or `\`. -/
def isSeparator (c : Char) : Bool := c == '/' || c == backslash

/-- The pieces of a text between its separators. -/
def pieces : List Char → List (List Char)
  | [] => [[]]
  | c :: cs =>
    if isSeparator c then [] :: pieces cs
    else
      match pieces cs with
      | [] => [[c]]
      | piece :: more => (c :: piece) :: more

/-- A text without its first character when that is a separator. -/
def dropLeadingSeparator : List Char → List Char
  | [] => []
  | c :: cs => if isSeparator c then cs else c :: cs

/-- A text without its last character when that is a separator. -/
def dropTrailingSeparator (cs : List Char) : List Char :=
  match cs.getLast? with
  | some c => if isSeparator c then cs.dropLast else cs
  | none => cs

/-- The lower-cased components of a path: one leading and one trailing
separator are ignored and the rest is split at every `/` and `\`. -/
def pathComponents (lower : String → String) (path : String) : List String :=
  (pieces (dropTrailingSeparator (dropLeadingSeparator path.data))).map
    fun cs => lower (String.mk cs)

/-- The aliased name of a node name: what `NodeKeyVal` returns for it. -/
def aliasedName (src : AliasSource) (nodeKeys : Option (List (String × String)))
    (name : String) : Option String :=
  match NodeKeyVal src nodeKeys name with
  | .ok r => some r.1
  | _ => none

/-- A child matches a path component when its lower-cased raw name or its
aliased name equals the component. -/
def childMatches (src : AliasSource) (nodeKeys : Option (List (String × String)))
    (component : String) (child : HiveNode) : Bool :=
  src.ToLower child.Name == component || aliasedName src nodeKeys child.Name == some component

/-- The descent along the components of a path: at each level into the first
child, in child order, that matches; the component without a matching child
otherwise. -/
def walkPath (src : AliasSource) (nodeKeys : Option (List (String × String))) :
    List String → HiveNode → Except String HiveNode
  | [], n => .ok n
  | component :: rest, n =>
    match n.Children.find? (childMatches src nodeKeys component) with
    | none => .error component
    | some child => walkPath src nodeKeys rest child

/-- Node lookup by path: the root for the empty path and for a path that is
one separator, the descent along the path components otherwise. -/
def lookupPath (src : AliasSource) (nodeKeys : Option (List (String × String)))
    (root : HiveNode) (path : String) : Except String HiveNode :=
  if path = "" ∨ path = "/" ∨ path = String.singleton backslash then .ok root
  else walkPath src nodeKeys (pathComponents src.ToLower path) root

/-- The result of `GetNode` for a lookup: the node found, or the not-found
error that names the component. -/
def lookupResult : Except String HiveNode → NodeResult
  | .ok n => .node n
  | .error component => .err ("GetNode: Could not find path node " ++ component)

/-- A registry tree: the root `BCD` with the children `Description` and
`Objects`, the latter with the child `Elements`, which holds the element
nodes `11000001` and `12000004`. -/
def exampleRegistry : Registry :=
  ⟨.mk "BCD"
    [.mk "Description" [] [] 2,
      .mk "Objects" [.mk "Elements" [.mk "11000001" [] [] 5, .mk "12000004" [] [] 6] [] 4] [] 3]
    [] 1, false⟩

/-- The entries of an alias file that names the element `12000004`. -/
def descriptionAlias : List (String × String) := [("12000004", "Description")]

/-- The path `/objects\ELEMENTS/Description/`. -/
def examplePath : String :=
  "/objects" ++ String.singleton backslash ++ "ELEMENTS/Description/"

/-- The text `GuidFrom` computes, as a function of the backing bytes. -/
def guidOf (l : List Byte) : String :=
  ToUpper (Sprintf0s 8 (FormatUint (le32At l 0) 16) ++ "-" ++
    Sprintf0s 4 (FormatUint (le16At l 4) 16) ++ "-" ++
    Sprintf0s 4 (FormatUint (le16At l 6) 16) ++ "-" ++
    Sprintf0s 4 (FormatUint (be16At l 8) 16) ++ "-" ++
    Sprintf0s 8 (FormatUint (be32At l 10) 16) ++
    Sprintf0s 4 (FormatUint (be16At l 14) 16))

/-- A number written with exactly `n` lower-case hexadecimal digits. -/
def fixedHex : Nat → Nat → List Char
  | 0, _ => []
  | n + 1, u => fixedHex n (u / 16) ++ [digit (u % 16)]

/-! ## Run-time model: basic facts -/

@[simp] theorem Res.ok_bind {α β : Type} (a : α) (f : α → Res β) :
    (Res.ok a >>= f) = f a := rfl

@[simp] theorem Res.panic_bind {α β : Type} (f : α → Res β) :
    ((Res.panic : Res α) >>= f) = Res.panic := rfl

@[simp] theorem Res.fatal_bind {α β : Type} (m : String) (f : α → Res β) :
    ((Res.fatal m : Res α) >>= f) = Res.fatal m := rfl

@[simp] theorem Res.pure_eq {α : Type} (a : α) : (pure a : Res α) = Res.ok a := rfl

theorem Slice.slice_ok (b : Slice) {lo hi : Nat} (h1 : lo ≤ hi) (h2 : hi ≤ b.cap) :
    b.slice lo hi = .ok ⟨(b.full.drop lo).take (hi - lo), b.full.drop hi⟩ := by
  simp [Slice.slice, h1, h2]

theorem Slice.sliceFrom_ok (b : Slice) {lo : Nat} (h : lo ≤ b.len) :
    b.sliceFrom lo = .ok ⟨b.vis.drop lo, b.spare⟩ := by
  have hc : b.len ≤ b.cap := by simp [Slice.len, Slice.cap]
  rw [Slice.sliceFrom, Slice.slice_ok b h hc]
  simp only [Slice.len] at h
  simp only [Slice.full, Slice.len, List.drop_append_of_le_length h, List.drop_left]
  congr 2
  rw [List.take_append_of_le_length (by simp), List.take_of_length_le (by simp)]

theorem Slice.full_length (b : Slice) : b.full.length = b.cap := by
  simp [Slice.full, Slice.cap]

theorem lor_shl (a b k : Nat) (h : a < 2 ^ k) : a ||| b <<< k = a + 2 ^ k * b := by
  rw [Nat.shiftLeft_eq, Nat.mul_comm b, Nat.lor_comm, ← Nat.mul_add_lt_is_or h, Nat.add_comm]

theorem byteAt_lt (l : List Byte) (i : Nat) : byteAt l i < 256 := (l.getD i 0).isLt

theorem byteAt_drop (l : List Byte) (lo i : Nat) : byteAt (l.drop lo) i = byteAt l (lo + i) := by
  simp [byteAt, List.getD_eq_getElem?_getD, List.getElem?_drop]

theorem byteAt_take (l : List Byte) (n i : Nat) (h : i < n) :
    byteAt (l.take n) i = byteAt l i := by
  simp [byteAt, List.getD_eq_getElem?_getD, List.getElem?_take, h]

theorem byteAt_append_left (l r : List Byte) (i : Nat) (h : i < l.length) :
    byteAt (l ++ r) i = byteAt l i := by
  simp [byteAt, List.getD_eq_getElem?_getD, List.getElem?_append_left h]


theorem le32At_drop (l : List Byte) (lo i : Nat) : le32At (l.drop lo) i = le32At l (lo + i) := by
  simp [le32At, byteAt_drop, Nat.add_assoc]

theorem le16At_drop (l : List Byte) (lo i : Nat) : le16At (l.drop lo) i = le16At l (lo + i) := by
  simp [le16At, byteAt_drop, Nat.add_assoc]

theorem be16At_drop (l : List Byte) (lo i : Nat) : be16At (l.drop lo) i = be16At l (lo + i) := by
  simp [be16At, byteAt_drop, Nat.add_assoc]

theorem be32At_drop (l : List Byte) (lo i : Nat) : be32At (l.drop lo) i = be32At l (lo + i) := by
  simp [be32At, byteAt_drop, Nat.add_assoc]

theorem le64At_drop (l : List Byte) (lo i : Nat) : le64At (l.drop lo) i = le64At l (lo + i) := by
  simp [le64At, le32At_drop, Nat.add_assoc]

theorem leUint32_window (l sp : List Byte) (lo : Nat) (h : lo + 4 ≤ l.length) :
    LittleEndian.Uint32 ⟨(l.drop lo).take 4, sp⟩ = .ok (le32At l lo) := by
  have e := le32At_drop l lo 0
  have hd : 4 ≤ (l.drop lo).length := by simp; omega
  rw [Nat.add_zero] at e
  rw [← e]
  generalize l.drop lo = d at hd
  rcases d with _ | ⟨x0, _ | ⟨x1, _ | ⟨x2, _ | ⟨x3, t⟩⟩⟩⟩ <;> simp at hd
  have h0 := x0.isLt
  have h1 := x1.isLt
  have h2 := x2.isLt
  simp only [LittleEndian.Uint32, List.take, le32At, byteAt, List.getD_cons_zero,
    List.getD_cons_succ]
  rw [lor_shl _ _ 8 (by omega), lor_shl _ _ 16 (by omega), lor_shl _ _ 24 (by omega)]


theorem leUint16_window (l sp : List Byte) (lo : Nat) (h : lo + 2 ≤ l.length) :
    LittleEndian.Uint16 ⟨(l.drop lo).take 2, sp⟩ = .ok (le16At l lo) := by
  have e := le16At_drop l lo 0
  have hd : 2 ≤ (l.drop lo).length := by simp; omega
  rw [Nat.add_zero] at e
  rw [← e]
  generalize l.drop lo = d at hd
  rcases d with _ | ⟨x0, _ | ⟨x1, t⟩⟩ <;> simp at hd
  have h0 := x0.isLt
  simp only [LittleEndian.Uint16, List.take, le16At, byteAt, List.getD_cons_zero,
    List.getD_cons_succ]
  rw [lor_shl _ _ 8 (by omega)]

theorem beUint16_window (l sp : List Byte) (lo : Nat) (h : lo + 2 ≤ l.length) :
    BigEndian.Uint16 ⟨(l.drop lo).take 2, sp⟩ = .ok (be16At l lo) := by
  have e := be16At_drop l lo 0
  have hd : 2 ≤ (l.drop lo).length := by simp; omega
  rw [Nat.add_zero] at e
  rw [← e]
  generalize l.drop lo = d at hd
  rcases d with _ | ⟨x0, _ | ⟨x1, t⟩⟩ <;> simp at hd
  have h1 := x1.isLt
  simp only [BigEndian.Uint16, List.take, be16At, byteAt, List.getD_cons_zero,
    List.getD_cons_succ]
  rw [lor_shl _ _ 8 (by omega)]

theorem beUint32_window (l sp : List Byte) (lo : Nat) (h : lo + 4 ≤ l.length) :
    BigEndian.Uint32 ⟨(l.drop lo).take 4, sp⟩ = .ok (be32At l lo) := by
  have e := be32At_drop l lo 0
  have hd : 4 ≤ (l.drop lo).length := by simp; omega
  rw [Nat.add_zero] at e
  rw [← e]
  generalize l.drop lo = d at hd
  rcases d with _ | ⟨x0, _ | ⟨x1, _ | ⟨x2, _ | ⟨x3, t⟩⟩⟩⟩ <;> simp at hd
  have h1 := x1.isLt
  have h2 := x2.isLt
  have h3 := x3.isLt
  simp only [BigEndian.Uint32, List.take, be32At, byteAt, List.getD_cons_zero,
    List.getD_cons_succ]
  rw [lor_shl _ _ 8 (by omega), lor_shl _ _ 16 (by omega), lor_shl _ _ 24 (by omega)]

/-- Reading a 64-bit little-endian word from a slice whose visible part starts
at offset `lo` of `l` and holds at least 8 bytes. -/
theorem leUint64_window (l sp : List Byte) (lo n : Nat) (hn : 8 ≤ n)
    (h : lo + 8 ≤ l.length) :
    LittleEndian.Uint64 ⟨(l.drop lo).take n, sp⟩ = .ok (le64At l lo) := by
  have e := le64At_drop l lo 0
  have hd : 8 ≤ (l.drop lo).length := by simp; omega
  rw [Nat.add_zero] at e
  rw [← e]
  generalize l.drop lo = d at hd
  rcases d with _ | ⟨x0, _ | ⟨x1, _ | ⟨x2, _ | ⟨x3, _ | ⟨x4, _ | ⟨x5, _ | ⟨x6, _ | ⟨x7, t⟩⟩⟩⟩⟩⟩⟩⟩ <;>
    simp at hd
  obtain ⟨m, rfl⟩ : ∃ m, n = m + 8 := ⟨n - 8, by omega⟩
  have h0 := x0.isLt
  have h1 := x1.isLt
  have h2 := x2.isLt
  have h3 := x3.isLt
  have h4 := x4.isLt
  have h5 := x5.isLt
  have h6 := x6.isLt
  simp only [LittleEndian.Uint64, List.take, le64At, le32At, byteAt, List.getD_cons_zero,
    List.getD_cons_succ]
  rw [lor_shl _ _ 8 (by omega), lor_shl _ _ 16 (by omega), lor_shl _ _ 24 (by omega),
    lor_shl _ _ 32 (by omega), lor_shl _ _ 40 (by omega), lor_shl _ _ 48 (by omega),
    lor_shl _ _ 56 (by omega)]
  congr 1
  omega

theorem GuidFrom_eq (b : Slice) (h : 16 ≤ b.cap) : GuidFrom b = .ok (guidOf b.full) := by
  have hl := b.full_length
  simp only [GuidFrom, guidOf]
  rw [b.slice_ok (by omega : 0 ≤ 4) (by omega), b.slice_ok (by omega : 4 ≤ 6) (by omega),
    b.slice_ok (by omega : 6 ≤ 8) (by omega), b.slice_ok (by omega : 8 ≤ 10) (by omega),
    b.slice_ok (by omega : 10 ≤ 14) (by omega), b.slice_ok (by omega : 14 ≤ 16) (by omega)]
  simp only [Res.ok_bind, Nat.reduceSub]
  rw [leUint32_window _ _ _ (by omega), leUint16_window _ _ _ (by omega),
    leUint16_window _ _ _ (by omega), beUint16_window _ _ _ (by omega),
    beUint32_window _ _ _ (by omega), beUint16_window _ _ _ (by omega)]
  rfl


/-! ## Formatting -/

theorem formatBits_append (base : Nat) :
    ∀ (fuel u : Nat) (acc : List Char),
      formatBits base fuel u acc = formatBits base fuel u [] ++ acc := by
  intro fuel
  induction fuel with
  | zero => intro u acc; simp [formatBits]
  | succ f ih =>
    intro u acc
    simp only [formatBits]
    split
    · simp
    · rw [ih (u / base) (digit (u % base) :: acc), ih (u / base) [digit (u % base)]]
      simp

theorem fixedHex_zero (n : Nat) : fixedHex n 0 = List.replicate n '0' := by
  induction n with
  | zero => rfl
  | succ n ih =>
    simp only [fixedHex, Nat.zero_div, Nat.zero_mod, ih]
    rw [List.replicate_succ']
    rfl

theorem fixedHex_small (m u : Nat) (h : u < 16) :
    fixedHex (m + 1) u = List.replicate m '0' ++ [digit u] := by
  simp only [fixedHex]
  rw [Nat.div_eq_of_lt h, Nat.mod_eq_of_lt h, fixedHex_zero]

theorem fixedHex_formatBits :
    ∀ (n fuel u : Nat), n + 1 ≤ fuel → u < 16 ^ (n + 1) →
      (formatBits 16 fuel u []).length ≤ n + 1 ∧
      fixedHex (n + 1) u =
        List.replicate (n + 1 - (formatBits 16 fuel u []).length) '0' ++
          formatBits 16 fuel u [] := by
  intro n
  induction n with
  | zero =>
    intro fuel u hf hu
    obtain ⟨f, rfl⟩ : ∃ f, fuel = f + 1 := ⟨fuel - 1, by omega⟩
    have hu' : u < 16 := by simpa using hu
    simp [formatBits, hu', fixedHex_small]
  | succ n ih =>
    intro fuel u hf hu
    obtain ⟨f, rfl⟩ : ∃ f, fuel = f + 1 := ⟨fuel - 1, by omega⟩
    by_cases hs : u < 16
    · simp [formatBits, hs, fixedHex_small]
    · have hdiv : u / 16 < 16 ^ (n + 1) := by
        rw [Nat.div_lt_iff_lt_mul (by decide)]
        calc u < 16 ^ (n + 1 + 1) := hu
          _ = 16 ^ (n + 1) * 16 := by rw [Nat.pow_succ]
      obtain ⟨hlen, heq⟩ := ih f (u / 16) (by omega) hdiv
      simp only [formatBits, hs, if_false]
      rw [formatBits_append]
      constructor
      · simp; omega
      · rw [fixedHex, heq]
        simp only [List.length_append, List.length_singleton, List.append_assoc]
        congr 2
        omega

theorem Sprintf0s_hex (n u : Nat) (hn : n + 1 ≤ 64) (hu : u < 16 ^ (n + 1)) :
    Sprintf0s (n + 1) (FormatUint u 16) = String.mk (fixedHex (n + 1) u) := by
  obtain ⟨_, heq⟩ := fixedHex_formatBits n 64 u hn hu
  simp only [Sprintf0s, FormatUint, List.leftpad, heq]

theorem fixedHex_byte (n x r : Nat) (hx : x < 256) :
    fixedHex (n + 2) (x + 2 ^ 8 * r) = fixedHex n r ++ [digit (x / 16), digit (x % 16)] := by
  have e1 : (x + 2 ^ 8 * r) / 16 / 16 = r := by omega
  have e2 : (x + 2 ^ 8 * r) / 16 % 16 = x / 16 := by omega
  have e3 : (x + 2 ^ 8 * r) % 16 = x % 16 := by omega
  simp only [fixedHex, e1, e2, e3, List.append_assoc, List.singleton_append]

theorem toUpper_digit (n : Nat) (h : n < 16) : (digit n).toUpper = hexUpper n := by
  interval_cases n <;> decide


theorem fixedHex_le32 (a b c d : Nat) (ha : a < 256) (hb : b < 256) (hc : c < 256)
    (hd : d < 256) :
    (fixedHex 8 (a + 2 ^ 8 * b + 2 ^ 16 * c + 2 ^ 24 * d)).map Char.toUpper =
      [hexUpper (d / 16), hexUpper (d % 16), hexUpper (c / 16), hexUpper (c % 16),
        hexUpper (b / 16), hexUpper (b % 16), hexUpper (a / 16), hexUpper (a % 16)] := by
  have e : a + 2 ^ 8 * b + 2 ^ 16 * c + 2 ^ 24 * d =
      a + 2 ^ 8 * (b + 2 ^ 8 * (c + 2 ^ 8 * (d + 2 ^ 8 * 0))) := by omega
  rw [e, fixedHex_byte 6 _ _ ha, fixedHex_byte 4 _ _ hb, fixedHex_byte 2 _ _ hc,
    fixedHex_byte 0 _ _ hd]
  simp only [fixedHex, List.nil_append, List.cons_append, List.map_cons, List.map_nil]
  rw [toUpper_digit _ (by omega), toUpper_digit _ (by omega), toUpper_digit _ (by omega),
    toUpper_digit _ (by omega), toUpper_digit _ (by omega), toUpper_digit _ (by omega),
    toUpper_digit _ (by omega), toUpper_digit _ (by omega)]

theorem fixedHex_le16 (a b : Nat) (ha : a < 256) (hb : b < 256) :
    (fixedHex 4 (a + 2 ^ 8 * b)).map Char.toUpper =
      [hexUpper (b / 16), hexUpper (b % 16), hexUpper (a / 16), hexUpper (a % 16)] := by
  have e : a + 2 ^ 8 * b = a + 2 ^ 8 * (b + 2 ^ 8 * 0) := by omega
  rw [e, fixedHex_byte 2 _ _ ha, fixedHex_byte 0 _ _ hb]
  simp only [fixedHex, List.nil_append, List.cons_append, List.map_cons, List.map_nil]
  rw [toUpper_digit _ (by omega), toUpper_digit _ (by omega), toUpper_digit _ (by omega),
    toUpper_digit _ (by omega)]

theorem Sprintf0s_hex8 (u : Nat) (hu : u < 4294967296) :
    Sprintf0s 8 (FormatUint u 16) = String.mk (fixedHex 8 u) :=
  Sprintf0s_hex 7 u (by omega) (by omega)

theorem Sprintf0s_hex4 (u : Nat) (hu : u < 65536) :
    Sprintf0s 4 (FormatUint u 16) = String.mk (fixedHex 4 u) :=
  Sprintf0s_hex 3 u (by omega) (by omega)

theorem guidOf_eq (l : List Byte) : guidOf l = String.mk (guidCanonical l) := by
  have hb := byteAt_lt l
  have h32 : ∀ i, le32At l i < 4294967296 := by
    intro i
    have h0 := hb i
    have h1 := hb (i + 1)
    have h2 := hb (i + 2)
    have h3 := hb (i + 3)
    simp only [le32At]
    omega
  have hb32 : ∀ i, be32At l i < 4294967296 := by
    intro i
    have h0 := hb i
    have h1 := hb (i + 1)
    have h2 := hb (i + 2)
    have h3 := hb (i + 3)
    simp only [be32At]
    omega
  have h16 : ∀ i, le16At l i < 65536 := by
    intro i
    have h0 := hb i
    have h1 := hb (i + 1)
    simp only [le16At]
    omega
  have hb16 : ∀ i, be16At l i < 65536 := by
    intro i
    have h0 := hb i
    have h1 := hb (i + 1)
    simp only [be16At]
    omega
  unfold guidOf
  rw [Sprintf0s_hex8 _ (h32 0), Sprintf0s_hex4 _ (h16 4),
    Sprintf0s_hex4 _ (h16 6), Sprintf0s_hex4 _ (hb16 8),
    Sprintf0s_hex8 _ (hb32 10), Sprintf0s_hex4 _ (hb16 14)]
  apply String.ext
  simp only [ToUpper, String.data_append, List.map_append]
  simp only [le32At, le16At, be32At, be16At]
  rw [fixedHex_le32 _ _ _ _ (hb _) (hb _) (hb _) (hb _),
    fixedHex_le32 _ _ _ _ (hb _) (hb _) (hb _) (hb _),
    fixedHex_le16 _ _ (hb _) (hb _), fixedHex_le16 _ _ (hb _) (hb _),
    fixedHex_le16 _ _ (hb _) (hb _), fixedHex_le16 _ _ (hb _) (hb _)]
  simp [guidCanonical, hex2]

theorem guidCanonical_congr (l r : List Byte) (h : ∀ i, i < 16 → byteAt l i = byteAt r i) :
    guidCanonical l = guidCanonical r := by
  simp only [guidCanonical, hex2]
  rw [h 0 (by omega), h 1 (by omega), h 2 (by omega), h 3 (by omega), h 4 (by omega),
    h 5 (by omega), h 6 (by omega), h 7 (by omega), h 8 (by omega), h 9 (by omega),
    h 10 (by omega), h 11 (by omega), h 12 (by omega), h 13 (by omega), h 14 (by omega),
    h 15 (by omega)]

theorem hexUpper_mem (n : Nat) : hexUpper n ∈ upperHexChars := by
  by_cases h : n < 16
  · interval_cases n <;> decide
  · have : hexUpper n = '0' := by
      simp only [hexUpper]
      exact List.getD_eq_default _ _ (by simp [upperHexChars]; omega)
    rw [this]
    decide

theorem GuidFrom_vis (b : Slice) (h : 16 ≤ b.len) :
    GuidFrom b = .ok (String.mk (guidCanonical b.vis)) := by
  rw [GuidFrom_eq b (by simp only [Slice.cap, Slice.len] at *; omega), guidOf_eq]
  have e : guidCanonical b.full = guidCanonical b.vis := by
    apply guidCanonical_congr
    intro i hi
    exact byteAt_append_left _ _ _ (by simp only [Slice.len] at h; omega)
  rw [e]

/-! ## GUID decoding -/

/-- C1: for every byte slice of length at least 16, `GuidFrom` returns the
canonical text of the specification: the two upper-case hexadecimal digits of
the bytes in the order 3 2 1 0 - 5 4 - 7 6 - 8 9 - 10 .. 15; it has 36
characters, a hyphen at positions 8, 13, 18 and 23 and a character of
`0-9A-F` everywhere else. -/
theorem GuidFrom_canonical (b : Slice) (h : 16 ≤ b.len) :
    GuidFrom b = .ok (String.mk (guidCanonical b.vis)) ∧
    (guidCanonical b.vis).length = 36 ∧
    ∀ i, i < 36 →
      if i = 8 ∨ i = 13 ∨ i = 18 ∨ i = 23 then (guidCanonical b.vis)[i]? = some '-'
      else ∃ c, (guidCanonical b.vis)[i]? = some c ∧ c ∈ upperHexChars := by
  refine ⟨GuidFrom_vis b h, by simp [guidCanonical, hex2], ?_⟩
  intro i hi
  interval_cases i <;> simp [guidCanonical, hex2, hexUpper_mem]

/-- C1 at the bytes of the specification's example, which decode to
`466F5A88-0AF2-4F76-9038-095B170DC21C`. -/
theorem GuidFrom_canonical_witness :
    16 ≤ guidExample.len ∧
    String.mk (guidCanonical guidExample.vis) = "466F5A88-0AF2-4F76-9038-095B170DC21C" ∧
    GuidFrom guidExample = .ok (String.mk (guidCanonical guidExample.vis)) :=
  ⟨by decide, by decide, (GuidFrom_canonical guidExample (by decide)).1⟩


theorem hexVal_hexUpper (n : Nat) (h : n < 16) : hexVal (hexUpper n) = n := by
  interval_cases n <;> decide

theorem parse_hex2 (x : Byte) :
    (Fin.ofNat (hexVal (hexUpper (x.val / 16)) * 16 + hexVal (hexUpper (x.val % 16))) : Byte)
      = x := by
  have hx := x.isLt
  rw [hexVal_hexUpper _ (by omega), hexVal_hexUpper _ (by omega)]
  apply Fin.ext
  simp only [Fin.ofNat]
  omega

theorem GuidParse_canonical (vis : List Byte) (h : vis.length = 16) :
    GuidParse (String.mk (guidCanonical vis)) = vis := by
  rcases vis with _ | ⟨x0, _ | ⟨x1, _ | ⟨x2, _ | ⟨x3, _ | ⟨x4, _ | ⟨x5, _ | ⟨x6, _ | ⟨x7,
    _ | ⟨x8, _ | ⟨x9, _ | ⟨x10, _ | ⟨x11, _ | ⟨x12, _ | ⟨x13, _ | ⟨x14, _ | ⟨x15,
    _ | ⟨x16, t⟩⟩⟩⟩⟩⟩⟩⟩⟩⟩⟩⟩⟩⟩⟩⟩⟩ <;> simp at h
  simp [GuidParse, guidCanonical, hex2, parseByte, byteAt, parse_hex2]

/-- C2: GUID decoding is invertible on 16-byte inputs: `GuidParse` reads the
16 bytes back from the text `GuidFrom` returns, so two 16-byte inputs with
the same text are the same bytes. -/
theorem GuidFrom_roundtrip (b : Slice) (h : b.len = 16) :
    (∃ s, GuidFrom b = .ok s ∧ GuidParse s = b.vis) ∧
    ∀ c : Slice, c.len = 16 → GuidFrom c = GuidFrom b → c.vis = b.vis := by
  have key : ∀ c : Slice, c.len = 16 →
      GuidFrom c = .ok (String.mk (guidCanonical c.vis)) ∧
      GuidParse (String.mk (guidCanonical c.vis)) = c.vis := fun c hc =>
    ⟨GuidFrom_vis c (by omega), GuidParse_canonical c.vis hc⟩
  refine ⟨⟨_, (key b h).1, (key b h).2⟩, ?_⟩
  intro c hc heq
  rw [(key c hc).1, (key b h).1] at heq
  have e : String.mk (guidCanonical c.vis) = String.mk (guidCanonical b.vis) := by
    injection heq
  rw [← (key c hc).2, ← (key b h).2, e]

/-- C2 at the bytes of the specification's example. -/
theorem GuidFrom_roundtrip_witness :
    guidExample.len = 16 ∧
    ∃ s, GuidFrom guidExample = .ok s ∧ GuidParse s = guidExample.vis :=
  ⟨by decide, (GuidFrom_roundtrip guidExample (by decide)).1⟩


/-! ## The packet framer -/

theorem le32At_append_left (l r : List Byte) (i : Nat) (h : i + 4 ≤ l.length) :
    le32At (l ++ r) i = le32At l i := by
  simp only [le32At]
  rw [byteAt_append_left _ _ _ (by omega), byteAt_append_left _ _ _ (by omega),
    byteAt_append_left _ _ _ (by omega), byteAt_append_left _ _ _ (by omega)]

theorem le32At_lt (l : List Byte) (i : Nat) : le32At l i < 4294967296 := by
  have h0 := byteAt_lt l i
  have h1 := byteAt_lt l (i + 1)
  have h2 := byteAt_lt l (i + 2)
  have h3 := byteAt_lt l (i + 3)
  simp only [le32At]
  omega

/-- What `PacketFrom` returns when the header is readable and the third header
word lies between 16 and the length. -/
theorem PacketFrom_eq (b : Slice) (hlo : 16 ≤ le32At b.full 8) (hhi : le32At b.full 8 ≤ b.len) :
    PacketFrom b = .ok (⟨b.vis.drop (le32At b.full 8), b.spare⟩, le32At b.full 0,
      le32At b.full 4, le32At b.full 8, le32At b.full 12,
      ⟨(b.full.drop 16).take (le32At b.full 8 - 16), b.full.drop (le32At b.full 8)⟩) := by
  have hl := b.full_length
  have hc : b.len ≤ b.cap := by simp [Slice.len, Slice.cap]
  simp only [PacketFrom]
  rw [b.slice_ok (by omega : 0 ≤ 4) (by omega), b.slice_ok (by omega : 4 ≤ 8) (by omega),
    b.slice_ok (by omega : 8 ≤ 12) (by omega), b.slice_ok (by omega : 12 ≤ 16) (by omega)]
  simp only [Res.ok_bind, Nat.reduceSub]
  rw [leUint32_window _ _ _ (by omega), leUint32_window _ _ _ (by omega),
    leUint32_window _ _ _ (by omega), leUint32_window _ _ _ (by omega)]
  simp only [Res.ok_bind]
  rw [b.sliceFrom_ok hhi, b.slice_ok hlo (by omega)]
  rfl

/-- C3: packet frame closure.  For a slice of at least 16 bytes whose third
little-endian header word `h2` satisfies `16 ≤ h2 ≤ len(b)`, `PacketFrom`
returns the four header words, `inner = b[16:h2]` and `tail = b[h2:]`; the
lengths add up and header, inner and tail concatenated are the input. -/
theorem PacketFrom_closure (b : Slice) (h16 : 16 ≤ b.len) (hlo : 16 ≤ le32At b.vis 8)
    (hhi : le32At b.vis 8 ≤ b.len) :
    ∃ tail inner : Slice,
      PacketFrom b = .ok (tail, le32At b.vis 0, le32At b.vis 4, le32At b.vis 8,
        le32At b.vis 12, inner) ∧
      inner.vis = (b.vis.drop 16).take (le32At b.vis 8 - 16) ∧
      tail.vis = b.vis.drop (le32At b.vis 8) ∧
      inner.len + tail.len + 16 = b.len ∧
      b.vis.take 16 ++ inner.vis ++ tail.vis = b.vis := by
  have hv : ∀ i, i + 4 ≤ 16 → le32At b.full i = le32At b.vis i := fun i hi =>
    le32At_append_left _ _ _ (by simp only [Slice.len] at h16; omega)
  have e := PacketFrom_eq b (by rw [hv 8 (by omega)]; exact hlo)
    (by rw [hv 8 (by omega)]; exact hhi)
  rw [hv 0 (by omega), hv 4 (by omega), hv 8 (by omega), hv 12 (by omega)] at e
  simp only [Slice.len] at h16 hhi
  have hin : (b.full.drop 16).take (le32At b.vis 8 - 16) =
      (b.vis.drop 16).take (le32At b.vis 8 - 16) := by
    rw [Slice.full, List.drop_append_of_le_length h16,
      List.take_append_of_le_length (by simp; omega)]
  refine ⟨_, _, e, hin, rfl, ?_, ?_⟩
  · simp only [Slice.len, hin, List.length_take, List.length_drop]
    omega
  · simp only [hin]
    rw [← List.drop_take]
    have e3 : List.take 16 b.vis = List.take 16 (List.take (le32At b.vis 8) b.vis) := by
      rw [List.take_take, Nat.min_eq_left hlo]
    rw [e3, List.take_append_drop, List.take_append_drop]


/-- C3 at a packet with two inner bytes and one tail byte. -/
theorem PacketFrom_closure_witness :
    16 ≤ packetExample.len ∧ 16 ≤ le32At packetExample.vis 8 ∧
    le32At packetExample.vis 8 ≤ packetExample.len ∧
    PacketFrom packetExample = .ok (⟨[0xCC], []⟩, 5, 0, 18, 0, ⟨[0xAA, 0xBB], [0xCC]⟩) ∧
    ∃ tail inner : Slice,
      PacketFrom packetExample = .ok (tail, le32At packetExample.vis 0,
        le32At packetExample.vis 4, le32At packetExample.vis 8,
        le32At packetExample.vis 12, inner) ∧
      inner.vis = (packetExample.vis.drop 16).take (le32At packetExample.vis 8 - 16) ∧
      tail.vis = packetExample.vis.drop (le32At packetExample.vis 8) ∧
      inner.len + tail.len + 16 = packetExample.len ∧
      packetExample.vis.take 16 ++ inner.vis ++ tail.vis = packetExample.vis :=
  ⟨by decide, by decide, by decide, by decide,
    PacketFrom_closure packetExample (by decide) (by decide) (by decide)⟩

/-! ## The partition record -/

theorem Slice.window_full (l : List Byte) {lo hi : Nat} (h : lo ≤ hi) :
    Slice.full ⟨(l.drop lo).take (hi - lo), l.drop hi⟩ = l.drop lo := by
  have e : l.drop hi = (l.drop lo).drop (hi - lo) := by
    rw [List.drop_drop]
    congr 1
    omega
  simp only [Slice.full, e, List.take_append_drop]

theorem toUpper_formatBits10 :
    ∀ (fuel u : Nat) (acc : List Char),
      (formatBits 10 fuel u acc).map Char.toUpper
        = formatBits 10 fuel u (acc.map Char.toUpper) := by
  have hd : ∀ n, n < 10 → (digit n).toUpper = digit n := by
    intro n hn
    interval_cases n <;> decide
  intro fuel
  induction fuel with
  | zero => intro u acc; simp [formatBits]
  | succ f ih =>
    intro u acc
    simp only [formatBits]
    split
    · next h => simp [hd u h]
    · rw [ih]
      simp [hd (u % 10) (Nat.mod_lt _ (by decide))]

theorem ToUpper_Sprintfd (u : Nat) : ToUpper (Sprintfd u) = Sprintfd u := by
  simp only [ToUpper, Sprintfd, FormatUint, toUpper_formatBits10, List.map_nil]

theorem formatBits_toDigitsCore :
    ∀ (f g u : Nat) (acc : List Char), u < 10 ^ (f + 1) → u < 10 ^ (g + 1) →
      formatBits 10 (f + 1) u acc = Nat.toDigitsCore 10 (g + 1) u acc := by
  have hd : ∀ n, n < 10 → digit n = Nat.digitChar n := by
    intro n hn
    interval_cases n <;> decide
  have hdiv : ∀ k u : Nat, u < 10 ^ (k + 1) → u / 10 < 10 ^ k := by
    intro k u hu
    rw [Nat.div_lt_iff_lt_mul (by decide)]
    calc u < 10 ^ (k + 1) := hu
      _ = 10 ^ k * 10 := by rw [Nat.pow_succ]
  intro f
  induction f with
  | zero =>
    intro g u acc hf hg
    have hs : u < 10 := by simpa using hf
    simp [formatBits, Nat.toDigitsCore, hs, Nat.div_eq_of_lt hs, Nat.mod_eq_of_lt hs, hd u hs]
  | succ f ih =>
    intro g u acc hf hg
    by_cases hs : u < 10
    · simp [formatBits, Nat.toDigitsCore, hs, Nat.div_eq_of_lt hs, Nat.mod_eq_of_lt hs,
        hd u hs]
    · cases g with
      | zero => exact absurd (by simpa using hg) hs
      | succ g =>
        have h1 : u / 10 ≠ 0 := by omega
        rw [formatBits, Nat.toDigitsCore]
        simp only [hs, h1, if_false]
        rw [hd (u % 10) (Nat.mod_lt _ (by decide))]
        exact ih g (u / 10) _ (hdiv _ _ hf) (hdiv _ _ hg)

/-- The model of `fmt.Sprintf("%d", u)` is the decimal rendering of `u`. -/
theorem Sprintfd_eq_repr (u : Nat) (h : u < 2 ^ 64) : Sprintfd u = Nat.repr u := by
  have h1 : u < 10 ^ (63 + 1) := by
    calc u < 2 ^ 64 := h
      _ ≤ 10 ^ (63 + 1) := by norm_num
  have h2 : u < 10 ^ (u + 1) := by
    calc u < 2 ^ u := Nat.lt_two_pow u
      _ ≤ 10 ^ u := Nat.pow_le_pow_left (by decide) u
      _ ≤ 10 ^ (u + 1) := Nat.pow_le_pow_right (by decide) (by omega)
  simp only [Sprintfd, FormatUint, Nat.repr, Nat.toDigits, List.asString]
  rw [formatBits_toDigitsCore 63 u u [] h1 h2]


theorem GuidFrom_window (l : List Byte) (lo hi : Nat) (hhi : hi = lo + 16)
    (h : hi ≤ l.length) :
    GuidFrom ⟨(l.drop lo).take 16, l.drop hi⟩ = .ok (guidOf (l.drop lo)) := by
  have hw := Slice.window_full l (by omega : lo ≤ hi)
  have e16 : hi - lo = 16 := by omega
  rw [e16] at hw
  rw [GuidFrom_eq _ (by rw [← Slice.full_length, hw]; simp; omega), hw]

/-- What `DiskPartitionFrom` does on a slice whose capacity holds a record. -/
theorem DiskPartitionFrom_eq (b : Slice) (hc : 0x38 ≤ b.cap) :
    DiskPartitionFrom b =
      if ¬ reservedZero b.full then .ok (Slice.nil, "", false, "")
      else if tableType b.full = 0 then
        (b.sliceFrom 0x38).bind fun r =>
          .ok (r, guidOf b.full, true, guidOf (b.full.drop 0x18))
      else if tableType b.full = 1 then
        (b.sliceFrom 0x38).bind fun r =>
          .ok (r, Sprintfd (le64At b.full 0), false, Sprintfd (le64At b.full 0x18))
      else .ok (Slice.nil, "", false, "") := by
  have hl := b.full_length
  simp only [DiskPartitionFrom]
  rw [b.slice_ok (by omega : 0 ≤ 0x10) (by omega), b.slice_ok (by omega : 0x10 ≤ 0x14) (by omega),
    b.slice_ok (by omega : 0x14 ≤ 0x18) (by omega), b.slice_ok (by omega : 0x18 ≤ 0x28) (by omega),
    b.slice_ok (by omega : 0x28 ≤ 0x2c) (by omega), b.slice_ok (by omega : 0x2c ≤ 0x30) (by omega),
    b.slice_ok (by omega : 0x30 ≤ 0x34) (by omega), b.slice_ok (by omega : 0x34 ≤ 0x38) (by omega)]
  simp only [Res.ok_bind, Nat.reduceSub]
  rw [leUint32_window _ _ _ (by omega), leUint32_window _ _ _ (by omega),
    leUint32_window _ _ _ (by omega), leUint32_window _ _ _ (by omega),
    leUint32_window _ _ _ (by omega), leUint32_window _ _ _ (by omega)]
  simp only [Res.ok_bind]
  rw [GuidFrom_window _ 0 16 rfl (by omega), GuidFrom_window _ 24 40 rfl (by omega),
    leUint64_window _ _ 0 16 (by omega) (by omega),
    leUint64_window _ _ 24 16 (by omega) (by omega)]
  simp only [Res.ok_bind, ToUpper_Sprintfd, List.drop_zero, reservedZero, tableType]
  by_cases hz : le32At b.full 16 = 0 ∧ le32At b.full 40 = 0 ∧ le32At b.full 44 = 0 ∧
      le32At b.full 48 = 0 ∧ le32At b.full 52 = 0
  · obtain ⟨z0, z1, z2, z3, z4⟩ := hz
    simp only [z0, z1, z2, z3, z4, ne_eq, not_true_eq_false, or_self, if_false, and_self]
    by_cases t0 : le32At b.full 20 = 0
    · simp only [t0, if_true]
      rfl
    · simp only [t0, if_false]
      by_cases t1 : le32At b.full 20 = 1
      · simp only [t1, if_true]
        rfl
      · simp only [t1, if_false]
        rfl
  · have hz2 : le32At b.full 16 ≠ 0 ∨ le32At b.full 40 ≠ 0 ∨ le32At b.full 44 ≠ 0 ∨
        le32At b.full 48 ≠ 0 ∨ le32At b.full 52 ≠ 0 := by
      by_contra hcon
      simp only [not_or, not_not] at hcon
      exact hz hcon
    simp only [hz, hz2, if_true, not_false_eq_true]
    rfl


theorem record_full_vis (b : Slice) (h : 0x38 ≤ b.len) :
    (reservedZero b.full ↔ reservedZero b.vis) ∧ tableType b.full = tableType b.vis := by
  have hv : ∀ i, i + 4 ≤ 0x38 → le32At b.full i = le32At b.vis i := fun i hi =>
    le32At_append_left _ _ _ (by simp only [Slice.len] at h; omega)
  simp only [reservedZero, tableType]
  rw [hv 0x10 (by omega), hv 0x28 (by omega), hv 0x2c (by omega), hv 0x30 (by omega),
    hv 0x34 (by omega), hv 0x14 (by omega)]
  exact ⟨Iff.rfl, rfl⟩

/-- C4: partition record totality.  On a slice of at least 0x38 bytes that
starts with a valid partition record, `DiskPartitionFrom` returns normally,
its remaining slice is `b[0x38:]` (exactly 0x38 bytes are consumed) and its
`is_gpt` flag is true exactly when the table-type tag is 0. -/
theorem DiskPartitionFrom_total (b : Slice) (hlen : 0x38 ≤ b.len) (hv : validRecord b.vis) :
    ∃ rest partid diskid,
      DiskPartitionFrom b = .ok (rest, partid, decide (tableType b.vis = 0), diskid) ∧
      b.sliceFrom 0x38 = .ok rest ∧
      rest.vis = b.vis.drop 0x38 ∧
      rest.len + 0x38 = b.len := by
  obtain ⟨hr, ht⟩ := record_full_vis b hlen
  have hc : 0x38 ≤ b.cap := by simp only [Slice.len, Slice.cap] at *; omega
  have hlen2 : (⟨b.vis.drop 0x38, b.spare⟩ : Slice).len + 0x38 = b.len := by
    simp only [Slice.len, List.length_drop] at *
    omega
  rw [DiskPartitionFrom_eq b hc, b.sliceFrom_ok hlen, ht]
  simp only [hr.mpr hv.1, not_true_eq_false, if_false]
  rcases hv.2 with t0 | t1
  · exact ⟨_, guidOf b.full, guidOf (b.full.drop 0x18), by simp [t0, Res.bind], rfl, rfl,
      hlen2⟩
  · exact ⟨_, Sprintfd (le64At b.full 0), Sprintfd (le64At b.full 0x18),
      by simp [t1, Res.bind], rfl, rfl, hlen2⟩

/-- C4 at the MBR record of scenario S3 followed by one more byte, and at the
GPT record of scenario S2. -/
theorem DiskPartitionFrom_total_witness :
    0x38 ≤ (⟨mbrRecord ++ [0xAB], []⟩ : Slice).len ∧
    validRecord (mbrRecord ++ [0xAB]) ∧
    DiskPartitionFrom ⟨mbrRecord ++ [0xAB], []⟩
      = .ok (⟨[0xAB], []⟩, "1048576", false, "3237998080") ∧
    DiskPartitionFrom ⟨gptRecord, []⟩
      = .ok (⟨[], []⟩, "466F5A88-0AF2-4F76-9038-095B170DC21C", true,
          "04030201-0605-0807-090A-0B0C0D0E0F10") ∧
    ∃ rest partid diskid,
      DiskPartitionFrom ⟨mbrRecord ++ [0xAB], []⟩
        = .ok (rest, partid, decide (tableType (mbrRecord ++ [0xAB]) = 0), diskid) ∧
      (⟨mbrRecord ++ [0xAB], []⟩ : Slice).sliceFrom 0x38 = .ok rest ∧
      rest.vis = (mbrRecord ++ [0xAB]).drop 0x38 ∧
      rest.len + 0x38 = (⟨mbrRecord ++ [0xAB], []⟩ : Slice).len :=
  ⟨by decide, by decide, by decide, by decide,
    DiskPartitionFrom_total ⟨mbrRecord ++ [0xAB], []⟩ (by decide) (by decide)⟩


/-! ## Normal return of a sequence of calls -/

theorem Res.bind_eq_ok {α β : Type} (x : Res α) (f : α → Res β) (r : β) :
    (x >>= f) = .ok r ↔ ∃ a, x = .ok a ∧ f a = .ok r := by
  cases x with
  | ok a => simp
  | panic => simp
  | fatal m => simp

theorem Slice.slice_eq_ok (b : Slice) {lo hi : Nat} {s : Slice} (h : b.slice lo hi = .ok s) :
    lo ≤ hi ∧ hi ≤ b.cap := by
  by_contra hcon
  simp [Slice.slice, hcon] at h

theorem Slice.sliceFrom_eq_ok (b : Slice) {lo : Nat} {s : Slice}
    (h : b.sliceFrom lo = .ok s) : lo ≤ b.len :=
  (b.slice_eq_ok h).1

/-! ## The object GUID field -/

theorem DeviceEntryFrom_eq (b : Slice) (h : 16 ≤ b.len) :
    DeviceEntryFrom b = .ok (⟨b.vis.drop 16, b.spare⟩, objectGuid b.vis) := by
  have hc : 16 ≤ b.cap := by simp only [Slice.len, Slice.cap] at *; omega
  have ht : List.take 16 b.full = List.take 16 b.vis := by
    simp only [Slice.len] at h
    rw [Slice.full, List.take_append_of_le_length h]
  simp only [DeviceEntryFrom]
  rw [b.slice_ok (by omega : 0 ≤ 0x10) hc, b.sliceFrom_ok h]
  simp only [Res.ok_bind, Nat.sub_zero, List.drop_zero, ht, objectGuid]
  split
  · have hg := GuidFrom_vis ⟨List.take 16 b.vis, List.drop 16 b.full⟩
      (by simp only [Slice.len, List.length_take] at *; omega)
    have e : guidCanonical (List.take 16 b.vis) = guidCanonical b.vis :=
      guidCanonical_congr _ _ fun i hi => byteAt_take _ _ _ hi
    simp only [e] at hg
    simp only [hg, Res.ok_bind, Res.pure_eq]
  · simp only [Res.ok_bind, Res.pure_eq]

theorem DeviceEntryFrom_of_ok (b : Slice) {r : Slice × String}
    (h : DeviceEntryFrom b = .ok r) : 16 ≤ b.len := by
  simp only [DeviceEntryFrom, Res.bind_eq_ok] at h
  obtain ⟨head, _, h2⟩ := h
  split at h2
  · simp only [Res.bind_eq_ok] at h2
    obtain ⟨_, _, _, _, rest, hrest, _⟩ := h2
    exact b.sliceFrom_eq_ok hrest
  · simp only [Res.pure_eq, Res.ok_bind, Res.bind_eq_ok] at h2
    obtain ⟨rest, hrest, _⟩ := h2
    exact b.sliceFrom_eq_ok hrest

theorem PacketFrom_of_ok (b : Slice) {r : Slice × Nat × Nat × Nat × Nat × Slice}
    (h : PacketFrom b = .ok r) :
    16 ≤ le32At b.full 8 ∧ le32At b.full 8 ≤ b.len := by
  have hl := b.full_length
  have h' := h
  simp only [PacketFrom, Res.bind_eq_ok] at h'
  obtain ⟨s0, hs0, h0, hh0, s1, hs1, h1, hh1, s2, hs2, h2, hh2, s3, hs3, h3, hh3, tail, htail,
    inner, hinner, _⟩ := h'
  have hc : 16 ≤ b.cap := (b.slice_eq_ok hs3).2
  rw [b.slice_ok (by omega : 8 ≤ 12) (by omega)] at hs2
  injection hs2 with hs2
  subst hs2
  simp only [Nat.reduceSub] at hh2
  rw [leUint32_window _ _ _ (by omega)] at hh2
  injection hh2 with hh2
  subst hh2
  exact ⟨(b.slice_eq_ok hinner).1, b.sliceFrom_eq_ok htail⟩

theorem DiskPartitionFrom_of_ok (b : Slice) {r : Slice × String × Bool × String}
    (h : DiskPartitionFrom b = .ok r) : 0x38 ≤ b.cap := by
  simp only [DiskPartitionFrom, Res.bind_eq_ok] at h
  obtain ⟨_, _, _, _, _, _, _, _, _, _, _, _, _, _, _, _, _, _, _, _, _, _, _, _, s, hs, _⟩ := h
  exact (b.slice_eq_ok hs).2


/-! ## The outer frame of a device payload -/

theorem Slice.drop16_full (b : Slice) (h : 16 ≤ b.len) :
    Slice.full ⟨b.vis.drop 16, b.spare⟩ = b.full.drop 16 := by
  simp only [Slice.len] at h
  simp only [Slice.full, List.drop_append_of_le_length h]

theorem innerOf_full (b : Slice) (hlo : 16 ≤ le32At b.full 24) :
    (innerOf b).full = b.full.drop 32 := by
  have e : 16 + le32At b.full 24 - 32 = le32At b.full 24 - 16 := by omega
  have := Slice.window_full b.full (by omega : 32 ≤ 16 + le32At b.full 24)
  rw [e] at this
  exact this

/-- A payload with a well-framed outer packet is decoded by the `switch` on
the packet type, applied to the inner region. -/
theorem BCDDeviceFromBin_frame (os : Osmgr) (b : Slice) (hlo : 16 ≤ le32At b.full 24)
    (hhi : le32At b.full 24 + 16 ≤ b.len) :
    BCDDeviceFromBin os b =
      switchPtype os { GUID := objectGuid b.vis } (le32At b.full 16) (le32At b.full 20)
        (innerOf b) := by
  have h16 : 16 ≤ b.len := by omega
  have hf := b.drop16_full h16
  have hp := PacketFrom_eq ⟨b.vis.drop 16, b.spare⟩
    (by simp only [hf, le32At_drop, Nat.reduceAdd]; exact hlo)
    (by simp only [hf, le32At_drop, Nat.reduceAdd, Slice.len, List.length_drop] at *; omega)
  simp only [hf, le32At_drop, List.drop_drop, Nat.reduceAdd] at hp
  simp only [BCDDeviceFromBin, DeviceEntryFrom_eq b h16, Res.ok_bind, hp, innerOf]

/-- A payload that is decoded without a panic has a well-framed outer packet. -/
theorem BCDDeviceFromBin_of_ok (os : Osmgr) (b : Slice) {r : DevResult}
    (h : BCDDeviceFromBin os b = .ok r) :
    16 ≤ le32At b.full 24 ∧ le32At b.full 24 + 16 ≤ b.len := by
  obtain ⟨⟨b1, guid⟩, h1, h⟩ := (Res.bind_eq_ok _ _ _).mp h
  have h16 := DeviceEntryFrom_of_ok b h1
  rw [DeviceEntryFrom_eq b h16] at h1
  injection h1 with h1
  injection h1 with h1 _
  subst h1
  obtain ⟨r2, h2, _⟩ := (Res.bind_eq_ok _ _ _).mp h
  have hp := PacketFrom_of_ok _ h2
  simp only [b.drop16_full h16, le32At_drop, Slice.len, List.length_drop, Nat.reduceAdd] at *
  omega


theorem le32At_full_vis (b : Slice) (i : Nat) (h : i + 4 ≤ b.len) :
    le32At b.full i = le32At b.vis i :=
  le32At_append_left _ _ _ h

/-- The frame lemma with the header read from the visible bytes. -/
theorem BCDDeviceFromBin_frame_vis (os : Osmgr) (b : Slice) (hlo : 16 ≤ le32At b.vis 24)
    (hhi : le32At b.vis 24 + 16 ≤ b.len) :
    BCDDeviceFromBin os b =
      switchPtype os { GUID := objectGuid b.vis } (le32At b.vis 16) (le32At b.vis 20)
        (innerOf b) := by
  have e16 := le32At_full_vis b 16 (by omega)
  have e20 := le32At_full_vis b 20 (by omega)
  have e24 := le32At_full_vis b 24 (by omega)
  rw [BCDDeviceFromBin_frame os b (by omega) (by omega), e16, e20]

theorem objectGuid_zero (l : List Byte) (h : ∀ v ∈ l.take 16, v = 0) : objectGuid l = "" := by
  have : (l.take 16).any (fun v => v != 0) = false := by
    rw [List.any_eq_false]
    intro v hv
    simp [h v hv]
  simp [objectGuid, this]

theorem objectGuid_nonzero (l : List Byte) (hl : 16 ≤ l.length)
    (h : ¬ ∀ v ∈ l.take 16, v = 0) :
    GuidFrom ⟨l.take 16, []⟩ = .ok (objectGuid l) := by
  have : (l.take 16).any (fun v => v != 0) = true := by
    rw [List.any_eq_true]
    push_neg at h
    obtain ⟨v, hv, hne⟩ := h
    exact ⟨v, hv, by simpa using hne⟩
  rw [GuidFrom_vis _ (by simp [Slice.len]; omega)]
  have e : guidCanonical (List.take 16 l) = guidCanonical l :=
    guidCanonical_congr _ _ fun i hi => byteAt_take _ _ _ hi
  simp only [objectGuid, this, if_true, e]

/-! ## The device assembler -/

/-- C8: a payload whose well-framed outer packet has a type other than 0, 5, 6
and 8 yields the error `Unknown packet type: <ptype>` and no device. -/
theorem BCDDeviceFromBin_unknown (os : Osmgr) (b : Slice) (hlo : 16 ≤ le32At b.vis 24)
    (hhi : le32At b.vis 24 + 16 ≤ b.len)
    (h0 : le32At b.vis 16 ≠ 0) (h5 : le32At b.vis 16 ≠ 5) (h6 : le32At b.vis 16 ≠ 6)
    (h8 : le32At b.vis 16 ≠ 8) :
    BCDDeviceFromBin os b
      = .ok (.err ("Unknown packet type: " ++ Nat.repr (le32At b.vis 16))) := by
  rw [BCDDeviceFromBin_frame_vis os b hlo hhi]
  have hr := Sprintfd_eq_repr (le32At b.vis 16)
    (Nat.lt_of_lt_of_le (le32At_lt _ _) (by norm_num))
  simp only [switchPtype, h0, h5, h6, h8, if_false, hr, Res.pure_eq]

/-- C8 at a payload whose packet has type 7. -/
theorem BCDDeviceFromBin_unknown_witness :
    16 ≤ le32At unknownPayload.vis 24 ∧
    le32At unknownPayload.vis 24 + 16 ≤ unknownPayload.len ∧
    le32At unknownPayload.vis 16 = 7 ∧
    BCDDeviceFromBin noDisks unknownPayload
      = .ok (.err ("Unknown packet type: " ++ Nat.repr (le32At unknownPayload.vis 16))) :=
  ⟨by decide, by decide, by decide,
    BCDDeviceFromBin_unknown noDisks unknownPayload (by decide) (by decide) (by decide)
      (by decide) (by decide) (by decide)⟩

/-- C9: a payload whose well-framed outer packet has type 5 is a boot device:
type and disk are `boot`, the GUID is empty when the leading 16 bytes are all
zero and their GUID text otherwise, and every other field is left empty,
whatever the inner bytes are. -/
theorem BCDDeviceFromBin_boot (os : Osmgr) (b : Slice) (hlo : 16 ≤ le32At b.vis 24)
    (hhi : le32At b.vis 24 + 16 ≤ b.len) (h5 : le32At b.vis 16 = 5) :
    ∃ guid : String,
      BCDDeviceFromBin os b = .ok (.dev
        { GPT := false, Type_ := "boot", Disk := "boot", Device := "", DiskID := "",
          PartID := "", GUID := guid, Path := "", LocateCustom := 0 }) ∧
      ((∀ v ∈ b.vis.take 16, v = 0) → guid = "") ∧
      ((¬ ∀ v ∈ b.vis.take 16, v = 0) → GuidFrom ⟨b.vis.take 16, []⟩ = .ok guid) := by
  refine ⟨objectGuid b.vis, ?_, objectGuid_zero _, objectGuid_nonzero _ ?_⟩
  · rw [BCDDeviceFromBin_frame_vis os b hlo hhi]
    simp [switchPtype, h5]
  · simp only [Slice.len] at hhi
    omega

/-- C9 at scenario S1: the boot device with GUID
`466F5A88-0AF2-4F76-9038-095B170DC21C`. -/
theorem BCDDeviceFromBin_boot_witness :
    16 ≤ le32At bootPayload.vis 24 ∧ le32At bootPayload.vis 24 + 16 ≤ bootPayload.len ∧
    le32At bootPayload.vis 16 = 5 ∧
    BCDDeviceFromBin noDisks bootPayload = .ok (.dev
      { Type_ := "boot", Disk := "boot", GUID := "466F5A88-0AF2-4F76-9038-095B170DC21C" }) ∧
    ∃ guid : String,
      BCDDeviceFromBin noDisks bootPayload = .ok (.dev
        { GPT := false, Type_ := "boot", Disk := "boot", Device := "", DiskID := "",
          PartID := "", GUID := guid, Path := "", LocateCustom := 0 }) ∧
      ((∀ v ∈ bootPayload.vis.take 16, v = 0) → guid = "") ∧
      ((¬ ∀ v ∈ bootPayload.vis.take 16, v = 0) →
        GuidFrom ⟨bootPayload.vis.take 16, []⟩ = .ok guid) :=
  ⟨by decide, by decide, by decide, by decide,
    BCDDeviceFromBin_boot noDisks bootPayload (by decide) (by decide) (by decide)⟩


/-! ## Partition records inside a payload -/

theorem agree_drop (b : Slice) (k n : Nat) (h : k + n ≤ b.len) :
    agree n (b.full.drop k) (b.vis.drop k) := by
  intro i hi
  rw [byteAt_drop, byteAt_drop]
  exact byteAt_append_left _ _ _ (by simp only [Slice.len] at h; omega)

theorem le32At_agree {n : Nat} {l r : List Byte} (h : agree n l r) (i : Nat)
    (hi : i + 4 ≤ n) : le32At l i = le32At r i := by
  simp only [le32At]
  rw [h i (by omega), h (i + 1) (by omega), h (i + 2) (by omega), h (i + 3) (by omega)]

theorem le64At_agree {n : Nat} {l r : List Byte} (h : agree n l r) (i : Nat)
    (hi : i + 8 ≤ n) : le64At l i = le64At r i := by
  simp only [le64At]
  rw [le32At_agree h i (by omega), le32At_agree h (i + 4) (by omega)]

theorem validRecord_agree {l r : List Byte} (h : agree 0x38 l r) :
    (validRecord l ↔ validRecord r) := by
  simp only [validRecord, reservedZero, tableType]
  rw [le32At_agree h 0x10 (by omega), le32At_agree h 0x28 (by omega),
    le32At_agree h 0x2c (by omega), le32At_agree h 0x30 (by omega),
    le32At_agree h 0x34 (by omega), le32At_agree h 0x14 (by omega)]

theorem tableType_agree {l r : List Byte} (h : agree 0x38 l r) : tableType l = tableType r :=
  le32At_agree h 0x14 (by omega)

theorem PartitionRef_agree {l r : List Byte} (h : agree 0x38 l r) :
    PartitionRef l = PartitionRef r := by
  have g1 : guidCanonical l = guidCanonical r :=
    guidCanonical_congr _ _ fun i hi => h i (by omega)
  have g2 : guidCanonical (l.drop 0x18) = guidCanonical (r.drop 0x18) :=
    guidCanonical_congr _ _ fun i hi => by
      rw [byteAt_drop, byteAt_drop]
      exact h _ (by omega)
  simp only [PartitionRef, tableType_agree h, g1, g2, le64At_agree h 0 (by omega),
    le64At_agree h 0x18 (by omega)]

theorem le64At_lt (l : List Byte) (i : Nat) : le64At l i < 2 ^ 64 := by
  have h0 := le32At_lt l i
  have h1 := le32At_lt l (i + 4)
  simp only [le64At]
  omega

/-- On a valid record of a slice with at least 0x38 bytes `DiskPartitionFrom`
returns the `PartitionRef` of the specification and `b[0x38:]`. -/
theorem DiskPartitionFrom_valid (b : Slice) (hlen : 0x38 ≤ b.len) (hv : validRecord b.full) :
    DiskPartitionFrom b = .ok (⟨b.vis.drop 0x38, b.spare⟩, (PartitionRef b.full).1,
      (PartitionRef b.full).2.1, (PartitionRef b.full).2.2) := by
  have hc : 0x38 ≤ b.cap := by simp only [Slice.len, Slice.cap] at *; omega
  rw [DiskPartitionFrom_eq b hc, b.sliceFrom_ok hlen]
  simp only [hv.1, not_true_eq_false, if_false, PartitionRef]
  rcases hv.2 with t0 | t1
  · simp only [t0, if_true, guidOf_eq]
    rfl
  · simp only [t1, if_true, Nat.one_ne_zero, if_false, Sprintfd_eq_repr _ (le64At_lt _ _)]
    rfl

/-- On a record that is not valid `DiskPartitionFrom` returns empty values and
no error. -/
theorem DiskPartitionFrom_invalid (b : Slice) (hc : 0x38 ≤ b.cap) (hv : ¬ validRecord b.full) :
    DiskPartitionFrom b = .ok (Slice.nil, "", false, "") := by
  rw [DiskPartitionFrom_eq b hc]
  by_cases hz : reservedZero b.full
  · have ht : ¬ (tableType b.full = 0 ∨ tableType b.full = 1) := fun h => hv ⟨hz, h⟩
    simp only [not_or] at ht
    simp only [hz, not_true_eq_false, if_false, ht.1, ht.2]
  · simp only [hz, not_false_eq_true, if_true]

theorem attachDevice_fields (os : Osmgr) (d : BCDDevice) :
    (attachDevice os d).Type_ = d.Type_ ∧ (attachDevice os d).Disk = d.Disk ∧
    (attachDevice os d).GPT = d.GPT ∧ (attachDevice os d).DiskID = d.DiskID ∧
    (attachDevice os d).PartID = d.PartID ∧ (attachDevice os d).GUID = d.GUID ∧
    (attachDevice os d).Path = d.Path ∧ (attachDevice os d).LocateCustom = d.LocateCustom := by
  unfold attachDevice
  split
  · split
    · split <;> simp
    · simp
  · simp

theorem switchPtype_partition (os : Osmgr) (dev : BCDDevice) (u1 : Nat) (b : Slice) :
    switchPtype os dev 6 u1 b =
      (DiskPartitionFrom b).bind fun r =>
        .ok (.dev (attachDevice os { dev with
          Type_ := "partition", Disk := "partition", PartID := r.2.1, GPT := r.2.2.1,
          DiskID := r.2.2.2 })) := by
  simp only [switchPtype]
  rfl

theorem switchPtype_type (os : Osmgr) (dev : BCDDevice) (ptype u1 : Nat) (b : Slice)
    (d : BCDDevice) (h : switchPtype os dev ptype u1 b = .ok (.dev d))
    (ht : d.Type_ = "partition") : ptype = 6 := by
  by_contra hne
  have key : ∀ d0 : BCDDevice, d0.Type_ ≠ "partition" →
      (Res.ok (DevResult.dev (attachDevice os d0)) : Res DevResult) ≠ .ok (.dev d) := by
    intro d0 h0 he
    injection he with he
    injection he with he
    rw [← he, (attachDevice_fields os d0).1] at ht
    exact h0 ht
  unfold switchPtype at h
  simp only [hne, if_false, Res.pure_eq] at h
  split at h
  · split at h
    · obtain ⟨⟨_, _, pt, b2, path⟩, _, h⟩ := (Res.bind_eq_ok _ _ _).mp h
      dsimp only at h
      split at h
      · exact key _ (by dsimp only; decide) h
      · obtain ⟨⟨_, _, _, _⟩, _, h⟩ := (Res.bind_eq_ok _ _ _).mp h
        exact key _ (by dsimp only; decide) h
    · obtain ⟨⟨_, _, pt, b2, path⟩, _, h⟩ := (Res.bind_eq_ok _ _ _).mp h
      dsimp only at h
      split at h
      · exact key _ (by dsimp only; decide) h
      · obtain ⟨⟨_, _, _, _⟩, _, h⟩ := (Res.bind_eq_ok _ _ _).mp h
        exact key _ (by dsimp only; decide) h
  · split at h
    · injection h with h
      injection h with h
      rw [← h] at ht
      exact absurd ht (by dsimp only; decide)
    · split at h
      · obtain ⟨⟨_, lc, _, b2⟩, _, h⟩ := (Res.bind_eq_ok _ _ _).mp h
        dsimp only at h
        obtain ⟨⟨_, _, b3⟩, _, h⟩ := (Res.bind_eq_ok _ _ _).mp h
        dsimp only at h
        obtain ⟨⟨_, _, pt, b4, path⟩, _, h⟩ := (Res.bind_eq_ok _ _ _).mp h
        dsimp only at h
        split at h
        · exact key _ (by dsimp only; decide) h
        · split at h
          · exact key _ (by dsimp only; decide) h
          · obtain ⟨⟨_, _, _, _⟩, _, h⟩ := (Res.bind_eq_ok _ _ _).mp h
            exact key _ (by dsimp only; decide) h
      · injection h with h
        injection h


theorem innerOf_len (b : Slice) (hlo : 16 ≤ le32At b.full 24)
    (hhi : le32At b.full 24 + 16 ≤ b.len) : (innerOf b).len = le32At b.full 24 - 16 := by
  have hl := b.full_length
  simp only [Slice.len, Slice.cap, innerOf, List.length_take, List.length_drop] at *
  omega

theorem GuidFrom_field (l : List Byte) (h : 16 ≤ l.length) :
    GuidFrom ⟨l.take 16, []⟩ = .ok (String.mk (guidCanonical l)) := by
  rw [GuidFrom_vis _ (by simp [Slice.len]; omega)]
  have e : guidCanonical (List.take 16 l) = guidCanonical l :=
    guidCanonical_congr _ _ fun i hi => byteAt_take _ _ _ hi
  simp only [e]

/-- A payload with a packet of type 6 whose inner region starts with a valid
record is decoded to the `PartitionRef` of that record. -/
theorem BCDDeviceFromBin_partition_valid (os : Osmgr) (b : Slice)
    (hlo : 16 + 0x38 ≤ le32At b.vis 24) (hhi : le32At b.vis 24 + 16 ≤ b.len)
    (h6 : le32At b.vis 16 = 6) (hv : validRecord (b.vis.drop 32)) :
    BCDDeviceFromBin os b = .ok (.dev (attachDevice os
      { GUID := objectGuid b.vis, Type_ := "partition", Disk := "partition",
        PartID := (PartitionRef (b.vis.drop 32)).1, GPT := (PartitionRef (b.vis.drop 32)).2.1,
        DiskID := (PartitionRef (b.vis.drop 32)).2.2 })) := by
  have e24 := le32At_full_vis b 24 (by omega)
  have hag := agree_drop b 32 0x38 (by omega)
  have hfull := innerOf_full b (by omega)
  have hlen := innerOf_len b (by omega) (by omega)
  rw [BCDDeviceFromBin_frame_vis os b (by omega) hhi, h6, switchPtype_partition,
    DiskPartitionFrom_valid (innerOf b) (by omega)
      (by rw [hfull]; exact (validRecord_agree hag).mpr hv),
    hfull, PartitionRef_agree hag]
  rfl


/-- C5 (as amended): a payload whose outer packet has type 6 and whose inner
region begins with a valid partition record is decoded, without error, to a
device of type and disk `partition`; for table-type 0 it has `gpt = true` and
the GUID texts of the partition-id and disk-id fields, for table-type 1 it
has `gpt = false` and the decimal renderings of the little-endian 64-bit
integers in the first 8 bytes of the two fields. -/
theorem BCDDeviceFromBin_partition (os : Osmgr) (b : Slice)
    (hlo : 16 + 0x38 ≤ le32At b.vis 24) (hhi : le32At b.vis 24 + 16 ≤ b.len)
    (h6 : le32At b.vis 16 = 6) (hv : validRecord (b.vis.drop 32)) :
    ∃ dev : BCDDevice,
      BCDDeviceFromBin os b = .ok (.dev dev) ∧
      dev.Type_ = "partition" ∧ dev.Disk = "partition" ∧
      (tableType (b.vis.drop 32) = 0 →
        dev.GPT = true ∧
        GuidFrom ⟨(b.vis.drop 32).take 16, []⟩ = .ok dev.PartID ∧
        GuidFrom ⟨(b.vis.drop 56).take 16, []⟩ = .ok dev.DiskID) ∧
      (tableType (b.vis.drop 32) = 1 →
        dev.GPT = false ∧
        dev.PartID = Nat.repr (le64At b.vis 32) ∧
        dev.DiskID = Nat.repr (le64At b.vis 56)) := by
  obtain ⟨f1, f2, f3, f4, f5, _⟩ := attachDevice_fields os
    { GUID := objectGuid b.vis, Type_ := "partition", Disk := "partition",
      PartID := (PartitionRef (b.vis.drop 32)).1, GPT := (PartitionRef (b.vis.drop 32)).2.1,
      DiskID := (PartitionRef (b.vis.drop 32)).2.2 }
  refine ⟨_, BCDDeviceFromBin_partition_valid os b hlo hhi h6 hv, f1, f2, ?_, ?_⟩
  · intro t0
    have hl : 88 ≤ b.vis.length := by simp only [Slice.len] at hhi; omega
    have e56 : List.drop 0x18 (List.drop 32 b.vis) = List.drop 56 b.vis := by
      rw [List.drop_drop]
    rw [f3, f4, f5, GuidFrom_field _ (by simp; omega), GuidFrom_field _ (by simp; omega)]
    simp only [PartitionRef, t0, if_true, e56, and_self]
  · intro t1
    rw [f3, f4, f5]
    simp only [PartitionRef, t1, Nat.one_ne_zero, if_false, le64At_drop, Nat.add_zero,
      Nat.reduceAdd, and_self]

/-- C5 at scenario S3 (MBR): the partition-id `0x100000` is rendered as
`1048576` and the disk-id `0xC0FFEE00` as `3237998080`. -/
theorem BCDDeviceFromBin_partition_witness :
    16 + 0x38 ≤ le32At mbrPayload.vis 24 ∧ le32At mbrPayload.vis 24 + 16 ≤ mbrPayload.len ∧
    le32At mbrPayload.vis 16 = 6 ∧ validRecord (mbrPayload.vis.drop 32) ∧
    le64At mbrPayload.vis 32 = 0x0000000000100000 ∧
    le64At mbrPayload.vis 56 = 0x00000000C0FFEE00 ∧
    BCDDeviceFromBin noDisks mbrPayload = .ok (.dev
      { Type_ := "partition", Disk := "partition", GPT := false, PartID := "1048576",
        DiskID := "3237998080" }) ∧
    ∃ dev : BCDDevice,
      BCDDeviceFromBin noDisks mbrPayload = .ok (.dev dev) ∧
      dev.Type_ = "partition" ∧ dev.Disk = "partition" ∧
      (tableType (mbrPayload.vis.drop 32) = 0 →
        dev.GPT = true ∧
        GuidFrom ⟨(mbrPayload.vis.drop 32).take 16, []⟩ = .ok dev.PartID ∧
        GuidFrom ⟨(mbrPayload.vis.drop 56).take 16, []⟩ = .ok dev.DiskID) ∧
      (tableType (mbrPayload.vis.drop 32) = 1 →
        dev.GPT = false ∧
        dev.PartID = Nat.repr (le64At mbrPayload.vis 32) ∧
        dev.DiskID = Nat.repr (le64At mbrPayload.vis 56)) :=
  ⟨by decide, by decide, by decide, by decide, by decide, by decide, by decide,
    BCDDeviceFromBin_partition noDisks mbrPayload (by decide) (by decide) (by decide)
      (by decide)⟩

/-- C5 as stated fails at its own example: for scenario S3 the disk-id field
holds `0xC0FFEE00`, whose decimal rendering, and the `disk_id` that
`BCDDeviceFromBin` returns, is `3237998080`, not `3237969408`. -/
theorem BCDDeviceFromBin_partition_example_fails :
    16 + 0x38 ≤ le32At mbrPayload.vis 24 ∧ le32At mbrPayload.vis 24 + 16 ≤ mbrPayload.len ∧
    le32At mbrPayload.vis 16 = 6 ∧ validRecord (mbrPayload.vis.drop 32) ∧
    tableType (mbrPayload.vis.drop 32) = 1 ∧
    le64At mbrPayload.vis 56 = 0x00000000C0FFEE00 ∧
    Nat.repr 0x00000000C0FFEE00 = "3237998080" ∧
    ∃ dev : BCDDevice,
      BCDDeviceFromBin noDisks mbrPayload = .ok (.dev dev) ∧
      dev.DiskID = "3237998080" ∧ dev.DiskID ≠ "3237969408" :=
  ⟨by decide, by decide, by decide, by decide, by decide, by decide, by decide,
    ⟨{ Type_ := "partition", Disk := "partition", GPT := false, PartID := "1048576",
        DiskID := "3237998080" }, by decide, by decide, by decide⟩⟩


/-- C6 (as amended): for a payload whose outer packet has type 6 and whose
partition record has a nonzero reserved DWORD or a table-type other than 0
and 1, `DiskPartitionFrom` returns empty values (a nil slice, empty IDs,
`is_gpt` false) and `BCDDeviceFromBin` returns, without error, a device of
type and disk `partition` with `gpt` false and empty `part_id` and `disk_id`. -/
theorem BCDDeviceFromBin_partition_invalid (os : Osmgr) (b : Slice)
    (hlo : 16 + 0x38 ≤ le32At b.vis 24) (hhi : le32At b.vis 24 + 16 ≤ b.len)
    (h6 : le32At b.vis 16 = 6) (hv : ¬ validRecord (b.vis.drop 32)) :
    DiskPartitionFrom (innerOf b) = .ok (Slice.nil, "", false, "") ∧
    ∃ dev : BCDDevice,
      BCDDeviceFromBin os b = .ok (.dev dev) ∧
      dev.Type_ = "partition" ∧ dev.Disk = "partition" ∧ dev.GPT = false ∧
      dev.PartID = "" ∧ dev.DiskID = "" := by
  have e24 := le32At_full_vis b 24 (by omega)
  have hag := agree_drop b 32 0x38 (by omega)
  have hfull := innerOf_full b (by omega)
  have hlen := innerOf_len b (by omega) (by omega)
  have hc : 0x38 ≤ (innerOf b).cap := by
    have : (innerOf b).len ≤ (innerOf b).cap := by simp [Slice.len, Slice.cap]
    omega
  have hd := DiskPartitionFrom_invalid (innerOf b) hc
    (by rw [hfull]; exact fun h => hv ((validRecord_agree hag).mp h))
  obtain ⟨f1, f2, f3, f4, f5, _⟩ := attachDevice_fields os
    { GUID := objectGuid b.vis, Type_ := "partition", Disk := "partition" }
  refine ⟨hd, _, ?_, f1, f2, f3, f5, f4⟩
  rw [BCDDeviceFromBin_frame_vis os b (by omega) hhi, h6, switchPtype_partition, hd]
  rfl

/-- C6 (as amended) at a record whose reserved DWORD `u3` is 1. -/
theorem BCDDeviceFromBin_partition_invalid_witness :
    16 + 0x38 ≤ le32At badReservedPayload.vis 24 ∧
    le32At badReservedPayload.vis 24 + 16 ≤ badReservedPayload.len ∧
    le32At badReservedPayload.vis 16 = 6 ∧ ¬ validRecord (badReservedPayload.vis.drop 32) ∧
    DiskPartitionFrom (innerOf badReservedPayload) = .ok (Slice.nil, "", false, "") ∧
    ∃ dev : BCDDevice,
      BCDDeviceFromBin noDisks badReservedPayload = .ok (.dev dev) ∧
      dev.Type_ = "partition" ∧ dev.Disk = "partition" ∧ dev.GPT = false ∧
      dev.PartID = "" ∧ dev.DiskID = "" :=
  ⟨by decide, by decide, by decide, by decide,
    BCDDeviceFromBin_partition_invalid noDisks badReservedPayload (by decide) (by decide)
      (by decide) (by decide)⟩

/-- C6 as stated fails: the record of `badReservedPayload` has `u3 = 1`, yet
`DiskPartitionFrom` returns normally and `BCDDeviceFromBin` returns a device,
not an error. -/
theorem BCDDeviceFromBin_reserved_no_error :
    le32At badReservedPayload.vis 16 = 6 ∧
    le32At (badReservedPayload.vis.drop 32) 0x10 = 1 ∧
    DiskPartitionFrom (innerOf badReservedPayload) = .ok (Slice.nil, "", false, "") ∧
    BCDDeviceFromBin noDisks badReservedPayload
      = .ok (.dev { Type_ := "partition", Disk := "partition" }) ∧
    ¬ ∃ msg, BCDDeviceFromBin noDisks badReservedPayload = .ok (.err msg) := by
  have h : BCDDeviceFromBin noDisks badReservedPayload
      = .ok (.dev { Type_ := "partition", Disk := "partition" }) := by decide
  refine ⟨by decide, by decide, by decide, h, ?_⟩
  rintro ⟨msg, hm⟩
  rw [h] at hm
  injection hm with hm
  injection hm

theorem formatBits_ne_nil (base f u : Nat) (acc : List Char) :
    formatBits base (f + 1) u acc ≠ [] := by
  rw [formatBits]
  split
  · simp
  · rw [formatBits_append]
    simp

theorem guidOf_ne_empty (l : List Byte) : guidOf l ≠ "" := by
  rw [guidOf_eq]
  intro h
  have h1 : guidCanonical l = [] := congrArg String.data h
  have h2 : (guidCanonical l).length = 36 := by simp [guidCanonical, hex2]
  rw [h1] at h2
  exact absurd h2 (by decide)

theorem Sprintfd_ne_empty (u : Nat) : Sprintfd u ≠ "" := by
  intro h
  have := congrArg String.data h
  exact formatBits_ne_nil 10 63 u [] this

/-- C7 (as amended): when `BCDDeviceFromBin` returns a device of type
`partition`, its `disk_id` and `part_id` are both set if the partition record
(the 0x38 bytes read at offset 32) is valid, and both empty if it is not. -/
theorem BCDDeviceFromBin_partition_ids (os : Osmgr) (b : Slice) (d : BCDDevice)
    (h : BCDDeviceFromBin os b = .ok (.dev d)) (ht : d.Type_ = "partition") :
    (validRecord (b.full.drop 32) ∧ d.DiskID ≠ "" ∧ d.PartID ≠ "") ∨
    (¬ validRecord (b.full.drop 32) ∧ d.DiskID = "" ∧ d.PartID = "") := by
  obtain ⟨hlo, hhi⟩ := BCDDeviceFromBin_of_ok os b h
  rw [BCDDeviceFromBin_frame os b hlo hhi] at h
  have h6 := switchPtype_type _ _ _ _ _ _ h ht
  rw [h6, switchPtype_partition] at h
  obtain ⟨r, hr, h⟩ := (Res.bind_eq_ok _ _ _).mp h
  have hc := DiskPartitionFrom_of_ok _ hr
  have hfull := innerOf_full b hlo
  injection h with h
  injection h with h
  obtain ⟨_, _, _, f4, f5, _⟩ := attachDevice_fields os
    { GUID := objectGuid b.vis, Type_ := "partition", Disk := "partition", PartID := r.2.1,
      GPT := r.2.2.1, DiskID := r.2.2.2 }
  rw [h] at f4 f5
  simp only at f4 f5
  rw [f4, f5]
  by_cases hv : validRecord (b.full.drop 32)
  · left
    refine ⟨hv, ?_⟩
    rw [DiskPartitionFrom_eq _ hc, hfull] at hr
    simp only [hv.1, not_true_eq_false, if_false] at hr
    rcases hv.2 with t0 | t1
    · simp only [t0, if_true] at hr
      obtain ⟨rest, _, hr⟩ := (Res.bind_eq_ok _ _ _).mp hr
      injection hr with hr
      rw [← hr]
      exact ⟨guidOf_ne_empty _, guidOf_ne_empty _⟩
    · simp only [t1, Nat.one_ne_zero, if_false, if_true] at hr
      obtain ⟨rest, _, hr⟩ := (Res.bind_eq_ok _ _ _).mp hr
      injection hr with hr
      rw [← hr]
      exact ⟨Sprintfd_ne_empty _, Sprintfd_ne_empty _⟩
  · right
    refine ⟨hv, ?_⟩
    rw [DiskPartitionFrom_invalid _ hc (by rw [hfull]; exact hv)] at hr
    injection hr with hr
    rw [← hr]
    exact ⟨rfl, rfl⟩

/-- C7 (as amended) at scenario S2, a valid GPT record. -/
theorem BCDDeviceFromBin_partition_ids_witness :
    BCDDeviceFromBin noDisks gptPayload = .ok (.dev
      { Type_ := "partition", Disk := "partition", GPT := true,
        PartID := "466F5A88-0AF2-4F76-9038-095B170DC21C",
        DiskID := "04030201-0605-0807-090A-0B0C0D0E0F10" }) ∧
    ((validRecord (gptPayload.full.drop 32) ∧
        "04030201-0605-0807-090A-0B0C0D0E0F10" ≠ "" ∧
        "466F5A88-0AF2-4F76-9038-095B170DC21C" ≠ "") ∨
      (¬ validRecord (gptPayload.full.drop 32) ∧
        "04030201-0605-0807-090A-0B0C0D0E0F10" = "" ∧
        "466F5A88-0AF2-4F76-9038-095B170DC21C" = "")) :=
  ⟨by decide,
    BCDDeviceFromBin_partition_ids noDisks gptPayload
      { Type_ := "partition", Disk := "partition", GPT := true,
        PartID := "466F5A88-0AF2-4F76-9038-095B170DC21C",
        DiskID := "04030201-0605-0807-090A-0B0C0D0E0F10" } (by decide) (by decide)⟩

/-- C7 as stated fails: the record of `badTablePayload` has table-type 2, and
`BCDDeviceFromBin` returns without error a device of type `partition` whose
`disk_id` and `part_id` are empty. -/
theorem BCDDeviceFromBin_partition_ids_empty :
    ∃ d : BCDDevice,
      BCDDeviceFromBin noDisks badTablePayload = .ok (.dev d) ∧
      d.Type_ = "partition" ∧ d.DiskID = "" ∧ d.PartID = "" :=
  ⟨{ Type_ := "partition", Disk := "partition" }, by decide, by decide, by decide, by decide⟩


/-! ## Path extraction -/

theorem isPrefixOf_zeros (l : List Byte) :
    ([0, 0, 0] : List Byte).isPrefixOf l = true ↔
      l[0]? = some 0 ∧ l[1]? = some 0 ∧ l[2]? = some 0 := by
  rcases l with _ | ⟨x, _ | ⟨y, _ | ⟨z, t⟩⟩⟩ <;> simp [List.isPrefixOf]
  constructor <;> rintro ⟨h1, h2, h3⟩ <;> exact ⟨h1.symm, h2.symm, h3.symm⟩

theorem bytesIndex_first (sep : List Byte) :
    ∀ (k : Nat) (s : List Byte), sep.isPrefixOf (s.drop k) = true →
      (∀ j, j < k → sep.isPrefixOf (s.drop j) = false) → bytesIndex s sep = (k : Int) := by
  intro k
  induction k with
  | zero =>
    intro s hk _
    rw [List.drop_zero] at hk
    cases s with
    | nil =>
      have : sep = [] := by
        cases sep with
        | nil => rfl
        | cons a t => simp [List.isPrefixOf] at hk
      simp [bytesIndex, this]
    | cons x t => simp [bytesIndex, hk]
  | succ k ih =>
    intro s hk hj
    cases s with
    | nil =>
      have h0 := hj 0 (by omega)
      simp only [List.drop_nil] at hk h0
      rw [hk] at h0
      exact absurd h0 (by decide)
    | cons x t =>
      have h0 := hj 0 (by omega)
      rw [List.drop_zero] at h0
      have ht := ih t (by simpa using hk) (fun j hjk => by
        have := hj (j + 1) (by omega)
        simpa using this)
      simp only [bytesIndex, h0, ht]
      have : ¬ ((k : Int) < 0) := by omega
      simp only [Bool.false_eq_true, if_false, this]
      omega


theorem get_zero_iff (l : List Byte) (i : Nat) :
    l[i]? = some (0 : Byte) ↔ i < l.length ∧ byteAt l i = 0 := by
  by_cases h : i < l.length
  · simp only [byteAt, List.getD_eq_getElem?_getD, List.getElem?_eq_getElem h, Option.some.injEq,
      Option.getD_some, h, true_and]
    constructor
    · intro e
      rw [e]
      rfl
    · intro e
      exact Fin.ext e
  · simp only [h, false_and, iff_false]
    rw [List.getElem?_eq_none (by omega)]
    simp

theorem zeros_at_iff (s : List Byte) (j : Nat) :
    ([0, 0, 0] : List Byte).isPrefixOf (s.drop j) = true ↔
      j + 2 < s.length ∧ byteAt s j = 0 ∧ byteAt s (j + 1) = 0 ∧ byteAt s (j + 2) = 0 := by
  rw [isPrefixOf_zeros]
  simp only [List.getElem?_drop, get_zero_iff, Nat.add_zero]
  constructor
  · rintro ⟨⟨_, h0⟩, ⟨_, h1⟩, ⟨h, h2⟩⟩
    exact ⟨h, h0, h1, h2⟩
  · rintro ⟨h, h0, h1, h2⟩
    exact ⟨⟨by omega, h0⟩, ⟨by omega, h1⟩, ⟨h, h2⟩⟩

theorem byteAt_append_right (l r : List Byte) (k : Nat) :
    byteAt (l ++ r) (l.length + k) = byteAt r k := by
  simp [byteAt, List.getD_eq_getElem?_getD, List.getElem?_append_right]

theorem noNull_pair (p : List Byte) (hnn : 0 ∉ wordsOf p) (i : Nat) (hi : i % 2 = 0)
    (hlt : i + 1 < p.length) : ¬ (byteAt p i = 0 ∧ byteAt p (i + 1) = 0) := by
  rintro ⟨h0, h1⟩
  apply hnn
  simp only [wordsOf, List.mem_map, List.mem_range]
  refine ⟨i / 2, by omega, ?_⟩
  have e : 2 * (i / 2) = i := by omega
  simp [e, le16At, h0, h1]

/-- Where `bytes.Index` finds the terminator of a path: at the last byte of
the path when that byte is zero, right after the path otherwise. -/
theorem bytesIndex_path (p rest : List Byte) (heven : p.length % 2 = 0)
    (hnn : 0 ∉ wordsOf p) (hterm : lastZero p ∨ rest.head? = some 0) :
    bytesIndex (p ++ 0 :: 0 :: rest) [0, 0, 0] =
      ((if lastZero p then p.length - 1 else p.length : Nat) : Int) := by
  have hlen : (p ++ 0 :: 0 :: rest).length = p.length + 2 + rest.length := by simp; omega
  have hin : ∀ i, i < p.length → byteAt (p ++ 0 :: 0 :: rest) i = byteAt p i :=
    fun i hi => byteAt_append_left _ _ _ hi
  have hz0 : byteAt (p ++ 0 :: 0 :: rest) p.length = 0 := by
    have := byteAt_append_right p (0 :: 0 :: rest) 0
    simpa [byteAt] using this
  have hz1 : byteAt (p ++ 0 :: 0 :: rest) (p.length + 1) = 0 := by
    have := byteAt_append_right p (0 :: 0 :: rest) 1
    simpa [byteAt] using this
  have hz2 : byteAt (p ++ 0 :: 0 :: rest) (p.length + 2) = byteAt rest 0 := by
    have := byteAt_append_right p (0 :: 0 :: rest) 2
    simpa [byteAt] using this
  have hpair := noNull_pair p hnn
  apply bytesIndex_first
  · rw [zeros_at_iff]
    split
    · next hA =>
      obtain ⟨hpos, hlast⟩ := hA
      have e1 : p.length - 1 + 1 = p.length := by omega
      have e2 : p.length - 1 + 2 = p.length + 1 := by omega
      rw [hin _ (by omega), e1, e2]
      exact ⟨by omega, hlast, hz0, hz1⟩
    · next hA =>
      have hB : rest.head? = some 0 := hterm.resolve_left hA
      have hr : 0 < rest.length ∧ byteAt rest 0 = 0 := by
        cases rest with
        | nil => simp at hB
        | cons x t =>
          simp only [List.head?_cons, Option.some.injEq] at hB
          simp [byteAt, hB]
      rw [hz2]
      exact ⟨by omega, hz0, hz1, hr.2⟩
  · intro j hj
    rw [Bool.eq_false_iff, Ne, zeros_at_iff]
    rintro ⟨_, h0, h1, h2⟩
    have hjp : j < p.length := by split at hj <;> omega
    rw [hin j hjp] at h0
    rcases Nat.mod_two_eq_zero_or_one j with he | ho
    · rw [hin (j + 1) (by omega)] at h1
      exact hpair j he (by omega) ⟨h0, h1⟩
    · by_cases hj2 : j + 2 < p.length
      · rw [hin _ (by omega)] at h1 h2
        exact hpair (j + 1) (by omega) (by omega) ⟨h1, h2⟩
      · have ej : j = p.length - 1 := by omega
        have hA : lastZero p := ⟨by omega, by rw [← ej]; exact h0⟩
        rw [if_pos hA] at hj
        omega

theorem readUint16s_eq (n : Nat) (src : List Byte) (h : 2 * n ≤ src.length) :
    readUint16s n src = (List.range n).map fun i => le16At src (2 * i) := by
  simp only [readUint16s, h, if_true]
  apply List.map_congr_left
  intro i _
  have h0 := (src.getD (2 * i) 0).isLt
  rw [lor_shl _ _ 8 (by omega)]
  rfl

theorem readUint16s_path (p : List Byte) (heven : p.length % 2 = 0) (x : List Byte)
    (hx : x.length ≤ 1) :
    readUint16s ((p ++ x).length / 2) (p ++ x) = wordsOf p := by
  have hn : (p ++ x).length / 2 = p.length / 2 := by
    simp only [List.length_append]
    omega
  rw [hn, readUint16s_eq _ _ (by simp only [List.length_append]; omega), wordsOf]
  apply List.map_congr_left
  intro i hi
  simp only [List.mem_range] at hi
  simp only [le16At]
  rw [byteAt_append_left _ _ _ (by omega), byteAt_append_left _ _ _ (by omega)]

/-- Path extraction on the tail of a framed packet that starts with an
even-length UTF-16LE sequence without a null code unit, followed by a null
code unit, where the three zero bytes of the terminator are present (the last
byte of the sequence is zero, or the byte after the null code unit is). -/
theorem pathFrom_terminated (t : Slice) (p rest : List Byte)
    (ht : t.vis = p ++ 0 :: 0 :: rest) (heven : p.length % 2 = 0) (hnn : 0 ∉ wordsOf p)
    (hterm : lastZero p ∨ rest.head? = some 0) :
    pathFrom t = .ok (⟨if lastZero p then rest else rest.tail, t.spare⟩, decodePath p) := by
  have hidx := bytesIndex_path p rest heven hnn hterm
  have hlen : t.len = p.length + 2 + rest.length := by
    simp only [Slice.len, ht, List.length_append, List.length_cons]
    omega
  have hc : t.len ≤ t.cap := by simp [Slice.len, Slice.cap]
  have hfull : t.full = p ++ (0 :: 0 :: rest ++ t.spare) := by
    simp only [Slice.full, ht, List.append_assoc]
  by_cases hA : lastZero p
  · have hpos := hA.1
    rw [if_pos hA] at hidx
    have e1 : ((((p.length - 1 : Nat) : Int) + 1).toNat) = p.length := by omega
    have e3 : ((((p.length - 1 : Nat) : Int) + 3).toNat) = p.length + 2 := by omega
    have htake : List.take p.length t.full = p ++ [] := by
      rw [hfull, List.take_left', List.append_nil]
      rfl
    have hd : List.drop (p.length + 2) (p ++ 0 :: 0 :: rest) = rest := by
      rw [List.drop_append]
      rfl
    simp only [pathFrom, ht, hidx, e1, e3, Slice.sliceTo, if_pos hA]
    rw [t.slice_ok (by omega) (by omega), t.sliceFrom_ok (by omega)]
    simp only [Res.ok_bind, Res.pure_eq, Nat.sub_zero, List.drop_zero, Slice.len, htake, ht, hd]
    rw [readUint16s_path p heven [] (by simp)]
    rfl
  · have hB : rest.head? = some 0 := hterm.resolve_left hA
    obtain ⟨r2, rfl⟩ : ∃ r2, rest = 0 :: r2 := by
      cases rest with
      | nil => simp at hB
      | cons x r2 =>
        simp only [List.head?_cons, Option.some.injEq] at hB
        exact ⟨r2, by rw [hB]⟩
    rw [if_neg hA] at hidx
    have e1 : ((((p.length : Nat) : Int) + 1).toNat) = p.length + 1 := by omega
    have e3 : ((((p.length : Nat) : Int) + 3).toNat) = p.length + 3 := by omega
    have htake : List.take (p.length + 1) t.full = p ++ [0] := by
      rw [hfull, List.take_append]
      rfl
    have hd : List.drop (p.length + 3) (p ++ 0 :: 0 :: 0 :: r2) = r2 := by
      rw [List.drop_append]
      rfl
    simp only [List.length_cons] at hlen
    simp only [pathFrom, ht, hidx, e1, e3, Slice.sliceTo, if_neg hA]
    rw [t.slice_ok (by omega) (by omega), t.sliceFrom_ok (by omega)]
    simp only [Res.ok_bind, Res.pure_eq, Nat.sub_zero, List.drop_zero, Slice.len, htake, ht, hd]
    rw [readUint16s_path p heven [0] (by simp)]
    rfl

/-! ## The file trailer -/

/-- What `DiskFileFrom` does on a region whose framed packet (at offset 16) is
well framed: the path is extracted from the tail of that packet, and the
packet data is the inner region of that packet. -/
theorem DiskFileFrom_eq (b : Slice) (hlo : 16 ≤ le32At b.full 24)
    (hhi : le32At b.full 24 + 16 ≤ b.len) :
    DiskFileFrom b =
      (pathFrom ⟨b.vis.drop (16 + le32At b.full 24), b.spare⟩).bind fun r =>
        .ok (r.1, le32At b.full 0, le32At b.full 16, innerOf b, r.2) := by
  have hl := b.full_length
  have hc : b.len ≤ b.cap := by simp [Slice.len, Slice.cap]
  have h16 : 16 ≤ b.len := by omega
  have hf := b.drop16_full h16
  have hp := PacketFrom_eq ⟨b.vis.drop 16, b.spare⟩
    (by simp only [hf, le32At_drop, Nat.reduceAdd]; exact hlo)
    (by simp only [hf, le32At_drop, Nat.reduceAdd, Slice.len, List.length_drop] at *; omega)
  simp only [hf, le32At_drop, List.drop_drop, Nat.reduceAdd] at hp
  simp only [DiskFileFrom]
  rw [b.slice_ok (by omega : 0 ≤ 4) (by omega), b.slice_ok (by omega : 4 ≤ 8) (by omega),
    b.slice_ok (by omega : 8 ≤ 12) (by omega), b.slice_ok (by omega : 12 ≤ 16) (by omega),
    b.sliceFrom_ok h16]
  simp only [Res.ok_bind, Nat.reduceSub]
  rw [leUint32_window _ _ _ (by omega), leUint32_window _ _ _ (by omega),
    leUint32_window _ _ _ (by omega), leUint32_window _ _ _ (by omega)]
  simp only [Res.ok_bind, hp, innerOf]
  rfl

theorem switchPtype_file (os : Osmgr) (dev : BCDDevice) (b : Slice) :
    switchPtype os dev 0 0 b =
      (DiskFileFrom b).bind fun r =>
        if r.2.2.1 = 5 then
          .ok (.dev (attachDevice os { dev with
            Type_ := "file", Path := r.2.2.2.2, Disk := "boot" }))
        else
          (DiskPartitionFrom r.2.2.2.1).bind fun q =>
            .ok (.dev (attachDevice os { dev with
              Type_ := "file", Path := r.2.2.2.2, Disk := "partition", PartID := q.2.1,
              GPT := q.2.2.1, DiskID := q.2.2.2 })) := by
  simp only [switchPtype]
  rfl

theorem attachDevice_other (os : Osmgr) (d : BCDDevice) (h : d.Type_ ≠ "partition") :
    attachDevice os d = d := by
  simp [attachDevice, h]


theorem take_drop_full_vis (b : Slice) (k n : Nat) (h : k + n ≤ b.len) :
    (b.full.drop k).take n = (b.vis.drop k).take n := by
  simp only [Slice.len] at h
  rw [Slice.full, List.drop_append_of_le_length (by omega),
    List.take_append_of_le_length (by simp; omega)]

theorem agree_take (l : List Byte) (n : Nat) : agree n (l.take n) l :=
  fun i hi => byteAt_take l n i hi

/-- C10 (as amended): for a payload whose outer packet has `ptype = 0` and
`u1 = 0` and whose inner region is a file trailer (16 header bytes, a framed
packet of type other than 5 whose data begins with a valid partition record,
a UTF-16LE path terminated by the pattern `00 00 00`), `BCDDeviceFromBin`
returns type `file`, disk
`partition`, the decoded path, and the `gpt`, `part_id` and `disk_id` that
`DiskPartitionFrom` decodes from the record in the data of the framed packet
(not from the bytes remaining after the path). -/
theorem BCDDeviceFromBin_file_partition (os : Osmgr) (b : Slice) (p rest : List Byte)
    (h0 : le32At b.vis 16 = 0) (hu1 : le32At b.vis 20 = 0)
    (hhi : le32At b.vis 24 + 16 ≤ b.len)
    (hpt : le32At b.vis 48 ≠ 5)
    (hlo2 : 16 + 0x38 ≤ le32At b.vis 56) (hhi2 : le32At b.vis 56 + 32 ≤ le32At b.vis 24)
    (hv : validRecord (b.vis.drop 64))
    (hpath : ((b.vis.drop 32).take (le32At b.vis 24 - 16)).drop (16 + le32At b.vis 56)
      = p ++ 0 :: 0 :: rest)
    (heven : p.length % 2 = 0) (hnn : 0 ∉ wordsOf p)
    (hterm : lastZero p ∨ rest.head? = some 0) :
    BCDDeviceFromBin os b = .ok (.dev
      { GUID := objectGuid b.vis, Type_ := "file", Disk := "partition", Path := decodePath p,
        PartID := (PartitionRef (b.vis.drop 64)).1, GPT := (PartitionRef (b.vis.drop 64)).2.1,
        DiskID := (PartitionRef (b.vis.drop 64)).2.2 }) ∧
    DiskPartitionFrom ⟨(b.vis.drop 64).take 0x38, []⟩ = .ok (⟨[], []⟩,
      (PartitionRef (b.vis.drop 64)).1, (PartitionRef (b.vis.drop 64)).2.1,
      (PartitionRef (b.vis.drop 64)).2.2) := by
  have e24 := le32At_full_vis b 24 (by omega)
  have e48 := le32At_full_vis b 48 (by omega)
  have e56 := le32At_full_vis b 56 (by omega)
  have hfull := innerOf_full b (by omega)
  have hlen := innerOf_len b (by omega) (by omega)
  have hI24 : le32At (innerOf b).full 24 = le32At b.vis 56 := by
    rw [hfull, le32At_drop, ← e56]
  have hI16 : le32At (innerOf b).full 16 = le32At b.vis 48 := by
    rw [hfull, le32At_drop, ← e48]
  have hvis : (innerOf b).vis = (b.vis.drop 32).take (le32At b.vis 24 - 16) := by
    simp only [innerOf, e24]
    exact take_drop_full_vis b 32 _ (by omega)
  have hfull2 : (innerOf (innerOf b)).full = b.full.drop 64 := by
    rw [innerOf_full _ (by omega), hfull, List.drop_drop]
  have hlen2 := innerOf_len (innerOf b) (by omega) (by omega)
  have hag := agree_drop b 64 0x38 (by omega)
  have hpf := pathFrom_terminated
    ⟨(innerOf b).vis.drop (16 + le32At (innerOf b).full 24), (innerOf b).spare⟩ p rest
    (by simp only [hvis, hI24]; exact hpath) heven hnn hterm
  constructor
  · rw [BCDDeviceFromBin_frame_vis os b (by omega) hhi, h0, hu1, switchPtype_file,
      DiskFileFrom_eq (innerOf b) (by omega) (by omega), hpf]
    simp only [Res.bind, hI16, hpt, if_false]
    rw [DiskPartitionFrom_valid (innerOf (innerOf b)) (by omega)
        (by rw [hfull2]; exact (validRecord_agree hag).mpr hv),
      hfull2, PartitionRef_agree hag]
    exact congrArg (fun d => Res.ok (DevResult.dev d))
      (attachDevice_other os _ (by show ("file" : String) ≠ "partition"; decide))
  · have hl : (List.take 0x38 (List.drop 64 b.vis)).length = 0x38 := by
      simp only [Slice.len] at hhi
      simp only [List.length_take, List.length_drop]
      omega
    have hagt := agree_take (List.drop 64 b.vis) 0x38
    have hd := DiskPartitionFrom_valid ⟨(b.vis.drop 64).take 0x38, []⟩
      (by simp only [Slice.len, hl]; omega)
      (by simp only [Slice.full, List.append_nil]; exact (validRecord_agree hagt).mpr hv)
    simp only [Slice.full, List.append_nil, PartitionRef_agree hagt] at hd
    rw [hd, List.drop_eq_nil_of_le (by omega)]

set_option maxRecDepth 100000 in
/-- C10 (as amended) at scenario S4: inner packet type 6 holding a GPT record,
path `\Windows\system32\winload.exe`. -/
theorem BCDDeviceFromBin_file_partition_witness :
    le32At filePayload.vis 16 = 0 ∧ le32At filePayload.vis 20 = 0 ∧
    le32At filePayload.vis 48 = 6 ∧ validRecord (filePayload.vis.drop 64) ∧
    ((filePayload.vis.drop 32).take (le32At filePayload.vis 24 - 16)).drop
      (16 + le32At filePayload.vis 56) = winloadPath ++ 0 :: 0 :: [] ∧
    decodePath winloadPath = "\\Windows\\system32\\winload.exe" ∧
    BCDDeviceFromBin noDisks filePayload = .ok (.dev
      { Type_ := "file", Disk := "partition", GPT := true,
        Path := "\\Windows\\system32\\winload.exe",
        PartID := "466F5A88-0AF2-4F76-9038-095B170DC21C",
        DiskID := "04030201-0605-0807-090A-0B0C0D0E0F10" }) ∧
    (BCDDeviceFromBin noDisks filePayload = .ok (.dev
      { GUID := objectGuid filePayload.vis, Type_ := "file", Disk := "partition",
        Path := decodePath winloadPath,
        PartID := (PartitionRef (filePayload.vis.drop 64)).1,
        GPT := (PartitionRef (filePayload.vis.drop 64)).2.1,
        DiskID := (PartitionRef (filePayload.vis.drop 64)).2.2 }) ∧
    DiskPartitionFrom ⟨(filePayload.vis.drop 64).take 0x38, []⟩ = .ok (⟨[], []⟩,
      (PartitionRef (filePayload.vis.drop 64)).1, (PartitionRef (filePayload.vis.drop 64)).2.1,
      (PartitionRef (filePayload.vis.drop 64)).2.2)) :=
  ⟨by decide, by decide, by decide, by decide, by decide, by decide, by decide,
    BCDDeviceFromBin_file_partition noDisks filePayload winloadPath [] (by decide) (by decide)
      (by decide) (by decide) (by decide) (by decide) (by decide) (by decide) (by decide)
      (by decide) (Or.inl (by decide))⟩

set_option maxRecDepth 100000 in
/-- C10 as stated fails: in `fileRemainingPayload` the bytes remaining after
the path are a valid GPT record, which decodes to `gpt = true` and two GUIDs,
but `BCDDeviceFromBin` returns `gpt = false` and the decimal IDs of the MBR
record held in the data of the framed packet. -/
theorem BCDDeviceFromBin_file_not_remaining :
    le32At fileRemainingPayload.vis 16 = 0 ∧ le32At fileRemainingPayload.vis 20 = 0 ∧
    DiskFileFrom (innerOf fileRemainingPayload) = .ok (⟨gptRecord, []⟩, 0, 6,
      ⟨mbrRecord, asciiUtf16 [ 'a' ] ++ [0, 0] ++ gptRecord⟩, "a") ∧
    validRecord gptRecord ∧
    DiskPartitionFrom ⟨gptRecord, []⟩ = .ok (⟨[], []⟩,
      "466F5A88-0AF2-4F76-9038-095B170DC21C", true, "04030201-0605-0807-090A-0B0C0D0E0F10") ∧
    BCDDeviceFromBin noDisks fileRemainingPayload = .ok (.dev
      { Type_ := "file", Disk := "partition", Path := "a", GPT := false,
        PartID := "1048576", DiskID := "3237998080" }) ∧
    ¬ ∃ d : BCDDevice, BCDDeviceFromBin noDisks fileRemainingPayload = .ok (.dev d) ∧
        d.GPT = true ∧ d.PartID = "466F5A88-0AF2-4F76-9038-095B170DC21C" ∧
        d.DiskID = "04030201-0605-0807-090A-0B0C0D0E0F10" := by
  have h : BCDDeviceFromBin noDisks fileRemainingPayload = .ok (.dev
      { Type_ := "file", Disk := "partition", Path := "a", GPT := false,
        PartID := "1048576", DiskID := "3237998080" }) := by decide
  refine ⟨by decide, by decide, by decide, by decide, by decide, h, ?_⟩
  rintro ⟨d, hd, hg, _⟩
  rw [h] at hd
  injection hd with hd
  injection hd with hd
  rw [← hd] at hg
  exact absurd hg (by decide)

/-! ## Packet offsets out of range -/

/-- C14 (as amended): for a slice of at least 16 bytes whose third header word
is below 16 or above the length, `PacketFrom` does not return: the slice
expression stops with a Go run-time panic, so no inner slice, no tail slice and
no error value is produced. -/
theorem PacketFrom_out_of_range (b : Slice) (h16 : 16 ≤ b.len)
    (h : le32At b.vis 8 < 16 ∨ b.len < le32At b.vis 8) : PacketFrom b = .panic := by
  have hl := b.full_length
  have hc : b.len ≤ b.cap := by simp [Slice.len, Slice.cap]
  have e8 := le32At_full_vis b 8 (by omega)
  simp only [PacketFrom]
  rw [b.slice_ok (by omega : 0 ≤ 4) (by omega), b.slice_ok (by omega : 4 ≤ 8) (by omega),
    b.slice_ok (by omega : 8 ≤ 12) (by omega), b.slice_ok (by omega : 12 ≤ 16) (by omega)]
  simp only [Res.ok_bind, Nat.reduceSub]
  rw [leUint32_window _ _ _ (by omega), leUint32_window _ _ _ (by omega),
    leUint32_window _ _ _ (by omega), leUint32_window _ _ _ (by omega)]
  simp only [Res.ok_bind, e8]
  by_cases hhi : le32At b.vis 8 ≤ b.len
  · have hlo : ¬ (16 ≤ le32At b.vis 8 ∧ le32At b.vis 8 ≤ b.cap) := by omega
    rw [b.sliceFrom_ok hhi]
    simp only [Res.ok_bind, Slice.slice, hlo, if_false, Res.panic_bind]
  · have hno : ¬ (le32At b.vis 8 ≤ b.len ∧ b.len ≤ b.cap) := by omega
    simp only [Slice.sliceFrom, Slice.slice, hno, if_false, Res.panic_bind]

/-- C14 at a header whose third word is 8, and at one whose third word is 40
in a packet of 18 bytes. -/
theorem PacketFrom_out_of_range_witness :
    16 ≤ lowOffsetPacket.len ∧ le32At lowOffsetPacket.vis 8 = 8 ∧
    PacketFrom lowOffsetPacket = .panic ∧
    16 ≤ highOffsetPacket.len ∧ le32At highOffsetPacket.vis 8 = 40 ∧
    highOffsetPacket.len = 18 ∧
    PacketFrom highOffsetPacket = .panic :=
  ⟨by decide, by decide,
    PacketFrom_out_of_range lowOffsetPacket (by decide) (Or.inl (by decide)),
    by decide, by decide, by decide,
    PacketFrom_out_of_range highOffsetPacket (by decide) (Or.inr (by decide))⟩

/-- C14 as stated fails: for the packet whose third header word is 8,
`PacketFrom` reports nothing: it neither returns values nor stops with a
message, it panics; and `BCDDeviceFromBin` on a payload that holds this packet
panics as well, where a malformed record would be the error value. -/
theorem PacketFrom_no_error_result :
    16 ≤ lowOffsetPacket.len ∧ le32At lowOffsetPacket.vis 8 = 8 ∧
    PacketFrom lowOffsetPacket = .panic ∧
    (¬ ∃ r, PacketFrom lowOffsetPacket = .ok r) ∧
    (¬ ∃ msg, PacketFrom lowOffsetPacket = .fatal msg) ∧
    BCDDeviceFromBin noDisks lowOffsetPayload = .panic ∧
    ¬ ∃ msg, BCDDeviceFromBin noDisks lowOffsetPayload = .ok (.err msg) := by
  have h1 : PacketFrom lowOffsetPacket = .panic := by decide!
  have h2 : BCDDeviceFromBin noDisks lowOffsetPayload = .panic := by decide!
  refine ⟨by decide, by decide, h1, ?_, ?_, h2, ?_⟩
  · rintro ⟨r, hr⟩
    rw [h1] at hr
    injection hr
  · rintro ⟨msg, hm⟩
    rw [h1] at hm
    injection hm
  · rintro ⟨msg, hm⟩
    rw [h2] at hm
    injection hm

/-! ## The VHD disk discriminator -/

theorem Slice.drop_full (b : Slice) (k : Nat) (h : k ≤ b.len) :
    Slice.full ⟨b.vis.drop k, b.spare⟩ = b.full.drop k := by
  simp only [Slice.len] at h
  simp only [Slice.full, List.drop_append_of_le_length h]

/-- What `PacketFrom` returns on `b[k:]` when the packet there is well framed. -/
theorem PacketFrom_at (b : Slice) (k : Nat) (hlo : 16 ≤ le32At b.full (k + 8))
    (hhi : k + le32At b.full (k + 8) ≤ b.len) :
    PacketFrom ⟨b.vis.drop k, b.spare⟩ =
      .ok (⟨b.vis.drop (k + le32At b.full (k + 8)), b.spare⟩, le32At b.full k,
        le32At b.full (k + 4), le32At b.full (k + 8), le32At b.full (k + 12), packetAt b k) := by
  have hf := b.drop_full k (by omega)
  have hp := PacketFrom_eq ⟨b.vis.drop k, b.spare⟩
    (by simp only [hf, le32At_drop]; exact hlo)
    (by simp only [hf, le32At_drop, Slice.len, List.length_drop] at *; omega)
  simp only [hf, le32At_drop, List.drop_drop, Nat.add_zero] at hp
  rw [hp]
  rfl

theorem u9_first (l : List Byte) :
    ((List.range 9).map fun i =>
      (l.getD (4 * i) 0).val ||| (l.getD (4 * i + 1) 0).val <<< 8 |||
        (l.getD (4 * i + 2) 0).val <<< 16 ||| (l.getD (4 * i + 3) 0).val <<< 24).getD 0 0
      = le32At l 0 := by
  have h0 := (l.getD 0 0).isLt
  have h1 := (l.getD 1 0).isLt
  have h2 := (l.getD 2 0).isLt
  simp only [List.range_succ_eq_map, List.range_zero, List.map_cons, List.getD_cons_zero,
    Nat.mul_zero, Nat.zero_add, le32At, byteAt]
  rw [lor_shl _ _ 8 (by omega), lor_shl _ _ 16 (by omega), lor_shl _ _ 24 (by omega)]

/-- What `RamDiskFrom` does on a region whose first header word is 3 and whose
framed packet (at offset 0x24) is well framed. -/
theorem RamDiskFrom_eq (b : Slice) (h3 : le32At b.full 0 = 3) (hlo : 16 ≤ le32At b.full 44)
    (hhi : 36 + le32At b.full 44 ≤ b.len) :
    ∃ u9 : List Nat, RamDiskFrom b =
      (pathFrom ⟨b.vis.drop (36 + le32At b.full 44), b.spare⟩).bind fun r =>
        .ok (r.1, u9, le32At b.full 36, packetAt b 36, r.2) := by
  have hl := b.full_length
  have hc : b.len ≤ b.cap := by simp [Slice.len, Slice.cap]
  have hp := PacketFrom_at b 36 hlo hhi
  simp only [Nat.reduceAdd] at hp
  have hu : le32At (List.take 36 (List.drop 0 b.full)) 0 = 3 := by
    rw [List.drop_zero, le32At_agree (agree_take b.full 36) 0 (by omega), h3]
  refine ⟨(List.range 9).map fun i =>
    ((List.take 36 (List.drop 0 b.full)).getD (4 * i) 0).val |||
      ((List.take 36 (List.drop 0 b.full)).getD (4 * i + 1) 0).val <<< 8 |||
      ((List.take 36 (List.drop 0 b.full)).getD (4 * i + 2) 0).val <<< 16 |||
      ((List.take 36 (List.drop 0 b.full)).getD (4 * i + 3) 0).val <<< 24, ?_⟩
  simp only [RamDiskFrom]
  rw [b.slice_ok (by omega : 0 ≤ 0x24) (by omega), b.sliceFrom_ok (by omega : 0x24 ≤ b.len)]
  simp only [Res.ok_bind, Nat.sub_zero, u9_first, hu, ne_eq, not_true_eq_false, if_false, hp]
  rfl

theorem DiskFileFrom_path (b : Slice) (p rest : List Byte) (hlo : 16 ≤ le32At b.full 24)
    (hhi : le32At b.full 24 + 16 ≤ b.len)
    (hpath : b.vis.drop (16 + le32At b.full 24) = p ++ 0 :: 0 :: rest)
    (heven : p.length % 2 = 0) (hnn : 0 ∉ wordsOf p)
    (hterm : lastZero p ∨ rest.head? = some 0) :
    DiskFileFrom b = .ok (⟨if lastZero p then rest else rest.tail, b.spare⟩, le32At b.full 0,
      le32At b.full 16, innerOf b, decodePath p) := by
  rw [DiskFileFrom_eq b hlo hhi, pathFrom_terminated _ p rest hpath heven hnn hterm]
  rfl

theorem drop_path (p rest : List Byte) :
    (p ++ 0 :: 0 :: rest).drop (if lastZero p then p.length + 2 else p.length + 3)
      = if lastZero p then rest else rest.tail := by
  split
  · rw [List.drop_append]
    rfl
  · rw [List.drop_append]
    cases rest <;> rfl

/-- C12 (as amended): in `DiskFileFrom` and `RamDiskFrom`, when the bytes
after the framed packet are an even-length wide-char sequence `p` without a
null wide char, followed by a null wide char, and the three zero bytes of the
terminator are there (the last byte of `p` is zero, or the byte after the
null wide char is zero), the returned path is the text of `p`, and the
returned remaining slice starts `len + 2` bytes after the start of the path
when the last byte of `p` is zero, `len + 3` bytes after it otherwise. -/
theorem path_extraction (p rest : List Byte) (heven : p.length % 2 = 0)
    (hnn : 0 ∉ wordsOf p) (hterm : lastZero p ∨ rest.head? = some 0) :
    (∀ b : Slice, 16 ≤ le32At b.full 24 → le32At b.full 24 + 16 ≤ b.len →
      b.vis.drop (16 + le32At b.full 24) = p ++ 0 :: 0 :: rest →
      ∃ rem dtype ptype data,
        DiskFileFrom b = .ok (rem, dtype, ptype, data, decodePath p) ∧
        rem.vis = (p ++ 0 :: 0 :: rest).drop
          (if lastZero p then p.length + 2 else p.length + 3)) ∧
    (∀ b : Slice, le32At b.full 0 = 3 → 16 ≤ le32At b.full 44 →
      36 + le32At b.full 44 ≤ b.len →
      b.vis.drop (36 + le32At b.full 44) = p ++ 0 :: 0 :: rest →
      ∃ rem u9 ptype data,
        RamDiskFrom b = .ok (rem, u9, ptype, data, decodePath p) ∧
        rem.vis = (p ++ 0 :: 0 :: rest).drop
          (if lastZero p then p.length + 2 else p.length + 3)) := by
  constructor
  · intro b hlo hhi hpath
    exact ⟨_, _, _, _, DiskFileFrom_path b p rest hlo hhi hpath heven hnn hterm,
      (drop_path p rest).symm⟩
  · intro b h3 hlo hhi hpath
    obtain ⟨u9, hr⟩ := RamDiskFrom_eq b h3 hlo hhi
    rw [pathFrom_terminated _ p rest hpath heven hnn hterm] at hr
    exact ⟨_, u9, _, _, hr, (drop_path p rest).symm⟩

/-- C12 (as amended) at the path `a` followed by the null code unit and the
byte 5: both trailers return the path `a` and a remaining slice that starts
4 bytes after the start of the path. -/
theorem path_extraction_witness :
    DiskFileFrom asciiTrailer = .ok (⟨[5], []⟩, 0, 5, ⟨[], [0x61, 0, 0, 0, 5]⟩, "a") ∧
    decodePath [0x61, 0] = "a" ∧
    (∃ rem dtype ptype data,
      DiskFileFrom asciiTrailer = .ok (rem, dtype, ptype, data, decodePath [0x61, 0]) ∧
      rem.vis = ([0x61, 0] ++ 0 :: 0 :: [5]).drop
        (if lastZero [0x61, 0] then [(0x61 : Byte), 0].length + 2
          else [(0x61 : Byte), 0].length + 3)) ∧
    (∃ rem u9 ptype data,
      RamDiskFrom ramdiskTrailer = .ok (rem, u9, ptype, data, decodePath [0x61, 0]) ∧
      rem.vis = ([0x61, 0] ++ 0 :: 0 :: [5]).drop
        (if lastZero [0x61, 0] then [(0x61 : Byte), 0].length + 2
          else [(0x61 : Byte), 0].length + 3)) :=
  ⟨by decide!, by decide!,
    (path_extraction [0x61, 0] [5] (by decide) (by decide) (Or.inl (by decide))).1
      asciiTrailer (by decide!) (by decide!) (by decide!),
    (path_extraction [0x61, 0] [5] (by decide) (by decide) (Or.inl (by decide))).2
      ramdiskTrailer (by decide!) (by decide!) (by decide!) (by decide!)⟩

/-- C12 as stated fails.  After the path `a` (2 bytes), the null code unit
and the byte 5, `DiskFileFrom` returns a remaining slice that starts 4 bytes
after the start of the path, not 5; and after the code unit `U+3061`, the
null code unit and the byte 5 it returns the empty path. -/
theorem path_extraction_not_len3 :
    asciiTrailer.vis.drop 32 = [0x61, 0] ++ [0, 0] ++ [5] ∧
    DiskFileFrom asciiTrailer = .ok (⟨[5], []⟩, 0, 5, ⟨[], [0x61, 0, 0, 0, 5]⟩, "a") ∧
    (asciiTrailer.vis.drop 32).drop (2 + 2) = [5] ∧
    (asciiTrailer.vis.drop 32).drop (2 + 3) = [] ∧
    kanaTrailer.vis.drop 32 = [0x61, 0x30] ++ [0, 0] ++ [5] ∧
    decodePath [0x61, 0x30] = String.mk [Char.ofNat 0x3061] ∧
    DiskFileFrom kanaTrailer
      = .ok (⟨[0, 0, 5], []⟩, 0, 5, ⟨[], [0x61, 0x30, 0, 0, 5]⟩, "") := by
  refine ⟨by decide!, by decide!, by decide!, by decide!, by decide!, by decide!, by decide!⟩

/-! ## A path without terminator -/

theorem bytesIndex_none (sep : List Byte) :
    ∀ s : List Byte, (∀ j, sep.isPrefixOf (s.drop j) = false) → bytesIndex s sep = -1 := by
  intro s
  induction s with
  | nil =>
    intro h
    have h0 := h 0
    have : sep ≠ [] := by
      rintro rfl
      simp [List.isPrefixOf] at h0
    simp [bytesIndex, this]
  | cons x t ih =>
    intro h
    have h0 := h 0
    rw [List.drop_zero] at h0
    have ht := ih (fun j => by
      have := h (j + 1)
      simpa using this)
    simp [bytesIndex, h0, ht]

/-- Path extraction on a tail without three consecutive zero bytes:
`bytes.Index` returns -1, so the path is the text of `b[:0]`, the empty
string, and the remaining slice is `b[2:]`. -/
theorem pathFrom_no_terminator (t : Slice)
    (h : ∀ j, ([0, 0, 0] : List Byte).isPrefixOf (t.vis.drop j) = false) (hlen : 2 ≤ t.len) :
    pathFrom t = .ok (⟨t.vis.drop 2, t.spare⟩, "") := by
  have hc : t.len ≤ t.cap := by simp [Slice.len, Slice.cap]
  have e1 : (((-1 : Int) + 1).toNat) = 0 := by decide
  have e3 : (((-1 : Int) + 3).toNat) = 2 := by decide
  simp only [pathFrom, bytesIndex_none _ _ h, e1, e3, Slice.sliceTo]
  rw [t.slice_ok (by omega) (by omega), t.sliceFrom_ok hlen]
  simp only [Res.ok_bind, Res.pure_eq, Nat.sub_zero, List.take_zero, Slice.len,
    List.length_nil, Nat.zero_div]
  rfl

/-- C13 fails on the code: no three consecutive zero bytes follow the framed
packet of `noTerminatorPayload` (nor that of `noTerminatorRamdisk`), yet the
path extraction returns the empty path and `BCDDeviceFromBin` returns a device
with a nil error. -/
theorem missing_terminator_accepted :
    (∀ j, j < 5 → ([0, 0, 0] : List Byte).isPrefixOf ([0x61, 0, 0x62, 0].drop j) = false) ∧
    DiskFileFrom (innerOf noTerminatorPayload)
      = .ok (⟨[0x62, 0], []⟩, 0, 5, ⟨[], [0x61, 0, 0x62, 0]⟩, "") ∧
    RamDiskFrom noTerminatorRamdisk
      = .ok (⟨[0x62, 0], []⟩, [3, 0, 0, 0, 0, 0, 0, 0, 0], 5, ⟨[], [0x61, 0, 0x62, 0]⟩, "") ∧
    BCDDeviceFromBin noDisks noTerminatorPayload
      = .ok (.dev { Type_ := "file", Disk := "boot", Path := "" }) := by
  refine ⟨by decide, by decide!, by decide!, by decide!⟩

/-! ## Description types -/

theorem readUint32_eq (l : List Byte) (h : l.length = 4) : readUint32 l = le32At l 0 := by
  rcases l with _ | ⟨x0, _ | ⟨x1, _ | ⟨x2, _ | ⟨x3, _ | ⟨x4, t⟩⟩⟩⟩⟩ <;> simp at h
  have h0 := x0.isLt
  have h1 := x1.isLt
  have h2 := x2.isLt
  simp only [readUint32, le32At, byteAt, List.getD_cons_zero, List.getD_cons_succ]
  rw [lor_shl _ _ 8 (by omega), lor_shl _ _ 16 (by omega), lor_shl _ _ 24 (by omega)]

/-- C15: for a 4-byte input encoding the little-endian word `w`,
`NewBCDDescType` returns object `(w AND 0xF0000000) >> 28`, image and inherit
`(w AND 0x00F00000) >> 20`, application `w AND 0x000FFFFF`, and the input as
source. -/
theorem NewBCDDescType_slices (b : Slice) (h : b.len = 4) :
    NewBCDDescType b =
      { Source := b,
        ObjectType := (le32At b.vis 0 &&& 0xF0000000) >>> 28,
        ImageType := (le32At b.vis 0 &&& 0x00F00000) >>> 20,
        InheritType := (le32At b.vis 0 &&& 0x00F00000) >>> 20,
        ApplicationType := le32At b.vis 0 &&& 0x000FFFFF } := by
  simp only [NewBCDDescType, readUint32_eq b.vis h, maskObject, maskImage, maskApplication]

/-- C15 at scenario S6, the DWORD `0x10200003`: object 1 (Application), image
2 (WindowsBoot), inherit 2, application 3 (OsLoader). -/
theorem NewBCDDescType_slices_witness :
    descTypeExample.len = 4 ∧ le32At descTypeExample.vis 0 = 0x10200003 ∧
    NewBCDDescType descTypeExample =
      { Source := descTypeExample, ObjectType := 1, ImageType := 2, InheritType := 2,
        ApplicationType := 3 } ∧
    ObjectType.String 1 = "objectApplication" ∧ ImageType.String 2 = "imageWindowsBoot" ∧
    ApplicationType.String 3 = "osloader" ∧
    NewBCDDescType descTypeExample =
      { Source := descTypeExample,
        ObjectType := (le32At descTypeExample.vis 0 &&& 0xF0000000) >>> 28,
        ImageType := (le32At descTypeExample.vis 0 &&& 0x00F00000) >>> 20,
        InheritType := (le32At descTypeExample.vis 0 &&& 0x00F00000) >>> 20,
        ApplicationType := le32At descTypeExample.vis 0 &&& 0x000FFFFF } :=
  ⟨by decide, by decide, by decide, by decide, by decide, by decide,
    NewBCDDescType_slices descTypeExample (by decide)⟩

theorem and_div_two_pow (a b k : Nat) : (a &&& b) / 2 ^ k = a / 2 ^ k &&& b / 2 ^ k := by
  induction k with
  | zero => simp
  | succ k ih =>
    rw [Nat.pow_succ, ← Nat.div_div_eq_div_mul, ← Nat.div_div_eq_div_mul,
      ← Nat.div_div_eq_div_mul, ih, Nat.and_div_two]

theorem and_mask_shift (w m k n : Nat) (hm : m / 2 ^ k = 2 ^ n - 1) :
    (w &&& m) >>> k = (w / 2 ^ k) % 2 ^ n := by
  rw [Nat.shiftRight_eq_div_pow, and_div_two_pow, hm, Nat.and_pow_two_sub_one_eq_mod]

theorem and_reserved (w : Nat) : w &&& 0x0F000000 = 2 ^ 24 * ((w / 2 ^ 24) % 16) := by
  have hq : (w &&& 0x0F000000) / 2 ^ 24 = (w / 2 ^ 24) % 2 ^ 4 := by
    rw [and_div_two_pow, show (0x0F000000 : Nat) / 2 ^ 24 = 2 ^ 4 - 1 from by norm_num,
      Nat.and_pow_two_sub_one_eq_mod]
  have hr : (w &&& 0x0F000000) % 2 ^ 24 = 0 := by
    rw [← Nat.and_pow_two_sub_one_eq_mod, Nat.and_assoc,
      show (0x0F000000 : Nat) &&& 2 ^ 24 - 1 = 0 from by decide, Nat.and_zero]
  have := Nat.div_add_mod (w &&& 0x0F000000) (2 ^ 24)
  rw [hq, hr] at this
  omega

/-- C16 (as amended): for the 32-bit word `w` of a 4-byte input, the slices
extracted by `NewBCDDescType`, re-combined as
`(object << 28) | (image << 20) | application`, give `w` with its bits 27..24
cleared, so they reproduce `w` exactly when those four bits are zero. -/
theorem recombine_NewBCDDescType (b : Slice) (h : b.len = 4) :
    recombine (NewBCDDescType b) = le32At b.vis 0 - (le32At b.vis 0 &&& 0x0F000000) ∧
    (recombine (NewBCDDescType b) = le32At b.vis 0 ↔ le32At b.vis 0 &&& 0x0F000000 = 0) := by
  have hw := le32At_lt b.vis 0
  have ho := and_mask_shift (le32At b.vis 0) 0xF0000000 28 4 (by norm_num)
  have hi := and_mask_shift (le32At b.vis 0) 0x00F00000 20 4 (by norm_num)
  have ha : le32At b.vis 0 &&& 0x000FFFFF = le32At b.vis 0 % 2 ^ 20 := by
    rw [show (0x000FFFFF : Nat) = 2 ^ 20 - 1 from by norm_num, Nat.and_pow_two_sub_one_eq_mod]
  have hy := and_reserved (le32At b.vis 0)
  rw [NewBCDDescType_slices b h]
  simp only [recombine, ho, hi, ha, hy]
  generalize le32At b.vis 0 = w at hw
  have e : (w / 2 ^ 28 % 2 ^ 4) <<< 28 ||| (w / 2 ^ 20 % 2 ^ 4) <<< 20 ||| w % 2 ^ 20
      = w % 2 ^ 20 + 2 ^ 20 * (w / 2 ^ 20 % 2 ^ 4) + 2 ^ 28 * (w / 2 ^ 28 % 2 ^ 4) := by
    rw [Nat.lor_assoc, Nat.lor_comm ((w / 2 ^ 20 % 2 ^ 4) <<< 20), lor_shl _ _ 20 (by omega),
      Nat.lor_comm, lor_shl _ _ 28 (by omega)]
  rw [e]
  omega

/-- C16 (as amended) at the DWORD `0x10200003` of scenario S6, whose bits
27..24 are zero. -/
theorem recombine_NewBCDDescType_witness :
    descTypeExample.len = 4 ∧ recombine (NewBCDDescType descTypeExample) = 0x10200003 ∧
    (recombine (NewBCDDescType descTypeExample)
        = le32At descTypeExample.vis 0 - (le32At descTypeExample.vis 0 &&& 0x0F000000) ∧
      (recombine (NewBCDDescType descTypeExample) = le32At descTypeExample.vis 0 ↔
        le32At descTypeExample.vis 0 &&& 0x0F000000 = 0)) :=
  ⟨by decide, by decide, recombine_NewBCDDescType descTypeExample (by decide)⟩

/-- C16 as stated fails: for the word `0x01000000` all three slices are zero,
and re-combined they give 0, not the word. -/
theorem recombine_drops_reserved_bits :
    reservedBitsExample.len = 4 ∧ le32At reservedBitsExample.vis 0 = 0x01000000 ∧
    NewBCDDescType reservedBitsExample =
      { Source := reservedBitsExample, ObjectType := 0, ImageType := 0, InheritType := 0,
        ApplicationType := 0 } ∧
    recombine (NewBCDDescType reservedBitsExample) = 0 ∧
    recombine (NewBCDDescType reservedBitsExample) ≠ le32At reservedBitsExample.vis 0 :=
  ⟨by decide, by decide, by decide, by decide, by decide⟩

/-! ## DecodeUTF16 -/

theorem strip_cons (x y : Byte) :
    ∀ (k : Nat) (t : List Byte),
      DecodeUTF16.strip (k + 1) (x :: y :: t)
        = DecodeUTF16.strip 1 (x :: y :: DecodeUTF16.strip k t) := by
  intro k
  induction k with
  | zero => intro t; rfl
  | succ k ih =>
    intro t
    have e0 : 2 * (k + 1) = 2 * k + 1 + 1 := by omega
    have e1 : 2 * (k + 1) + 1 = 2 * k + 1 + 1 + 1 := by omega
    have h1 : DecodeUTF16.strip (k + 1 + 1) (x :: y :: t) =
        if (x :: y :: t).getD (2 * (k + 1)) 0 = 0 ∧ (x :: y :: t).getD (2 * (k + 1) + 1) 0 = 0
        then DecodeUTF16.strip (k + 1) ((x :: y :: t).take (2 * (k + 1)))
        else DecodeUTF16.strip (k + 1) (x :: y :: t) := rfl
    have h2 : DecodeUTF16.strip (k + 1) t =
        if t.getD (2 * k) 0 = 0 ∧ t.getD (2 * k + 1) 0 = 0
        then DecodeUTF16.strip k (t.take (2 * k)) else DecodeUTF16.strip k t := rfl
    rw [h1, h2]
    simp only [e0, e1, List.getD_cons_succ, List.take_succ_cons]
    split
    · exact ih _
    · exact ih _

/-- The first loop of `DecodeUTF16` cuts an even-length slice at its first
null code unit, wherever that is. -/
theorem strip_eq_cutAtNull :
    ∀ (n : Nat) (b : List Byte), b.length = 2 * n → DecodeUTF16.strip n b = cutAtNull b := by
  intro n
  induction n with
  | zero =>
    intro b hb
    have : b = [] := List.length_eq_zero.mp (by omega)
    subst this
    rfl
  | succ n ih =>
    intro b hb
    rcases b with _ | ⟨x, _ | ⟨y, t⟩⟩
    · simp at hb
    · simp at hb
      omega
    · have ht : t.length = 2 * n := by
        simp only [List.length_cons] at hb
        omega
      rw [strip_cons, ih t ht, cutAtNull]
      simp only [DecodeUTF16.strip, Nat.mul_zero, List.getD_cons_zero, Nat.zero_add,
        List.getD_cons_succ, List.take_zero]

/-- What `DecodeUTF16` returns on a slice of even length: the code units
before the first null code unit, each decoded on its own. -/
theorem DecodeUTF16_eq (b : Slice) (h : b.len % 2 = 0) :
    DecodeUTF16 b = .ok (DecodeUTF16.units (cutAtNull b.vis)) := by
  have e := strip_eq_cutAtNull (b.len / 2) b.vis (by simp only [Slice.len] at *; omega)
  simp only [DecodeUTF16, h, ne_eq, not_true_eq_false, if_false, e]
  split
  · next h0 =>
    rw [List.length_eq_zero.mp h0]
    rfl
  · rfl

/-- C17 fails on the code.  For the code units `a`, null, `b` the decoding
with the trailing nulls removed keeps all three characters, but `DecodeUTF16`
returns `a`; and for the surrogate pair of `U+1F600` it returns two
replacement characters. -/
theorem DecodeUTF16_cuts_at_interior_null :
    interiorNull.len % 2 = 0 ∧ wordsOf interiorNull.vis = [0x61, 0, 0x62] ∧
    runesToString (utf16Decode [0x61, 0, 0x62]) = String.mk [ 'a', Char.ofNat 0, 'b' ] ∧
    DecodeUTF16 interiorNull = .ok "a" ∧
    surrogatePair.len % 2 = 0 ∧ wordsOf surrogatePair.vis = [0xD83D, 0xDE00] ∧
    runesToString (utf16Decode [0xD83D, 0xDE00]) = String.mk [Char.ofNat 0x1F600] ∧
    DecodeUTF16 surrogatePair = .ok (String.mk [Char.ofNat 0xFFFD, Char.ofNat 0xFFFD]) :=
  ⟨by decide, by decide, by decide, rfl, by decide, by decide, by decide, rfl⟩

/-! ## Value promotion -/

/-- C18: on every value on which `decodeHiveValue` succeeds, (i) `REG_BINARY`
under a parent named `device`, `osdevice` or `ramdisksdidevice` gives the tag
`0xE`, the device `BCDDeviceFromBin` decodes from the raw bytes and an empty
raw byte slot; (ii) `REG_DWORD_LITTLE` under `Description` with key `Type`
gives the tag `0xF`, `NewBCDDescType` of the raw bytes and an empty raw byte
slot; (iii) `REG_SZ`, `REG_EXPAND_SZ` and `REG_MULTI_SZ` keep the tag and
clear the raw byte slot; (iv) in every other case the raw bytes and the tag
are kept and no decoded variant is set. -/
theorem decodeHiveValue_promotion (os : Osmgr) (hive : Hivex) (node value : Int)
    (key : String) (tag : Int) (raw : Slice) (hv : HiveValue)
    (hkey : hive.NodeValueKey value = .ok key) (hval : hive.ValueValue value = .ok (tag, raw))
    (h : decodeHiveValue os hive node value = .ok (.value hv)) :
    (tag = 3 → ((hive.NodeName node).1 = "device" ∨ (hive.NodeName node).1 = "osdevice" ∨
        (hive.NodeName node).1 = "ramdisksdidevice") →
      ∃ d, BCDDeviceFromBin os raw = .ok (.dev d) ∧ hv.ValueType = 0xE ∧
        hv.ValueDevice = some d ∧ hv.ValueBytes = Slice.nil) ∧
    (tag = 4 → (hive.NodeName node).1 = "Description" → key = "Type" →
      hv.ValueType = 0xF ∧ hv.ValueDescType = some (NewBCDDescType raw) ∧
        hv.ValueBytes = Slice.nil) ∧
    (tag = 1 ∨ tag = 2 ∨ tag = 7 → hv.ValueBytes = Slice.nil ∧ hv.ValueType = tag) ∧
    (¬ (tag = 3 ∧ ((hive.NodeName node).1 = "device" ∨ (hive.NodeName node).1 = "osdevice" ∨
          (hive.NodeName node).1 = "ramdisksdidevice")) →
      ¬ (tag = 4 ∧ (hive.NodeName node).1 = "Description" ∧ key = "Type") →
      ¬ (tag = 1 ∨ tag = 2 ∨ tag = 7) →
      hv.ValueBytes = raw ∧ hv.ValueType = tag ∧ hv.ValueString = "" ∧ hv.ValueStrings = [] ∧
        hv.ValueDevice = none ∧ hv.ValueDescType = none) := by
  simp only [decodeHiveValue, hkey, hval, RegBinary, RegDwordLittle, RegSZ, RegExpandSZ,
    RegMultiSZ, RegDevice, RegDescType] at h
  refine ⟨?_, ?_, ?_, ?_⟩
  · intro h3 hp
    simp only [h3, hp, if_true] at h
    cases hb : BCDDeviceFromBin os raw with
    | ok r =>
      rw [hb] at h
      cases r with
      | dev d =>
        simp only [Res.bind] at h
        injection h with h
        injection h with h
        exact ⟨d, rfl, by rw [← h], by rw [← h], by rw [← h]⟩
      | err e =>
        simp only [Res.bind] at h
        injection h with h
        injection h
    | panic =>
      rw [hb] at h
      simp [Res.bind] at h
    | fatal m =>
      rw [hb] at h
      simp [Res.bind] at h
  · intro h4 hp hk
    simp only [h4, hp, hk] at h
    simp only [show ¬ ((4 : Int) = 3) from by decide, if_false, if_true, and_self] at h
    injection h with h
    injection h with h
    exact ⟨by rw [← h], by rw [← h], by rw [← h]⟩
  · intro ht
    rcases ht with h1 | h2 | h7
    · simp only [h1] at h
      simp only [show ¬ ((1 : Int) = 3) from by decide, show ¬ ((1 : Int) = 4) from by decide,
        if_false, true_or, if_true] at h
      injection h with h
      injection h with h
      exact ⟨by rw [← h], by rw [← h, h1]⟩
    · simp only [h2] at h
      simp only [show ¬ ((2 : Int) = 3) from by decide, show ¬ ((2 : Int) = 4) from by decide,
        if_false, or_true, if_true] at h
      injection h with h
      injection h with h
      exact ⟨by rw [← h], by rw [← h, h2]⟩
    · simp only [h7] at h
      simp only [show ¬ ((7 : Int) = 3) from by decide, show ¬ ((7 : Int) = 4) from by decide,
        show ¬ ((7 : Int) = 1 ∨ (7 : Int) = 2) from by decide, if_false, if_true] at h
      cases hm : hive.ValueMultipleStrings value with
      | error e =>
        rw [hm] at h
        injection h with h
        injection h
      | ok values =>
        rw [hm] at h
        dsimp only at h
        split at h
        · injection h
        · injection h with h
          injection h with h
          exact ⟨by rw [← h], by rw [← h, h7]⟩
  · intro n3 n4 n127
    have keep : (Res.ok (ValueResult.value
        { Key := key, Value := value, ValueType := tag, ValueBytes := raw, hiveNode := node })
        : Res ValueResult) = .ok (.value hv) →
        hv.ValueBytes = raw ∧ hv.ValueType = tag ∧ hv.ValueString = "" ∧ hv.ValueStrings = [] ∧
          hv.ValueDevice = none ∧ hv.ValueDescType = none := by
      intro e
      injection e with e
      injection e with e
      rw [← e]
      exact ⟨rfl, rfl, rfl, rfl, rfl, rfl⟩
    by_cases h3 : tag = 3
    · have hp : ¬ ((hive.NodeName node).1 = "device" ∨ (hive.NodeName node).1 = "osdevice" ∨
          (hive.NodeName node).1 = "ramdisksdidevice") := fun hp => n3 ⟨h3, hp⟩
      subst h3
      simp only [hp, if_true, if_false] at h
      exact keep h
    · by_cases h4 : tag = 4
      · have hp : ¬ ((hive.NodeName node).1 = "Description" ∧ key = "Type") :=
          fun hp => n4 ⟨h4, hp⟩
        subst h4
        simp only [hp, show ¬ ((4 : Int) = 3) from by decide, if_true, if_false] at h
        exact keep h
      · have h12 : ¬ (tag = 1 ∨ tag = 2) := fun h12 => n127 (by tauto)
        have h7 : ¬ tag = 7 := fun h7 => n127 (by tauto)
        simp only [h3, h4, h12, h7, if_false] at h
        exact keep h

/-- C18 at the `device` value, promoted to the boot device of scenario S1. -/
theorem decodeHiveValue_promotion_witness :
    decodeHiveValue noDisks hiveExample 1 10 = .ok (.value
      { Key := "Element", Value := 10, ValueType := 0xE, ValueBytes := Slice.nil,
        ValueDevice := some
          { Type_ := "boot", Disk := "boot", GUID := "466F5A88-0AF2-4F76-9038-095B170DC21C" },
        hiveNode := 1 }) ∧
    decodeHiveValue noDisks hiveExample 2 20 = .ok (.value
      { Key := "Type", Value := 20, ValueType := 0xF, ValueBytes := Slice.nil,
        ValueDescType := some (NewBCDDescType descTypeExample), hiveNode := 2 }) ∧
    decodeHiveValue noDisks hiveExample 3 30 = .ok (.value
      { Key := "Other", Value := 30, ValueType := 3, ValueBytes := ⟨[1, 2], []⟩,
        hiveNode := 3 }) ∧
    ((3 : Int) = 3 → ((hiveExample.NodeName 1).1 = "device" ∨
        (hiveExample.NodeName 1).1 = "osdevice" ∨
        (hiveExample.NodeName 1).1 = "ramdisksdidevice") →
      ∃ d, BCDDeviceFromBin noDisks bootPayload = .ok (.dev d) ∧ (0xE : Int) = 0xE ∧
        some ({ Type_ := "boot", Disk := "boot",
                GUID := "466F5A88-0AF2-4F76-9038-095B170DC21C" } : BCDDevice) = some d ∧
        Slice.nil = Slice.nil) :=
  ⟨by decide!, by decide!, by decide!,
    (decodeHiveValue_promotion noDisks hiveExample 1 10 "Element" 3 bootPayload
      { Key := "Element", Value := 10, ValueType := 0xE, ValueBytes := Slice.nil,
        ValueDevice := some
          { Type_ := "boot", Disk := "boot", GUID := "466F5A88-0AF2-4F76-9038-095B170DC21C" },
        hiveNode := 1 } rfl rfl (by decide!)).1⟩

/-! ## Aliases -/

theorem mem_mapInsert (m : List (String × String)) (key val : String) (kv : String × String)
    (h : kv ∈ mapInsert m key val) : kv ∈ m ∨ kv = (key, val) := by
  induction m with
  | nil =>
    simp only [mapInsert, List.mem_singleton] at h
    exact Or.inr h
  | cons e rest ih =>
    obtain ⟨k, v⟩ := e
    simp only [mapInsert] at h
    split at h
    · rename_i hk
      rcases List.mem_cons.1 h with h | h
      · exact Or.inr (by rw [h, hk])
      · exact Or.inl (List.mem_cons_of_mem _ h)
    · rcases List.mem_cons.1 h with h | h
      · exact Or.inl (by rw [h]; exact List.mem_cons_self _ _)
      · rcases ih h with h | h
        · exact Or.inl (List.mem_cons_of_mem _ h)
        · exact Or.inr h

theorem foldl_mapInsert_lowered (f : String → String) (hf : ∀ s, f (f s) = f s)
    (testKeys m : List (String × String)) (hm : ∀ kv ∈ m, f kv.1 = kv.1 ∧ f kv.2 = kv.2) :
    ∀ kv ∈ testKeys.foldl (fun m kv => mapInsert m (f kv.1) (f kv.2)) m,
      f kv.1 = kv.1 ∧ f kv.2 = kv.2 := by
  induction testKeys generalizing m with
  | nil => exact hm
  | cons e rest ih =>
    rw [List.foldl_cons]
    apply ih
    intro kv hkv
    rcases mem_mapInsert _ _ _ _ hkv with h | h
    · exact hm kv h
    · rw [h]
      exact ⟨hf _, hf _⟩

/-- Every key and every value of a loaded map is in lower case. -/
theorem loadNodeKeys_lowered (f : String → String) (hf : ∀ s, f (f s) = f s)
    (testKeys : List (String × String)) :
    ∀ kv ∈ loadNodeKeys f testKeys, f kv.1 = kv.1 ∧ f kv.2 = kv.2 :=
  foldl_mapInsert_lowered f hf testKeys [] (fun _ h => absurd h (List.not_mem_nil _))

/-- The key loop returns the value of an entry with the key `input`, or
`input` itself when there is no such entry. -/
theorem rangeKeyVal_spec (m : List (String × String)) (input : String) :
    (input, rangeKeyVal m input) ∈ m ∨
      ((∀ kv ∈ m, kv.1 ≠ input) ∧ rangeKeyVal m input = input) := by
  induction m with
  | nil => exact Or.inr ⟨fun _ h => absurd h (List.not_mem_nil _), rfl⟩
  | cons e rest ih =>
    obtain ⟨k, v⟩ := e
    simp only [rangeKeyVal]
    split
    · rename_i hk
      exact Or.inl (by rw [hk]; exact List.mem_cons_self _ _)
    · rename_i hk
      rcases ih with h | ⟨h1, h2⟩
      · exact Or.inl (List.mem_cons_of_mem _ h)
      · refine Or.inr ⟨?_, h2⟩
        intro kv hkv
        rcases List.mem_cons.1 hkv with h | h
        · rw [h]
          exact fun e => hk e.symm
        · exact h1 kv h

/-- The value loop returns the key of an entry with the value `input`, or
`input` itself when there is no such entry. -/
theorem rangeValKey_spec (m : List (String × String)) (input : String) :
    (rangeValKey m input, input) ∈ m ∨
      ((∀ kv ∈ m, kv.2 ≠ input) ∧ rangeValKey m input = input) := by
  induction m with
  | nil => exact Or.inr ⟨fun _ h => absurd h (List.not_mem_nil _), rfl⟩
  | cons e rest ih =>
    obtain ⟨k, v⟩ := e
    simp only [rangeValKey]
    split
    · rename_i hk
      exact Or.inl (by rw [hk]; exact List.mem_cons_self _ _)
    · rename_i hk
      rcases ih with h | ⟨h1, h2⟩
      · exact Or.inl (List.mem_cons_of_mem _ h)
      · refine Or.inr ⟨?_, h2⟩
        intro kv hkv
        rcases List.mem_cons.1 hkv with h | h
        · rw [h]
          exact fun e => hk e.symm
        · exact h1 kv h

/-- On a loaded map `NodeKeyVal` is the key loop on the lower-cased input. -/
theorem NodeKeyVal_loaded (src : AliasSource) (m : List (String × String)) (x : String) :
    NodeKeyVal src (some m) x =
      .ok (if x = "" then "" else rangeKeyVal m (src.ToLower x), some m) := by
  unfold NodeKeyVal
  split
  · rfl
  · rfl

/-- On a loaded map `NodeValKey` is the value loop on the lower-cased input. -/
theorem NodeValKey_loaded (src : AliasSource) (m : List (String × String)) (x : String) :
    NodeValKey src (some m) x =
      .ok (if x = "" then "" else rangeValKey m (src.ToLower x), some m) := by
  unfold NodeValKey
  split
  · rfl
  · rfl

theorem toLower_toLower (c : Char) : c.toLower.toLower = c.toLower := by
  have hv : ∀ c : Char, c.toLower = if 65 ≤ c.toNat ∧ c.toNat ≤ 90 then Char.ofNat (c.toNat + 32) else c :=
    fun _ => rfl
  by_cases h : 65 ≤ c.toNat ∧ c.toNat ≤ 90
  · have hc : c = Char.ofNat c.toNat := (Char.ofNat_toNat c).symm
    obtain ⟨h1, h2⟩ := h
    generalize c.toNat = n at hc h1 h2
    subst hc
    interval_cases n <;> decide
  · rw [hv c, if_neg h]
    rw [hv c, if_neg h]

theorem asciiLower_asciiLower (s : String) : asciiLower (asciiLower s) = asciiLower s := by
  unfold asciiLower
  congr 1
  simp only [List.map_map]
  apply List.map_congr_left
  intro c _
  exact toLower_toLower c

/-- C19 (as amended): on a loaded alias map in which every alias that is also
a key is its own alias, with an idempotent lower-casing, `NodeKeyVal` applied
to its own result returns that result again. -/
theorem NodeKeyVal_idempotent (src : AliasSource) (testKeys : List (String × String))
    (x : String) (hlow : ∀ s, src.ToLower (src.ToLower s) = src.ToLower s)
    (hchain : ∀ kv ∈ loadNodeKeys src.ToLower testKeys,
      ∀ kv2 ∈ loadNodeKeys src.ToLower testKeys, kv2.1 = kv.2 → kv2.2 = kv.2) :
    ∃ y, NodeKeyVal src (some (loadNodeKeys src.ToLower testKeys)) x =
        .ok (y, some (loadNodeKeys src.ToLower testKeys)) ∧
      NodeKeyVal src (some (loadNodeKeys src.ToLower testKeys)) y =
        .ok (y, some (loadNodeKeys src.ToLower testKeys)) := by
  have hl := loadNodeKeys_lowered src.ToLower hlow testKeys
  generalize loadNodeKeys src.ToLower testKeys = m at hchain hl
  refine ⟨_, NodeKeyVal_loaded src m x, ?_⟩
  rw [NodeKeyVal_loaded]
  congr 2
  by_cases hx : x = ""
  · rw [if_pos hx, if_pos rfl]
  · rw [if_neg hx]
    split
    · rename_i hy
      exact hy.symm
    · have step : ∀ v, src.ToLower v = v → (∀ kv2 ∈ m, kv2.1 = v → kv2.2 = v) →
          rangeKeyVal m (src.ToLower v) = v := by
        intro v hv hc
        rw [hv]
        rcases rangeKeyVal_spec m v with h | ⟨_, h⟩
        · exact hc _ h rfl
        · exact h
      rcases rangeKeyVal_spec m (src.ToLower x) with h | ⟨hnk, h⟩
      · exact step _ (hl _ h).2 (hchain _ h)
      · rw [h]
        exact step _ (hlow x) (fun kv2 hkv2 hk => absurd hk (hnk kv2 hkv2))

/-- C19 (as amended) on the two element aliases, at an upper-case key. -/
theorem NodeKeyVal_idempotent_witness :
    NodeKeyVal (aliasFile elementAliases) none "11000001" =
        .ok ("device", some (loadNodeKeys asciiLower elementAliases)) ∧
      ∃ y, NodeKeyVal (aliasFile elementAliases)
          (some (loadNodeKeys (aliasFile elementAliases).ToLower elementAliases)) "PATH" =
          .ok (y, some (loadNodeKeys (aliasFile elementAliases).ToLower elementAliases)) ∧
        NodeKeyVal (aliasFile elementAliases)
          (some (loadNodeKeys (aliasFile elementAliases).ToLower elementAliases)) y =
          .ok (y, some (loadNodeKeys (aliasFile elementAliases).ToLower elementAliases)) :=
  ⟨by decide!, NodeKeyVal_idempotent (aliasFile elementAliases) elementAliases "PATH"
    asciiLower_asciiLower (by decide!)⟩

/-- C19 as stated fails: with the aliases `a ↦ b` and `b ↦ c` read from the
file, `NodeKeyVal` gives `b` on `a` and `c` on `b`. -/
theorem NodeKeyVal_not_idempotent :
    NodeKeyVal (aliasFile chainedAliases) none "a" =
        .ok ("b", some (loadNodeKeys asciiLower chainedAliases)) ∧
      NodeKeyVal (aliasFile chainedAliases) (some (loadNodeKeys asciiLower chainedAliases)) "b" =
        .ok ("c", some (loadNodeKeys asciiLower chainedAliases)) ∧
      "c" ≠ "b" := by
  decide!

/-- C20 (as amended): on a loaded alias map with pairwise distinct aliases,
iterated in any order, with an idempotent lower-casing, and for an input whose
lower-cased form is a key of the map or is not an alias in it, `NodeValKey`
applied to the result of `NodeKeyVal` returns the lower-cased input or that
result. -/
theorem NodeValKey_NodeKeyVal (src : AliasSource) (testKeys m2 : List (String × String))
    (x : String) (hlow : ∀ s, src.ToLower (src.ToLower s) = src.ToLower s)
    (hinj : ((loadNodeKeys src.ToLower testKeys).map Prod.snd).Nodup)
    (horder : m2.Perm (loadNodeKeys src.ToLower testKeys))
    (hx : src.ToLower x ∈ (loadNodeKeys src.ToLower testKeys).map Prod.fst ∨
      src.ToLower x ∉ (loadNodeKeys src.ToLower testKeys).map Prod.snd) :
    ∃ y z, NodeKeyVal src (some (loadNodeKeys src.ToLower testKeys)) x =
        .ok (y, some (loadNodeKeys src.ToLower testKeys)) ∧
      NodeValKey src (some m2) y = .ok (z, some m2) ∧ (z = src.ToLower x ∨ z = y) := by
  have hl := loadNodeKeys_lowered src.ToLower hlow testKeys
  generalize loadNodeKeys src.ToLower testKeys = m at hinj horder hx hl
  refine ⟨_, _, NodeKeyVal_loaded src m x, NodeValKey_loaded src m2 _, ?_⟩
  by_cases hx0 : x = ""
  · rw [if_pos hx0, if_pos rfl]
    exact Or.inr rfl
  · rw [if_neg hx0]
    split
    · rename_i hy
      exact Or.inr hy.symm
    · rcases rangeKeyVal_spec m (src.ToLower x) with h | ⟨hnk, h⟩
      · rw [(hl _ h).2]
        left
        rcases rangeValKey_spec m2 (rangeKeyVal m (src.ToLower x)) with h2 | ⟨h2, _⟩
        · have e := List.inj_on_of_nodup_map hinj (horder.mem_iff.1 h2) h rfl
          exact congrArg Prod.fst e
        · exact absurd rfl (h2 _ (horder.mem_iff.2 h))
      · rw [h, hlow]
        have hnv : src.ToLower x ∉ m.map Prod.snd := by
          rcases hx with hk | hv
          · obtain ⟨kv, hkv, e⟩ := List.mem_map.1 hk
            exact absurd e (hnk kv hkv)
          · exact hv
        rcases rangeValKey_spec m2 (src.ToLower x) with h2 | ⟨_, h2⟩
        · exact absurd (List.mem_map.2 ⟨_, horder.mem_iff.1 h2, rfl⟩) hnv
        · exact Or.inl h2

/-- C20 (as amended) on the two element aliases, iterated in reverse order for
the second call, at a key. -/
theorem NodeValKey_NodeKeyVal_witness :
    NodeKeyVal (aliasFile elementAliases) none "11000001" =
        .ok ("device", some (loadNodeKeys asciiLower elementAliases)) ∧
      NodeValKey (aliasFile elementAliases)
        (some (loadNodeKeys asciiLower elementAliases).reverse) "device" =
        .ok ("11000001", some (loadNodeKeys asciiLower elementAliases).reverse) ∧
      ∃ y z, NodeKeyVal (aliasFile elementAliases)
          (some (loadNodeKeys (aliasFile elementAliases).ToLower elementAliases)) "11000001" =
          .ok (y, some (loadNodeKeys (aliasFile elementAliases).ToLower elementAliases)) ∧
        NodeValKey (aliasFile elementAliases)
          (some (loadNodeKeys (aliasFile elementAliases).ToLower elementAliases).reverse) y =
          .ok (z, some (loadNodeKeys (aliasFile elementAliases).ToLower elementAliases).reverse) ∧
        (z = (aliasFile elementAliases).ToLower "11000001" ∨ z = y) :=
  ⟨by decide!, by decide!,
    NodeValKey_NodeKeyVal (aliasFile elementAliases) elementAliases
      (loadNodeKeys (aliasFile elementAliases).ToLower elementAliases).reverse "11000001"
      asciiLower_asciiLower (by decide!) (List.reverse_perm _) (by decide!)⟩

/-- C20 as stated fails: with the single alias `a ↦ b`, the input `A` is
aliased to `b` and unaliased to `a`, which is neither `A` nor `b`; and the
input `b`, which is no key, is aliased to itself and unaliased to `a`. -/
theorem NodeValKey_NodeKeyVal_fails :
    NodeKeyVal (aliasFile singleAlias) none "A" =
        .ok ("b", some (loadNodeKeys asciiLower singleAlias)) ∧
      NodeValKey (aliasFile singleAlias) (some (loadNodeKeys asciiLower singleAlias)) "b" =
        .ok ("a", some (loadNodeKeys asciiLower singleAlias)) ∧
      "a" ≠ "A" ∧ "a" ≠ "b" ∧
      NodeKeyVal (aliasFile singleAlias) (some (loadNodeKeys asciiLower singleAlias)) "b" =
        .ok ("b", some (loadNodeKeys asciiLower singleAlias)) := by
  decide!

/-! ## Alias lookup without a mapping -/

theorem aliasMap_aliasMap (src : AliasSource) (nodeKeys : Option (List (String × String))) :
    aliasMap src (aliasMap src nodeKeys) = aliasMap src nodeKeys := by
  cases nodeKeys with
  | some m => rfl
  | none =>
    rcases hf : src.file with _ | _ | tk
    · simp only [aliasMap, hf]
    · simp only [aliasMap, hf]
    · simp only [aliasMap, hf]

theorem aliasReady_aliasMap (src : AliasSource) (nodeKeys : Option (List (String × String)))
    (h : aliasReady src nodeKeys) : aliasReady src (aliasMap src nodeKeys) := by
  cases nodeKeys with
  | some m => exact h
  | none =>
    rcases h with h | h
    · exact absurd rfl h
    · exact Or.inr h

/-- With a usable alias source `NodeKeyVal` returns the empty string on the
empty string, and otherwise the input when there is no map and the result of
the key loop on the lower-cased input when there is one; it leaves the map it
worked with in the global. -/
theorem NodeKeyVal_ready (src : AliasSource) (nodeKeys : Option (List (String × String)))
    (h : aliasReady src nodeKeys) (x : String) :
    NodeKeyVal src nodeKeys x =
      .ok (if x = "" then "" else
          match aliasMap src nodeKeys with
          | none => x
          | some m => rangeKeyVal m (src.ToLower x),
        if x = "" then nodeKeys else aliasMap src nodeKeys) := by
  unfold NodeKeyVal
  by_cases hx : x = ""
  · simp only [hx, if_true]
  · simp only [hx, if_false]
    cases nodeKeys with
    | some m => rfl
    | none =>
      rcases hf : src.file with _ | _ | tk
      · simp only [getNodeKeys, aliasMap, hf]
        rfl
      · rcases h with h | h
        · exact absurd rfl h
        · exact absurd hf h
      · simp only [getNodeKeys, aliasMap, hf]
        rfl

/-- The same for `NodeValKey`, with the value loop. -/
theorem NodeValKey_ready (src : AliasSource) (nodeKeys : Option (List (String × String)))
    (h : aliasReady src nodeKeys) (x : String) :
    NodeValKey src nodeKeys x =
      .ok (if x = "" then "" else
          match aliasMap src nodeKeys with
          | none => x
          | some m => rangeValKey m (src.ToLower x),
        if x = "" then nodeKeys else aliasMap src nodeKeys) := by
  unfold NodeValKey
  by_cases hx : x = ""
  · simp only [hx, if_true]
  · simp only [hx, if_false]
    cases nodeKeys with
    | some m => rfl
    | none =>
      rcases hf : src.file with _ | _ | tk
      · simp only [getNodeKeys, aliasMap, hf]
        rfl
      · rcases h with h | h
        · exact absurd rfl h
        · exact absurd hf h
      · simp only [getNodeKeys, aliasMap, hf]
        rfl

theorem rangeKeyVal_no_key (m : List (String × String)) (input : String)
    (h : ∀ kv ∈ m, kv.1 ≠ input) : rangeKeyVal m input = input := by
  rcases rangeKeyVal_spec m input with hm | ⟨_, e⟩
  · exact absurd rfl (h _ hm)
  · exact e

theorem rangeValKey_no_value (m : List (String × String)) (input : String)
    (h : ∀ kv ∈ m, kv.2 ≠ input) : rangeValKey m input = input := by
  rcases rangeValKey_spec m input with hm | ⟨_, e⟩
  · exact absurd rfl (h _ hm)
  · exact e

/-- C21 (as amended): when the alias file is unavailable `NodeKeyVal` and
`NodeValKey` return the input unchanged; when the map `m` is loaded (already,
or by this first access) and the lower-cased input is not a key of it,
`NodeKeyVal` returns the lower-cased input, and when the lower-cased input is
not a value of it, `NodeValKey` returns the lower-cased input: the input
itself exactly when it is in lower case already. -/
theorem alias_without_mapping (src : AliasSource)
    (nodeKeys : Option (List (String × String))) (x : String) (hx : x ≠ "") :
    (nodeKeys = none → src.file = none →
      NodeKeyVal src nodeKeys x = .ok (x, none) ∧ NodeValKey src nodeKeys x = .ok (x, none)) ∧
    (∀ m, aliasReady src nodeKeys → aliasMap src nodeKeys = some m →
      ((∀ kv ∈ m, kv.1 ≠ src.ToLower x) →
        NodeKeyVal src nodeKeys x = .ok (src.ToLower x, some m) ∧
        (NodeKeyVal src nodeKeys x = .ok (x, some m) ↔ src.ToLower x = x)) ∧
      ((∀ kv ∈ m, kv.2 ≠ src.ToLower x) →
        NodeValKey src nodeKeys x = .ok (src.ToLower x, some m) ∧
        (NodeValKey src nodeKeys x = .ok (x, some m) ↔ src.ToLower x = x))) := by
  have inj : ∀ (a b : String) (s : Option (List (String × String))),
      (Res.ok (a, s) : Res (String × Option (List (String × String)))) = .ok (b, s) ↔ a = b := by
    intro a b s
    constructor
    · intro e
      injection e with e
      exact congrArg Prod.fst e
    · intro e
      rw [e]
  constructor
  · intro hn hf
    have hr : aliasReady src nodeKeys := Or.inr (by rw [hf]; exact fun e => nomatch e)
    have hm : aliasMap src nodeKeys = none := by
      rw [hn]
      simp only [aliasMap, hf]
    rw [NodeKeyVal_ready src nodeKeys hr, NodeValKey_ready src nodeKeys hr, hm]
    simp only [hx, if_false]
    exact ⟨trivial, trivial⟩
  · intro m hr hm
    rw [NodeKeyVal_ready src nodeKeys hr, NodeValKey_ready src nodeKeys hr, hm]
    simp only [hx, if_false]
    constructor
    · intro hk
      rw [rangeKeyVal_no_key m _ hk]
      exact ⟨rfl, inj _ _ _⟩
    · intro hv
      rw [rangeValKey_no_value m _ hv]
      exact ⟨rfl, inj _ _ _⟩

/-- C21 (as amended) without an alias file, and with the single alias
`a ↦ b` at the lower-case inputs `b` (no key) and `a` (no value). -/
theorem alias_without_mapping_witness :
    (NodeKeyVal noAliasFile none "Device" = .ok ("Device", none) ∧
      NodeValKey noAliasFile none "Device" = .ok ("Device", none)) ∧
    NodeKeyVal (aliasFile singleAlias) none "b" = .ok ("b", some [("a", "b")]) ∧
    NodeValKey (aliasFile singleAlias) none "a" = .ok ("a", some [("a", "b")]) :=
  ⟨(alias_without_mapping noAliasFile none "Device" (by decide)).1 rfl rfl,
    ((alias_without_mapping (aliasFile singleAlias) none "b" (by decide)).2 [("a", "b")]
      (Or.inr (by decide)) (by decide!)).1 (by decide!) |>.1,
    ((alias_without_mapping (aliasFile singleAlias) none "a" (by decide)).2 [("a", "b")]
      (Or.inr (by decide)) (by decide!)).2 (by decide!) |>.1⟩

/-- C21 as stated fails: with the single alias `a ↦ b` loaded, `B` in lower
case is no key and `NodeKeyVal` returns `b`, not `B`; `A` in lower case is no
value and `NodeValKey` returns `a`, not `A`. -/
theorem alias_without_mapping_lowercases :
    (∀ kv ∈ loadNodeKeys asciiLower singleAlias, kv.1 ≠ asciiLower "B") ∧
    NodeKeyVal (aliasFile singleAlias) (some (loadNodeKeys asciiLower singleAlias)) "B" =
      .ok ("b", some (loadNodeKeys asciiLower singleAlias)) ∧
    "b" ≠ "B" ∧
    (∀ kv ∈ loadNodeKeys asciiLower singleAlias, kv.2 ≠ asciiLower "A") ∧
    NodeValKey (aliasFile singleAlias) (some (loadNodeKeys asciiLower singleAlias)) "A" =
      .ok ("a", some (loadNodeKeys asciiLower singleAlias)) ∧
    "a" ≠ "A" := by
  decide!

/-! ## Node lookup by path -/

theorem aliasedName_ready (src : AliasSource) (nodeKeys : Option (List (String × String)))
    (h : aliasReady src nodeKeys) (name : String) :
    aliasedName src nodeKeys name =
      some (if name = "" then "" else
        match aliasMap src nodeKeys with
        | none => name
        | some m => rangeKeyVal m (src.ToLower name)) := by
  simp only [aliasedName, NodeKeyVal_ready src nodeKeys h name]

/-- Matching depends on the global `nodeKeys` only through the alias map it
stands for. -/
theorem childMatches_congr (src : AliasSource) (st st2 : Option (List (String × String)))
    (h : aliasReady src st) (h2 : aliasReady src st2) (e : aliasMap src st2 = aliasMap src st)
    (component : String) : childMatches src st2 component = childMatches src st component := by
  funext child
  simp only [childMatches, aliasedName_ready src st h, aliasedName_ready src st2 h2, e]

theorem walkPath_congr (src : AliasSource) (st st2 : Option (List (String × String)))
    (h : aliasReady src st) (h2 : aliasReady src st2) (e : aliasMap src st2 = aliasMap src st) :
    ∀ (components : List String) (n : HiveNode),
      walkPath src st2 components n = walkPath src st components n := by
  intro components
  induction components with
  | nil => intro n; rfl
  | cons c rest ih =>
    intro n
    simp only [walkPath, childMatches_congr src st st2 h h2 e, ih]

/-- The state `NodeKeyVal` leaves behind stands for the same alias map. -/
theorem NodeKeyVal_state (src : AliasSource) (st : Option (List (String × String)))
    (h : aliasReady src st) (x : String) :
    ∃ r, NodeKeyVal src st x = .ok r ∧ aliasedName src st x = some r.1 ∧
      aliasReady src r.2 ∧ aliasMap src r.2 = aliasMap src st := by
  refine ⟨_, NodeKeyVal_ready src st h x, ?_, ?_, ?_⟩
  · exact aliasedName_ready src st h x
  · dsimp only
    split
    · exact h
    · exact aliasReady_aliasMap src st h
  · dsimp only
    split
    · rfl
    · exact aliasMap_aliasMap src st

/-- The inner loop of `GetNode` finds the first matching child. -/
theorem findChild_eq (src : AliasSource) (component : String) :
    ∀ (children : List HiveNode) (st : Option (List (String × String))), aliasReady src st →
      ∃ st2, GetNode.findChild src component children st =
          .ok (children.find? (childMatches src st component), st2) ∧
        aliasReady src st2 ∧ aliasMap src st2 = aliasMap src st := by
  intro children
  induction children with
  | nil => intro st h; exact ⟨st, rfl, h, rfl⟩
  | cons child rest ih =>
    intro st h
    obtain ⟨r, hr, ha, hr2, hm⟩ := NodeKeyVal_state src st h child.Name
    by_cases h1 : src.ToLower child.Name = component
    · refine ⟨st, ?_, h, rfl⟩
      simp only [GetNode.findChild, h1, if_true, List.find?, childMatches, beq_self_eq_true,
        Bool.true_or]
    · by_cases h2 : r.1 = component
      · refine ⟨r.2, ?_, hr2, hm⟩
        simp only [GetNode.findChild, h1, if_false, hr, Res.bind, h2, if_true, List.find?,
          childMatches, ha, beq_self_eq_true, Bool.or_true]
      · obtain ⟨st2, hf, hready, hmap⟩ := ih r.2 hr2
        refine ⟨st2, ?_, hready, hmap.trans hm⟩
        have hno : childMatches src st component child = false := by
          simp only [childMatches, ha, Bool.or_eq_false_iff, beq_eq_false_iff_ne, ne_eq,
            Option.some.injEq]
          exact ⟨h1, h2⟩
        simp only [GetNode.findChild, h1, if_false, hr, Res.bind, h2, hf, List.find?, hno,
          childMatches_congr src st r.2 h hr2 hm]

/-- The outer loop of `GetNode` is the descent along the components. -/
theorem loop_eq (src : AliasSource) :
    ∀ (components : List String) (n : HiveNode) (st : Option (List (String × String))),
      aliasReady src st →
      ∃ st2, GetNode.loop src components n st =
        .ok (lookupResult (walkPath src st components n), st2) := by
  intro components
  induction components with
  | nil => intro n st _; exact ⟨st, rfl⟩
  | cons c rest ih =>
    intro n st h
    obtain ⟨st1, hf, hr1, hm1⟩ := findChild_eq src c n.Children st h
    cases hfind : n.Children.find? (childMatches src st c) with
    | none =>
      refine ⟨st1, ?_⟩
      simp only [GetNode.loop, hf, hfind, Res.bind, walkPath, lookupResult]
    | some child =>
      obtain ⟨st2, hl⟩ := ih child st1 hr1
      refine ⟨st2, ?_⟩
      simp only [GetNode.loop, hf, hfind, Res.bind, walkPath, hl,
        walkPath_congr src st st1 h hr1 hm1]

theorem pieces_ne_nil : ∀ cs : List Char, pieces cs ≠ [] := by
  intro cs
  cases cs with
  | nil => simp [pieces]
  | cons c cs =>
    simp only [pieces]
    split
    · simp
    · split <;> simp

/-- No piece contains a separator. -/
theorem pieces_no_separator :
    ∀ cs : List Char, ∀ piece ∈ pieces cs, ∀ c ∈ piece, isSeparator c = false := by
  intro cs
  induction cs with
  | nil =>
    intro piece hp c hc
    simp only [pieces, List.mem_singleton] at hp
    rw [hp] at hc
    exact absurd hc (List.not_mem_nil _)
  | cons x cs ih =>
    intro piece hp c hc
    simp only [pieces] at hp
    split at hp
    · rcases List.mem_cons.1 hp with h | h
      · rw [h] at hc
        exact absurd hc (List.not_mem_nil _)
      · exact ih piece h c hc
    · rename_i hx
      split at hp
      · simp only [List.mem_singleton] at hp
        rw [hp, List.mem_singleton] at hc
        rw [hc]
        simpa using hx
      · rename_i p more hpm
        rcases List.mem_cons.1 hp with h | h
        · rw [h] at hc
          rcases List.mem_cons.1 hc with h2 | h2
          · rw [h2]
            simpa using hx
          · exact ih p (by rw [hpm]; exact List.mem_cons_self _ _) c h2
        · exact ih piece (by rw [hpm]; exact List.mem_cons_of_mem _ h) c hc

/-- The scan of `Split` on a text mapped by `g`, where `g` sends exactly the
separators to the split character, gives the pieces of the text, mapped. -/
theorem Split_go_pieces (sep : Char) (g : Char → Char)
    (hg : ∀ c, g c = sep ↔ isSeparator c = true) :
    ∀ (cs cur : List Char),
      Split.go sep (cs.map g) cur =
        match pieces cs with
        | [] => [String.mk cur.reverse]
        | piece :: more =>
          String.mk (cur.reverse ++ piece.map g) :: more.map fun l => String.mk (l.map g) := by
  intro cs
  induction cs with
  | nil =>
    intro cur
    simp [Split.go, pieces]
  | cons x cs ih =>
    intro cur
    simp only [List.map_cons, Split.go, pieces]
    by_cases hx : isSeparator x = true
    · rw [if_pos ((hg x).2 hx), if_pos hx, ih []]
      cases hp : pieces cs with
      | nil => exact absurd hp (pieces_ne_nil cs)
      | cons p more => simp
    · rw [if_neg (fun h => hx ((hg x).1 h)), if_neg hx, ih (g x :: cur)]
      cases hp : pieces cs with
      | nil => simp
      | cons p more => simp

theorem pieces_cons_separator (c : Char) (cs : List Char) (h : isSeparator c = true) :
    pieces (c :: cs) = [] :: pieces cs := by
  simp only [pieces, h, if_true]

theorem pieces_cons_other (c : Char) (cs p : List Char) (more : List (List Char))
    (h : isSeparator c = false) (hp : pieces cs = p :: more) :
    pieces (c :: cs) = (c :: p) :: more := by
  simp only [pieces, h, hp, Bool.false_eq_true, if_false]

theorem pieces_concat_separator (x : Char) (hx : isSeparator x = true) :
    ∀ l : List Char, pieces (l ++ [x]) = pieces l ++ [[]] := by
  intro l
  induction l with
  | nil => simp [pieces, hx]
  | cons c l ih =>
    rw [List.cons_append]
    cases hp : pieces l with
    | nil => exact absurd hp (pieces_ne_nil l)
    | cons p more =>
      rw [hp] at ih
      have ih2 : pieces (l ++ [x]) = p :: (more ++ [[]]) := ih
      cases hc : isSeparator c with
      | true =>
        rw [pieces_cons_separator _ _ hc, pieces_cons_separator _ _ hc, ih, hp]
        rfl
      | false =>
        rw [pieces_cons_other c _ p (more ++ [[]]) hc ih2, pieces_cons_other c _ p more hc hp]
        rfl

theorem pieces_concat_getLast (x : Char) (hx : isSeparator x = false) :
    ∀ l : List Char, ∃ piece, (pieces (l ++ [x])).getLast? = some (piece ++ [x]) := by
  intro l
  induction l with
  | nil => exact ⟨[], by simp [pieces, hx]⟩
  | cons c l ih =>
    obtain ⟨piece, hp⟩ := ih
    rw [List.cons_append]
    cases hq : pieces (l ++ [x]) with
    | nil => exact absurd hq (pieces_ne_nil _)
    | cons q more =>
      rw [hq] at hp
      cases hc : isSeparator c with
      | true =>
        refine ⟨piece, ?_⟩
        rw [pieces_cons_separator _ _ hc, hq, List.getLast?_cons_cons]
        exact hp
      | false =>
        rw [pieces_cons_other c _ q more hc hq]
        cases more with
        | nil =>
          simp only [List.getLast?_singleton, Option.some.injEq] at hp
          exact ⟨c :: piece, by simp [hp]⟩
        | cons m more =>
          refine ⟨piece, ?_⟩
          simp only [List.getLast?_cons_cons] at hp ⊢
          exact hp

theorem pieces_dropLeading (cs : List Char) (h : cs ≠ []) :
    ∃ first rest, pieces cs = first :: rest ∧
      (if first = [] then rest else first :: rest) = pieces (dropLeadingSeparator cs) := by
  cases cs with
  | nil => exact absurd rfl h
  | cons c cs =>
    cases hc : isSeparator c with
    | true =>
      refine ⟨[], pieces cs, pieces_cons_separator c cs hc, ?_⟩
      simp only [dropLeadingSeparator, hc, if_true]
    | false =>
      cases hp : pieces cs with
      | nil => exact absurd hp (pieces_ne_nil cs)
      | cons p more =>
        refine ⟨c :: p, more, pieces_cons_other c cs p more hc hp, ?_⟩
        rw [if_neg (List.cons_ne_nil _ _)]
        simp only [dropLeadingSeparator, hc, Bool.false_eq_true, if_false]
        exact (pieces_cons_other c cs p more hc hp).symm

theorem pieces_dropTrailing (cs : List Char) (h : cs ≠ []) :
    ∃ last, (pieces cs).getLast? = some last ∧
      (if last = [] then (pieces cs).dropLast else pieces cs)
        = pieces (dropTrailingSeparator cs) := by
  rcases List.eq_nil_or_concat cs with h0 | ⟨init, x, e⟩
  · exact absurd h0 h
  · rw [List.concat_eq_append] at e
    subst e
    cases hx : isSeparator x with
    | true =>
      refine ⟨[], ?_, ?_⟩
      · rw [pieces_concat_separator x hx, List.getLast?_concat]
      · rw [if_pos rfl, pieces_concat_separator x hx, List.dropLast_concat]
        simp only [dropTrailingSeparator, List.getLast?_concat, hx, if_true,
          List.dropLast_concat]
    | false =>
      obtain ⟨piece, hp⟩ := pieces_concat_getLast x hx init
      refine ⟨piece ++ [x], hp, ?_⟩
      rw [if_neg (by simp)]
      simp only [dropTrailingSeparator, List.getLast?_concat, hx, Bool.false_eq_true, if_false]

theorem mk_eq_empty (l : List Char) : String.mk l = "" ↔ l = [] := by
  constructor
  · intro h
    exact congrArg String.data h
  · intro h
    rw [h]

/-- For a path that is neither empty nor one separator, `GetNode` runs its
outer loop on the path components: with a lower-casing that works character by
character and keeps `/` apart, splitting the lower-cased path at `/` and
dropping an empty first and an empty last piece gives the components. -/
theorem GetNode_components (src : AliasSource) (registry : Registry)
    (st : Option (List (String × String))) (lower : Char → Char)
    (hlower : ∀ s, src.ToLower s = String.mk (s.data.map lower))
    (hslash : ∀ c, lower c = '/' ↔ c = '/') (path : String)
    (hroot : ¬ (path = "" ∨ path = "/" ∨ path = String.singleton backslash)) :
    GetNode src registry st path =
      GetNode.loop src (pathComponents src.ToLower path) registry.Hive st := by
  obtain ⟨cs⟩ := path
  have hsep : ∀ c, isSeparator c = true ↔ (c = '/' ∨ c = backslash) := by
    intro c
    simp [isSeparator]
  have hg : ∀ c, lower (if c = Char.ofNat 0x5C then '/' else c) = '/' ↔ isSeparator c = true := by
    intro c
    rw [hslash, hsep]
    by_cases hc : c = Char.ofNat 0x5C
    · rw [if_pos hc]
      exact ⟨fun _ => Or.inr hc, fun _ => rfl⟩
    · rw [if_neg hc]
      exact ⟨fun h => Or.inl h, fun h => h.resolve_right hc⟩
  have hcs : cs ≠ [] := by
    rintro rfl
    exact hroot (Or.inl rfl)
  have hone : ∀ c, isSeparator c = true → cs ≠ [c] := by
    intro c hc e
    rcases (hsep c).1 hc with h | h
    · exact hroot (Or.inr (Or.inl (by rw [e, h])))
    · exact hroot (Or.inr (Or.inr (by rw [e, h]; rfl)))
  have hcs1 : dropLeadingSeparator cs ≠ [] := by
    cases cs with
    | nil => exact absurd rfl hcs
    | cons c cs =>
      cases hc : isSeparator c with
      | true =>
        simp only [dropLeadingSeparator, hc, if_true]
        rintro rfl
        exact hone c hc rfl
      | false => simp [dropLeadingSeparator, hc]
  have hq : ¬ (ReplaceAll ⟨cs⟩ (Char.ofNat 0x5C) '/' = "" ∨
      ReplaceAll ⟨cs⟩ (Char.ofNat 0x5C) '/' = "/") := by
    rintro (h | h)
    · have := congrArg String.data h
      simp only [ReplaceAll] at this
      exact hcs (List.map_eq_nil_iff.1 this)
    · have := congrArg String.data h
      simp only [ReplaceAll] at this
      have e : List.map (fun c => if c = Char.ofNat 0x5C then '/' else c) cs = [ '/' ] := this
      rcases cs with _ | ⟨c, _ | ⟨c2, t⟩⟩
      · exact absurd rfl hcs
      · simp only [List.map_cons, List.map_nil, List.cons.injEq, and_true] at e
        exact hone c ((hg c).1 ((hslash _).2 e)) rfl
      · simp at e
  have hnodes : Split (src.ToLower (ReplaceAll ⟨cs⟩ (Char.ofNat 0x5C) '/')) '/' =
      (pieces cs).map fun l =>
        String.mk (l.map fun c => lower (if c = Char.ofNat 0x5C then '/' else c)) := by
    rw [hlower]
    simp only [Split, ReplaceAll, List.map_map]
    have := Split_go_pieces '/' (fun c => lower (if c = Char.ofNat 0x5C then '/' else c)) hg cs []
    rw [show (lower ∘ fun c => if c = Char.ofNat 0x5C then '/' else c)
      = fun c => lower (if c = Char.ofNat 0x5C then '/' else c) from rfl, this]
    cases hp : pieces cs with
    | nil => exact absurd hp (pieces_ne_nil cs)
    | cons p more => simp
  have hF : ∀ l : List Char,
      String.mk (l.map fun c => lower (if c = Char.ofNat 0x5C then '/' else c)) = "" ↔ l = [] := by
    intro l
    rw [mk_eq_empty, List.map_eq_nil_iff]
  have hcomp : ∀ l ∈ pieces (dropTrailingSeparator (dropLeadingSeparator cs)),
      String.mk (l.map fun c => lower (if c = Char.ofNat 0x5C then '/' else c))
        = src.ToLower (String.mk l) := by
    intro l hl
    rw [hlower]
    congr 1
    apply List.map_congr_left
    intro c hc
    have hn := pieces_no_separator _ l hl c hc
    have : c ≠ Char.ofNat 0x5C := by
      intro e
      have := (hsep c).2 (Or.inr e)
      rw [hn] at this
      exact absurd this (by decide)
    rw [if_neg this]
  obtain ⟨first, rest, hp, hlead⟩ := pieces_dropLeading cs hcs
  obtain ⟨last, hlast, htrail⟩ := pieces_dropTrailing (dropLeadingSeparator cs) hcs1
  simp only [GetNode, hq, if_false, hnodes]
  rw [hp]
  simp only [List.map_cons, hF]
  have hmapdrop : (if first = [] then
        (String.mk (first.map fun c => lower (if c = Char.ofNat 0x5C then '/' else c)) ::
          rest.map fun l =>
            String.mk (l.map fun c => lower (if c = Char.ofNat 0x5C then '/' else c))).drop 1
      else
        String.mk (first.map fun c => lower (if c = Char.ofNat 0x5C then '/' else c)) ::
          rest.map fun l =>
            String.mk (l.map fun c => lower (if c = Char.ofNat 0x5C then '/' else c)))
      = (pieces (dropLeadingSeparator cs)).map fun l =>
          String.mk (l.map fun c => lower (if c = Char.ofNat 0x5C then '/' else c)) := by
    rw [← hlead]
    split <;> simp
  rw [hmapdrop, List.getLast?_map, hlast]
  simp only [Option.map_some', hF, List.length_map]
  have hmaptake : (if last = [] then
        ((pieces (dropLeadingSeparator cs)).map fun l =>
          String.mk (l.map fun c => lower (if c = Char.ofNat 0x5C then '/' else c))).take
            ((pieces (dropLeadingSeparator cs)).length - 1)
      else
        (pieces (dropLeadingSeparator cs)).map fun l =>
          String.mk (l.map fun c => lower (if c = Char.ofNat 0x5C then '/' else c)))
      = (pieces (dropTrailingSeparator (dropLeadingSeparator cs))).map fun l =>
          String.mk (l.map fun c => lower (if c = Char.ofNat 0x5C then '/' else c)) := by
    rw [← htrail]
    split
    · rw [List.dropLast_eq_take, List.map_take]
    · rfl
  rw [hmaptake, List.map_congr_left hcomp]
  rfl

theorem GetNode_root (src : AliasSource) (registry : Registry)
    (st : Option (List (String × String))) (path : String)
    (h : path = "" ∨ path = "/" ∨ path = String.singleton backslash) :
    GetNode src registry st path = .ok (.node registry.Hive, st) := by
  rcases h with h | h | h <;> subst h <;> rfl

theorem lower_root (src : AliasSource) (lower : Char → Char)
    (hlower : ∀ s, src.ToLower s = String.mk (s.data.map lower))
    (hslash : ∀ c, lower c = '/' ↔ c = '/') (q : String) :
    (q = "" ∨ q = "/") ↔ (src.ToLower q = "" ∨ src.ToLower q = "/") := by
  obtain ⟨l⟩ := q
  rw [hlower]
  have e1 : (String.mk l = "") ↔ l = [] := mk_eq_empty l
  have e2 : (String.mk (l.map lower) = "") ↔ l = [] := by
    rw [mk_eq_empty, List.map_eq_nil_iff]
  have e3 : ∀ k : List Char, (String.mk k = "/") ↔ k = [ '/' ] := by
    intro k
    constructor
    · intro h
      exact congrArg String.data h
    · intro h
      rw [h]
  rw [e1, e2, e3, e3]
  constructor
  · rintro (h | h)
    · exact Or.inl h
    · right
      rw [h]
      simp only [List.map_cons, List.map_nil, List.cons.injEq, and_true]
      exact (hslash _).2 rfl
  · rintro (h | h)
    · exact Or.inl h
    · right
      rcases l with _ | ⟨c, _ | ⟨c2, t⟩⟩
      · simp at h
      · simp only [List.map_cons, List.map_nil, List.cons.injEq, and_true] at h
        rw [(hslash c).1 h]
      · simp at h

theorem map_replace_congr (lower : Char → Char)
    (hback : ∀ c, lower c = backslash ↔ c = backslash) :
    ∀ l2 l : List Char, l2.map lower = l.map lower →
      (l2.map fun c => if c = Char.ofNat 0x5C then '/' else c).map lower
        = (l.map fun c => if c = Char.ofNat 0x5C then '/' else c).map lower := by
  have hb : backslash = Char.ofNat 0x5C := rfl
  have point : ∀ a b, lower a = lower b →
      lower (if a = Char.ofNat 0x5C then '/' else a)
        = lower (if b = Char.ofNat 0x5C then '/' else b) := by
    intro a b h
    by_cases ha : a = Char.ofNat 0x5C
    · have hbb : b = Char.ofNat 0x5C := by
        rw [← hb] at ha ⊢
        apply (hback b).1
        rw [← h, ha]
        exact (hback _).2 rfl
      rw [if_pos ha, if_pos hbb]
    · have hbb : ¬ b = Char.ofNat 0x5C := by
        intro e
        apply ha
        rw [← hb] at e ⊢
        apply (hback a).1
        rw [h, e]
        exact (hback _).2 rfl
      rw [if_neg ha, if_neg hbb, h]
  intro l2
  induction l2 with
  | nil =>
    intro l h
    cases l with
    | nil => rfl
    | cons c l => simp at h
  | cons a l2 ih =>
    intro l h
    cases l with
    | nil => simp at h
    | cons b l =>
      simp only [List.map_cons, List.cons.injEq] at h ⊢
      exact ⟨point a b h.1, ih l h.2⟩

/-- Two paths that differ only in letter case, or only in the use of `/`
versus `\`, have the same outcome. -/
theorem GetNode_congr (src : AliasSource) (registry : Registry)
    (st : Option (List (String × String))) (lower : Char → Char)
    (hlower : ∀ s, src.ToLower s = String.mk (s.data.map lower))
    (hslash : ∀ c, lower c = '/' ↔ c = '/')
    (hback : ∀ c, lower c = backslash ↔ c = backslash) (path path2 : String)
    (h : src.ToLower path2 = src.ToLower path ∨
      ReplaceAll path2 backslash '/' = ReplaceAll path backslash '/') :
    GetNode src registry st path2 = GetNode src registry st path := by
  have e : src.ToLower (ReplaceAll path2 (Char.ofNat 0x5C) '/')
      = src.ToLower (ReplaceAll path (Char.ofNat 0x5C) '/') := by
    rcases h with h | h
    · rw [hlower, hlower]
      congr 1
      apply map_replace_congr lower hback
      rw [hlower, hlower] at h
      exact congrArg String.data h
    · have h2 : ReplaceAll path2 (Char.ofNat 0x5C) '/' = ReplaceAll path (Char.ofNat 0x5C) '/' :=
        h
      rw [h2]
  simp only [GetNode]
  generalize ReplaceAll path2 (Char.ofNat 0x5C) '/' = q2 at e ⊢
  generalize ReplaceAll path (Char.ofNat 0x5C) '/' = q at e ⊢
  have r2 := lower_root src lower hlower hslash q2
  have r1 := lower_root src lower hlower hslash q
  rw [e] at r2
  have r : (q2 = "" ∨ q2 = "/") ↔ (q = "" ∨ q = "/") := r2.trans r1.symm
  by_cases hq : q = "" ∨ q = "/"
  · rw [if_pos hq, if_pos (r.2 hq)]
  · rw [if_neg hq, if_neg (fun h => hq (r.1 h)), e]

theorem toLower_eq_iff (k : Char) (hk : k.toLower = k) (hk2 : ¬ (97 ≤ k.toNat ∧ k.toNat ≤ 122))
    (c : Char) : c.toLower = k ↔ c = k := by
  have hv : ∀ c : Char,
      c.toLower = if 65 ≤ c.toNat ∧ c.toNat ≤ 90 then Char.ofNat (c.toNat + 32) else c :=
    fun _ => rfl
  by_cases h : 65 ≤ c.toNat ∧ c.toNat ≤ 90
  · have hne : c ≠ k := by
      rintro rfl
      rw [hv c, if_pos h] at hk
      have := congrArg Char.toNat hk
      have hc : c = Char.ofNat c.toNat := (Char.ofNat_toNat c).symm
      obtain ⟨h1, h2⟩ := h
      generalize c.toNat = n at hc h1 h2 this
      subst hc
      interval_cases n <;> exact absurd this (by decide)
    have hne2 : c.toLower ≠ k := by
      intro e
      apply hk2
      rw [← e, hv c, if_pos h]
      have hc : c = Char.ofNat c.toNat := (Char.ofNat_toNat c).symm
      obtain ⟨h1, h2⟩ := h
      generalize c.toNat = n at hc h1 h2
      interval_cases n <;> decide
    exact ⟨fun e => absurd e hne2, fun e => absurd e hne⟩
  · rw [hv c, if_neg h]

/-- C22: for a usable alias source and a lower-casing that works character by
character and keeps `/` and `\` apart, `GetNode` returns the result of the
lookup by path: the root for the empty path and for `/`; otherwise the
descent along the lower-cased components of the path, split at `/` and `\`
with one leading and one trailing separator ignored, at each level into the
first child whose lower-cased raw name or aliased name equals the component.
It returns a not-found error exactly when a component has no matching child,
and its outcome is the same for two paths that differ only in letter case or
only in the use of `/` versus `\`. -/
theorem GetNode_lookup (src : AliasSource) (registry : Registry)
    (nodeKeys : Option (List (String × String))) (lower : Char → Char) (path : String)
    (hready : aliasReady src nodeKeys)
    (hlower : ∀ s, src.ToLower s = String.mk (s.data.map lower))
    (hslash : ∀ c, lower c = '/' ↔ c = '/')
    (hback : ∀ c, lower c = backslash ↔ c = backslash) :
    (∃ st, GetNode src registry nodeKeys path =
      .ok (lookupResult (lookupPath src nodeKeys registry.Hive path), st)) ∧
    (path = "" ∨ path = "/" →
      GetNode src registry nodeKeys path = .ok (.node registry.Hive, nodeKeys)) ∧
    ((∃ msg st, GetNode src registry nodeKeys path = .ok (.err msg, st)) ↔
      ∃ component, lookupPath src nodeKeys registry.Hive path = .error component) ∧
    (∀ path2, src.ToLower path2 = src.ToLower path ∨
        ReplaceAll path2 backslash '/' = ReplaceAll path backslash '/' →
      GetNode src registry nodeKeys path2 = GetNode src registry nodeKeys path) := by
  have main : ∃ st, GetNode src registry nodeKeys path =
      .ok (lookupResult (lookupPath src nodeKeys registry.Hive path), st) := by
    by_cases hroot : path = "" ∨ path = "/" ∨ path = String.singleton backslash
    · refine ⟨nodeKeys, ?_⟩
      rw [GetNode_root src registry nodeKeys path hroot]
      simp only [lookupPath, hroot, if_true, lookupResult]
    · rw [GetNode_components src registry nodeKeys lower hlower hslash path hroot]
      simp only [lookupPath, hroot, if_false]
      exact loop_eq src _ registry.Hive nodeKeys hready
  refine ⟨main, ?_, ?_, ?_⟩
  · intro h
    exact GetNode_root src registry nodeKeys path (by tauto)
  · obtain ⟨st, hm⟩ := main
    rw [hm]
    cases hl : lookupPath src nodeKeys registry.Hive path with
    | ok n =>
      simp only [lookupResult]
      constructor
      · rintro ⟨msg, st2, e⟩
        injection e with e
        injection e with e1 _
        injection e1
      · rintro ⟨c, e⟩
        injection e
    | error c =>
      simp only [lookupResult]
      exact ⟨fun _ => ⟨c, rfl⟩, fun _ => ⟨_, st, rfl⟩⟩
  · intro path2 h
    exact GetNode_congr src registry nodeKeys lower hlower hslash hback path path2 h

/-- C22 on the example tree, with the alias `12000004 ↦ description` loaded at
the first access: the path `/objects\ELEMENTS/Description/` leads to the
element node `12000004`, found by its aliased name. -/
theorem GetNode_lookup_witness :
    lookupPath (aliasFile descriptionAlias) none exampleRegistry.Hive examplePath
      = .ok (.mk "12000004" [] [] 6) ∧
    lookupPath (aliasFile descriptionAlias) none exampleRegistry.Hive "objects/missing"
      = .error "missing" ∧
    (∃ st, GetNode (aliasFile descriptionAlias) exampleRegistry none examplePath =
      .ok (lookupResult
        (lookupPath (aliasFile descriptionAlias) none exampleRegistry.Hive examplePath), st)) :=
  ⟨rfl, rfl,
    (GetNode_lookup (aliasFile descriptionAlias) exampleRegistry none Char.toLower examplePath
      (Or.inr (by decide)) (fun _ => rfl)
      (toLower_eq_iff '/' (by decide) (by decide))
      (toLower_eq_iff backslash (by decide) (by decide))).1⟩

end Reghive
